import Mathlib

/-!
Serial command-line interpreter (`lib/cmd/cmd.cpp`, `lib/cmd/cmd.h`)

Shallow embedding of the `Cmd` class of the LED screen controller firmware.

* Bytes are natural numbers; the transport delivers values below 256.
* A C string is the list of its bytes before the terminating NUL.
* A heap block is the list of its cells.  `malloc` does not initialise the
  block, so its cells are given by an arbitrary function `g : Nat → Nat`.
* A null pointer is `none`.  An access through a null pointer, an access past
  the end of a block and a string read that finds no terminator inside the
  block are undefined behaviour in C; the embedding returns `none` for them.
* The transport (`Serial`) is a pair of byte lists: the bytes still unread and
  the bytes written.  A handler invocation is recorded as a `Call`.
* The handler `run_countdown_tests` of `src/main.cpp` is embedded with its
  operations on the matrix panel as result.  The width of `int` and what
  `atoi` returns for a number that does not fit are parameters.
-/

namespace LedCmd

/-! ## Library primitives -/

/-- ASCII lower-casing of one byte (`tolower` in the C locale). -/
def tolower (b : Nat) : Nat := if 65 ≤ b ∧ b ≤ 90 then b + 32 else b

/-- Value of `strcasecmp_P(a, b)` for two C strings: the difference of the
first pair of lower-cased bytes that differ, the end of a string counting as
byte 0. -/
def strcasecmp_P : List Nat → List Nat → Int
  | [], [] => 0
  | [], y :: _ => -(tolower y : Int)
  | x :: _, [] => (tolower x : Int)
  | x :: xs, y :: ys =>
    if tolower x = tolower y then strcasecmp_P xs ys
    else (tolower x : Int) - (tolower y : Int)

/-- Contents of a fresh heap block of `n` cells; `g` gives the garbage. -/
def malloc (g : Nat → Nat) (n : Nat) : List Nat := (List.range n).map g

/-- The C string stored at the start of a block: the bytes before the first
NUL, or `none` when the block holds no NUL (the read runs off the block). -/
def cstr (cells : List Nat) : Option (List Nat) :=
  if 0 ∈ cells then some (cells.takeWhile (fun b => b != 0)) else none

/-- Block `dst` after `strcpy(dst, src)`: the string of `src` and its
terminator, followed by the untouched cells of `dst`. -/
def strcpy (dst src : List Nat) : Option (List Nat) :=
  match cstr src with
  | none => none
  | some s =>
    if s.length < dst.length then some (s ++ 0 :: dst.drop (s.length + 1)) else none

/-- Store `cells[i] = v`. -/
def writeAt (cells : List Nat) (i v : Nat) : Option (List Nat) :=
  if i < cells.length then some (cells.set i v) else none

/-- One `strtok` call on the text `str` that is left to scan, with delimiter
set `delim`: the token found (`none` is the null pointer) and the text left
for the next call. -/
def strtok (str delim : List Nat) : Option (List Nat) × List Nat :=
  match str.dropWhile (fun b => decide (b ∈ delim)) with
  | [] => (none, [])
  | b :: s =>
    (some ((b :: s).takeWhile (fun x => !decide (x ∈ delim))),
      ((b :: s).dropWhile (fun x => !decide (x ∈ delim))).drop 1)

/-- Bytes written by `Serial.println()`. -/
def CRLF : List Nat := [13, 10]

/-- The text "Data too large." -/
def dataTooLarge : List Nat :=
  [68, 97, 116, 97, 32, 116, 111, 111, 32, 108, 97, 114, 103, 101, 46]

/-- The text "Calling default function" -/
def callingDefault : List Nat :=
  [67, 97, 108, 108, 105, 110, 103, 32, 100, 101, 102, 97, 117, 108, 116, 32,
   102, 117, 110, 99, 116, 105, 111, 110]

/-- Cursor-left sequence `ESC [ D`. -/
def escD : List Nat := [27, 91, 68]

/-- Cursor-right sequence `ESC [ C`. -/
def escC : List Nat := [27, 91, 67]

/-! ## The `Cmd` object -/

/-- Fields of `class Cmd` (cmd.h).  `m_bufferTok` is null outside
`ParseBuffer` and `PrintHelp` and is kept local to them. -/
structure Cmd where
  m_commands : List (Option (List Nat))
  m_functions : List Nat
  m_defaultFunction : Nat
  m_size : Nat
  m_nextCmd : Nat
  m_echo : Bool
  m_processing : Bool
  m_separator : List Nat
  m_line_indicator : List Nat
  m_buffer_size : Nat
  m_buffer : Option (List Nat)
  m_buffer_read : Nat
  m_buffer_reading_esc : Nat
  m_buffer_cursor : Nat
  deriving DecidableEq, Repr

/-- One handler invocation `f(this, command, printHelp)`.  `slot` is `some i`
for `m_functions[i]` and `none` for `m_defaultFunction`; `fn` is the function
pointer called; `saved` is the text `strtok` has left for `Parse()`. -/
structure Call where
  slot : Option Nat
  fn : Nat
  command : Option (List Nat)
  printHelp : Bool
  saved : List Nat
  deriving DecidableEq, Repr

/-- How one pass of the read loop ends: `next` is `continue` (or falling off
the end of the body), `endLine` is the `break` after a carriage return,
`overflow` is the `break` after the line was aborted and the transport
drained. -/
inductive Flow where
  | next
  | endLine
  | overflow
  deriving DecidableEq, Repr

/-- Effect of one pass of the read loop. -/
structure Step where
  cmd : Cmd
  tx : List Nat
  calls : List Call
  flow : Flow
  deriving DecidableEq, Repr

/-- Effect of one `Loop()` call: the object, the bytes left unread on the
transport, the bytes written and the handlers invoked. -/
structure LoopResult where
  cmd : Cmd
  rx : List Nat
  tx : List Nat
  calls : List Call
  deriving DecidableEq, Repr

namespace Cmd

set_option linter.dupNamespace false in
/-- Constructor `Cmd::Cmd(size, defaultCallback)` with the member defaults of
cmd.h; `gc` and `gf` give the uninitialised cells of the two tables. -/
def Cmd (size : Nat) (defaultCallback : Nat) (gc : Nat → Option (List Nat))
    (gf : Nat → Nat) : LedCmd.Cmd :=
  { m_commands := (List.range size).map gc
    m_functions := (List.range size).map gf
    m_defaultFunction := defaultCallback
    m_size := size
    m_nextCmd := 0
    m_echo := true
    m_processing := false
    m_separator := [32]
    m_line_indicator := [36, 32]
    m_buffer_size := 50
    m_buffer := none
    m_buffer_read := 0
    m_buffer_reading_esc := 0
    m_buffer_cursor := 0 }

/-- Method `AddCmd`: the result and the object afterwards. -/
def AddCmd (c : LedCmd.Cmd) (cmd : List Nat) (function : Nat) : Bool × LedCmd.Cmd :=
  if c.m_nextCmd ≥ c.m_size then (false, c)
  else
    (true,
      { c with
        m_commands := c.m_commands.set c.m_nextCmd (some cmd)
        m_functions := c.m_functions.set c.m_nextCmd function
        m_nextCmd := c.m_nextCmd + 1 })

def GetSize (c : LedCmd.Cmd) : Nat := c.m_size

def GetEcho (c : LedCmd.Cmd) : Bool := c.m_echo

def SetEcho (c : LedCmd.Cmd) (echo : Bool) : LedCmd.Cmd := { c with m_echo := echo }

def GetSeparator (c : LedCmd.Cmd) : List Nat := c.m_separator

def SetSeparator (c : LedCmd.Cmd) (separator : List Nat) : LedCmd.Cmd :=
  { c with m_separator := separator }

def GetLineIndicator (c : LedCmd.Cmd) : List Nat := c.m_line_indicator

def SetLineIndicator (c : LedCmd.Cmd) (line_indicator : List Nat) : LedCmd.Cmd :=
  { c with m_line_indicator := line_indicator }

def GetBufferSize (c : LedCmd.Cmd) : Nat := c.m_buffer_size

def SetBufferSize (c : LedCmd.Cmd) (bufferSize : Nat) : LedCmd.Cmd :=
  { c with m_buffer_size := bufferSize }

/-- Method `StartNewBuffer`: frees the line buffer, sets the pointer to null
and prints the line indicator.  The counters are left as they are. -/
def StartNewBuffer (c : LedCmd.Cmd) : LedCmd.Cmd × List Nat :=
  ({ c with m_buffer := none }, c.m_line_indicator)

/-- Method `PrintBuffer`. -/
def PrintBuffer (c : LedCmd.Cmd) : Option (LedCmd.Cmd × List Nat) :=
  if c.m_processing then some (c, [])
  else
    match c.m_buffer with
    | none => none
    | some cells =>
      match writeAt cells c.m_buffer_read 0 with
      | none => none
      | some cells1 =>
        match cstr cells1 with
        | none => none
        | some s =>
          some ({ c with m_buffer := some cells1 },
            c.m_line_indicator ++ s ++
              List.replicate (c.m_buffer_read - c.m_buffer_cursor) 8)

/-- Method `Parse`, called by a handler: the next token and the text left. -/
def Parse (c : LedCmd.Cmd) (saved : List Nat) : Option (List Nat) × List Nat :=
  strtok saved c.m_separator

/-- The scan `for (i = 0; i < m_size && m_commands[i] != NULL; i++)` of
`ParseBuffer` and `PrintHelp`, started at index `i` on the slots from `i` on:
the index of the first slot whose name compares equal to `cmd`. -/
def scanCommands (cmd : List Nat) : List (Option (List Nat)) → Nat → Option Nat
  | [], _ => none
  | none :: _, _ => none
  | some name :: rest, i =>
    if strcasecmp_P cmd name = 0 then some i else scanCommands cmd rest (i + 1)

/-- The handler invocation made by `ParseBuffer` (`printHelp = false`) and by
`PrintHelp` (`printHelp = true`) for the first token `cmd`. -/
def invoke (c : LedCmd.Cmd) (cmd : Option (List Nat)) (saved : List Nat)
    (printHelp : Bool) : Call :=
  match cmd with
  | none => ⟨none, c.m_defaultFunction, cmd, printHelp, saved⟩
  | some t =>
    match scanCommands t (c.m_commands.take c.m_size) 0 with
    | some i => ⟨some i, c.m_functions.getD i 0, cmd, printHelp, saved⟩
    | none => ⟨none, c.m_defaultFunction, cmd, printHelp, saved⟩

/-- Method `ParseBuffer`. -/
def ParseBuffer (g : Nat → Nat) (c : LedCmd.Cmd) : Option (LedCmd.Cmd × List Call) :=
  match c.m_buffer with
  | none => none
  | some cells =>
    match strcpy (malloc g c.m_buffer_size) cells with
    | none => none
    | some bufferTok =>
      match cstr bufferTok with
      | none => none
      | some s =>
        let tok := strtok s c.m_separator
        some ({ c with m_processing := false }, [invoke c tok.1 tok.2 false])

/-- Method `PrintHelp`. -/
def PrintHelp (g : Nat → Nat) (c : LedCmd.Cmd) :
    Option (LedCmd.Cmd × List Nat × List Call) :=
  match c.m_buffer with
  | none => none
  | some cells =>
    match strcpy (malloc g c.m_buffer_size) cells with
    | none => none
    | some bufferTok =>
      match cstr bufferTok with
      | none => none
      | some s =>
        let tok := strtok s c.m_separator
        let call := invoke c tok.1 tok.2 true
        let note := if call.slot = none then callingDefault ++ CRLF else []
        match PrintBuffer { c with m_processing := false } with
        | none => none
        | some (c1, out) => some (c1, CRLF ++ note ++ CRLF ++ out, [call])

/-! ## The read loop of `Loop()` -/

/-- The loop `for (i = m_buffer_cursor; i < m_buffer_read; i++)
{ m_buffer[i - 1] = buf[i]; Serial.write(buf[i]); }` of the delete branch,
with `n` passes left and `i` the current index: the block afterwards and the
bytes written. -/
def shiftLeft (buf : List Nat) : Nat → Nat → List Nat → Option (List Nat × List Nat)
  | 0, _, cells => some (cells, [])
  | n + 1, i, cells =>
    match buf.get? i with
    | none => none
    | some v =>
      match writeAt cells (i - 1) v with
      | none => none
      | some cells1 =>
        match shiftLeft buf n (i + 1) cells1 with
        | none => none
        | some (cells2, out) => some (cells2, v :: out)

/-- The loop `for (i = m_buffer_cursor; i < m_buffer_read; i++)
{ m_buffer[i + 1] = buf[i]; Serial.write(buf[i]); }` of the insert branch,
with `n` passes left and `i` the current index. -/
def shiftRight (buf : List Nat) : Nat → Nat → List Nat → Option (List Nat × List Nat)
  | 0, _, cells => some (cells, [])
  | n + 1, i, cells =>
    match buf.get? i with
    | none => none
    | some v =>
      match writeAt cells (i + 1) v with
      | none => none
      | some cells1 =>
        match shiftRight buf n (i + 1) cells1 with
        | none => none
        | some (cells2, out) => some (cells2, v :: out)

/-- Lines 234-270: backspace or delete key. -/
def deleteKey (g : Nat → Nat) (c : LedCmd.Cmd) (byteRead : Nat) :
    Option (LedCmd.Cmd × List Nat) :=
  if byteRead = 8 ∨ byteRead = 127 then
    if c.m_buffer_read ≠ 0 ∧ c.m_buffer_cursor ≠ 0 then
      match
        (if c.m_buffer_cursor ≠ c.m_buffer_read then
          match c.m_buffer with
          | none => none
          | some cells =>
            match strcpy (malloc g c.m_buffer_size) cells with
            | none => none
            | some buf =>
              match shiftLeft buf (c.m_buffer_read - c.m_buffer_cursor)
                  c.m_buffer_cursor cells with
              | none => none
              | some (cells1, out) =>
                some (some cells1, [8, 27, 91, 49, 80] ++ out ++
                  List.replicate (c.m_buffer_read - c.m_buffer_cursor) 8)
        else some (c.m_buffer, [8, 27, 91, 75])) with
      | none => none
      | some (none, _) => none
      | some (some cells1, out) =>
        match writeAt cells1 (c.m_buffer_read - 1) 0 with
        | none => none
        | some cells2 =>
          some ({ c with
                  m_buffer := some cells2
                  m_buffer_read := c.m_buffer_read - 1
                  m_buffer_cursor := c.m_buffer_cursor - 1 }, out)
    else some (c, [])
  else some (c, [])

/-- Lines 272-279: beginning of line (`while (m_buffer_cursor != 0)`). -/
def homeKey (c : LedCmd.Cmd) (byteRead : Nat) : LedCmd.Cmd × List Nat :=
  if byteRead = 1 then
    ({ c with m_buffer_cursor := 0 }, (List.replicate c.m_buffer_cursor escD).flatten)
  else (c, [])

/-- Lines 281-288: end of line (`while (m_buffer_cursor < m_buffer_read)`). -/
def endKey (c : LedCmd.Cmd) (byteRead : Nat) : LedCmd.Cmd × List Nat :=
  if byteRead = 5 then
    if c.m_buffer_cursor < c.m_buffer_read then
      ({ c with m_buffer_cursor := c.m_buffer_read },
        (List.replicate (c.m_buffer_read - c.m_buffer_cursor) escC).flatten)
    else (c, [])
  else (c, [])

/-- Lines 298-303: clear screen. -/
def clearKey (c : LedCmd.Cmd) (byteRead : Nat) : Option (LedCmd.Cmd × List Nat) :=
  if byteRead = 12 then
    match c.m_buffer with
    | none => none
    | some cells =>
      match writeAt cells c.m_buffer_read 0 with
      | none => none
      | some cells1 =>
        match PrintBuffer { c with m_buffer := some cells1 } with
        | none => none
        | some (c1, out) => some (c1, [27, 91, 72, 27, 91, 74] ++ out)
  else some (c, [])

/-- Lines 311-316: help request. -/
def helpKey (g : Nat → Nat) (c : LedCmd.Cmd) :
    Option (LedCmd.Cmd × List Nat × List Call) :=
  match c.m_buffer with
  | none => none
  | some cells =>
    match writeAt cells c.m_buffer_read 0 with
    | none => none
    | some cells1 => PrintHelp g { c with m_buffer := some cells1 }

/-- The test `m_buffer_read >= (m_buffer_size - 1)` of line 351.  The
subtraction is done in `size_t`: for `m_buffer_size = 0` it wraps to the
largest value, which `m_buffer_read` does not reach. -/
def tooLarge (c : LedCmd.Cmd) : Bool :=
  decide (c.m_buffer_size ≠ 0) && decide (c.m_buffer_size - 1 ≤ c.m_buffer_read)

/-- Lines 323-362: store the byte, count it and abort the line when full. -/
def insertKey (g : Nat → Nat) (c : LedCmd.Cmd) (byteRead : Nat) : Option Step :=
  match c.m_buffer with
  | none => none
  | some cells =>
    match
      (if c.m_buffer_cursor ≠ c.m_buffer_read then
        match strcpy (malloc g c.m_buffer_size) cells with
        | none => none
        | some buf =>
          match writeAt cells c.m_buffer_cursor byteRead with
          | none => none
          | some cells1 =>
            match shiftRight buf (c.m_buffer_read - c.m_buffer_cursor)
                c.m_buffer_cursor cells1 with
            | none => none
            | some (cells2, out) =>
              some (cells2, out ++
                List.replicate (c.m_buffer_read - c.m_buffer_cursor) 8)
      else
        match writeAt cells c.m_buffer_read byteRead with
        | none => none
        | some cells1 => some (cells1, [])) with
    | none => none
    | some (cells3, out) =>
      let c1 : LedCmd.Cmd :=
        { c with
          m_buffer := some cells3
          m_buffer_read := c.m_buffer_read + 1
          m_buffer_cursor := c.m_buffer_cursor + 1 }
      if tooLarge c1 then
        some ⟨(StartNewBuffer c1).1,
          out ++ dataTooLarge ++ CRLF ++ (StartNewBuffer c1).2, [], Flow.overflow⟩
      else some ⟨c1, out, [], Flow.next⟩

/-- Lines 219-362: the part of the loop body after the escape-state test. -/
def ordinaryByte (g : Nat → Nat) (c : LedCmd.Cmd) (byteRead : Nat) : Option Step :=
  let is_ascii : Bool := decide (32 ≤ byteRead) && decide (byteRead ≤ 126)
  let echo : List Nat := if c.m_echo && is_ascii then [byteRead] else []
  if byteRead = 27 then
    some ⟨{ c with m_buffer_reading_esc := 1 }, echo, [], Flow.next⟩
  else
    match deleteKey g c byteRead with
    | none => none
    | some (c1, t1) =>
      let h := homeKey c1 byteRead
      let e := endKey h.1 byteRead
      if byteRead = 3 ∨ byteRead = 4 then
        some ⟨(StartNewBuffer e.1).1,
          echo ++ t1 ++ h.2 ++ e.2 ++ CRLF ++ (StartNewBuffer e.1).2, [], Flow.next⟩
      else
        match clearKey e.1 byteRead with
        | none => none
        | some (c2, t2) =>
          if byteRead = 13 then
            some ⟨c2, echo ++ t1 ++ h.2 ++ e.2 ++ t2, [], Flow.endLine⟩
          else if byteRead = 63 then
            match helpKey g c2 with
            | none => none
            | some (c3, t3, calls) =>
              some ⟨c3, echo ++ t1 ++ h.2 ++ e.2 ++ t2 ++ t3, calls, Flow.next⟩
          else if !is_ascii then
            some ⟨c2, echo ++ t1 ++ h.2 ++ e.2 ++ t2, [], Flow.next⟩
          else
            match insertKey g c2 byteRead with
            | none => none
            | some s => some { s with tx := echo ++ t1 ++ h.2 ++ e.2 ++ t2 ++ s.tx }

/-- Lines 180-362: one pass of the read loop on the byte just read. -/
def processByte (g : Nat → Nat) (c : LedCmd.Cmd) (byteRead : Nat) : Option Step :=
  if c.m_buffer_reading_esc = 1 then
    if byteRead = 91 then
      some ⟨{ c with m_buffer_reading_esc := 2 }, [], [], Flow.next⟩
    else ordinaryByte g { c with m_buffer_reading_esc := 0 } byteRead
  else if c.m_buffer_reading_esc = 2 then
    if byteRead = 68 then
      if c.m_buffer_cursor ≤ 0 then
        some ⟨{ c with m_buffer_reading_esc := 0 }, [], [], Flow.next⟩
      else
        some ⟨{ c with
                m_buffer_reading_esc := 0
                m_buffer_cursor := c.m_buffer_cursor - 1 }, escD, [], Flow.next⟩
    else if byteRead = 67 then
      if c.m_buffer_cursor ≥ c.m_buffer_read then
        some ⟨{ c with m_buffer_reading_esc := 0 }, [], [], Flow.next⟩
      else
        some ⟨{ c with
                m_buffer_reading_esc := 0
                m_buffer_cursor := c.m_buffer_cursor + 1 }, escC, [], Flow.next⟩
    else some ⟨{ c with m_buffer_reading_esc := 0 }, [], [], Flow.next⟩
  else ordinaryByte g c byteRead

/-- Lines 179-363: the read loop over the bytes available on the transport.
The result holds the bytes left unread; `endLine` in the last component says
that the loop was left by the carriage-return `break`. -/
def readLoop (g : Nat → Nat) : LedCmd.Cmd → List Nat → Option (LoopResult × Bool)
  | c, [] => some (⟨c, [], [], []⟩, false)
  | c, byteRead :: rest =>
    match processByte g c byteRead with
    | none => none
    | some s =>
      match s.flow with
      | Flow.endLine => some (⟨s.cmd, rest, s.tx, s.calls⟩, true)
      | Flow.overflow => some (⟨s.cmd, [], s.tx, s.calls⟩, false)
      | Flow.next =>
        match readLoop g s.cmd rest with
        | none => none
        | some (r, b) => some (⟨r.cmd, r.rx, s.tx ++ r.tx, s.calls ++ r.calls⟩, b)

/-- Lines 169-174: allocate the line buffer when there is none. -/
def allocBuffer (g : Nat → Nat) (c : LedCmd.Cmd) : LedCmd.Cmd :=
  if c.m_buffer = none then
    { c with
      m_buffer := some (malloc g c.m_buffer_size)
      m_buffer_read := 0
      m_buffer_cursor := 0 }
  else c

/-- Lines 365-376: dispatch of a completed line. -/
def endOfLine (g : Nat → Nat) (c : LedCmd.Cmd) :
    Option (LedCmd.Cmd × List Nat × List Call) :=
  match c.m_buffer with
  | none => none
  | some cells =>
    match writeAt cells c.m_buffer_read 0 with
    | none => none
    | some cells1 =>
      match ParseBuffer g { c with m_buffer := some cells1 } with
      | none => none
      | some (c1, calls) => some ((StartNewBuffer c1).1, CRLF ++ (StartNewBuffer c1).2, calls)

/-- Method `Loop` with `rx` the bytes available on the transport. -/
def Loop (g : Nat → Nat) (c : LedCmd.Cmd) (rx : List Nat) : Option LoopResult :=
  if rx.length = 0 then some ⟨c, rx, [], []⟩
  else
    match readLoop g (allocBuffer g c) rx with
    | none => none
    | some (r, false) => some r
    | some (r, true) =>
      match endOfLine g r.cmd with
      | none => none
      | some (c1, out, calls) => some ⟨c1, r.rx, r.tx ++ out, r.calls ++ calls⟩

/-- The bytes of the line being edited (`m_buffer[0 .. m_buffer_read)`); a
null buffer has none. -/
def content (c : LedCmd.Cmd) : List Nat :=
  match c.m_buffer with
  | none => []
  | some cells => cells.take c.m_buffer_read

/-- Successive `Loop()` calls.  `rx` is what the transport holds before the
first call; each element of the list is the bytes that arrive before the next
call, which therefore sees the bytes left unread followed by the arrivals. -/
def Loops (g : Nat → Nat) : LedCmd.Cmd → List Nat → List (List Nat) → Option LoopResult
  | c, rx, [] => some ⟨c, rx, [], []⟩
  | c, rx, a :: more =>
    match Loop g c (rx ++ a) with
    | none => none
    | some r =>
      match Loops g r.cmd r.rx more with
      | none => none
      | some r2 => some ⟨r2.cmd, r2.rx, r.tx ++ r2.tx, r.calls ++ r2.calls⟩

/-- The objects after each byte handled by one pass of the read loop, in
order; the list stops where the loop stops. -/
def readStates (g : Nat → Nat) : LedCmd.Cmd → List Nat → List LedCmd.Cmd
  | _, [] => []
  | c, byteRead :: rest =>
    match processByte g c byteRead with
    | none => []
    | some s =>
      s.cmd :: (match s.flow with
        | Flow.next => readStates g s.cmd rest
        | Flow.endLine => []
        | Flow.overflow => [])

/-- The objects after each byte handled and at the return of each call, over
the successive `Loop()` calls of `Loops`. -/
def LoopsStates (g : Nat → Nat) : LedCmd.Cmd → List Nat → List (List Nat) → List LedCmd.Cmd
  | _, _, [] => []
  | c, rx, a :: more =>
    (if (rx ++ a).length = 0 then [] else readStates g (allocBuffer g c) (rx ++ a)) ++
      (match Loop g c (rx ++ a) with
        | none => []
        | some r => r.cmd :: LoopsStates g r.cmd r.rx more)

/-! ## Notions of the specification -/

/-- Equality of two names when ASCII case is ignored. -/
def caseEq (a b : List Nat) : Prop := a.map tolower = b.map tolower

instance (a b : List Nat) : Decidable (caseEq a b) :=
  inferInstanceAs (Decidable (a.map tolower = b.map tolower))

/-- The names held by a table, in registration order: the slots before the
first null one. -/
def registered : List (Option (List Nat)) → List (List Nat)
  | [] => []
  | none :: _ => []
  | some name :: rest => name :: registered rest

/-- The registry of an object: the names in the first `m_size` slots. -/
def registry (c : LedCmd.Cmd) : List (List Nat) :=
  registered (c.m_commands.take c.m_size)

/-- The maximal non-empty runs of non-separator bytes of a line, in order. -/
def tokens (sep line : List Nat) : List (List Nat) :=
  (line.splitOnP (fun b => decide (b ∈ sep))).filter (fun t => !t.isEmpty)

/-- The results of `n` successive `Parse()` calls made by a handler. -/
def pulls (c : LedCmd.Cmd) : Nat → List Nat → List (Option (List Nat))
  | 0, _ => []
  | n + 1, saved => (Parse c saved).1 :: pulls c n (Parse c saved).2

/-- The line holds `line`, the cursor is at its end, no escape sequence is
pending, and the buffer is either null (then the line is empty) or a block of
`m_buffer_size` cells. -/
def AtEnd (c : LedCmd.Cmd) (line : List Nat) : Prop :=
  c.m_buffer_reading_esc = 0 ∧ c.m_buffer_cursor = c.m_buffer_read ∧
    c.m_buffer_read = line.length ∧ content c = line ∧
    (c.m_buffer = none ∨ ∃ cells, c.m_buffer = some cells ∧ cells.length = c.m_buffer_size)

/-- The invariant of the line for capacity `cap`: cursor ≤ length ≤ cap - 1,
and an allocated line is shorter than cap - 1. -/
def LineInv (cap : Nat) (c : LedCmd.Cmd) : Prop :=
  2 ≤ cap ∧ c.m_buffer_size = cap ∧ c.m_buffer_cursor ≤ c.m_buffer_read ∧
    c.m_buffer_read ≤ cap - 1 ∧ (c.m_buffer ≠ none → c.m_buffer_read + 2 ≤ cap)

/-- A printable byte (32 to 126). -/
def printable (b : Nat) : Prop := 32 ≤ b ∧ b ≤ 126

instance (b : Nat) : Decidable (printable b) :=
  inferInstanceAs (Decidable (32 ≤ b ∧ b ≤ 126))

/-- Successive `AddCmd` calls at setup, the results ignored as in main.cpp. -/
def AddCmds (c : LedCmd.Cmd) : List (List Nat × Nat) → LedCmd.Cmd
  | [] => c
  | e :: rest => AddCmds (AddCmd c e.1 e.2).2 rest

/-- The line dispatched by one `Loop()` call: the content of the allocated
line when the read loop is left by the carriage-return `break`. -/
def dispatched (g : Nat → Nat) (c : LedCmd.Cmd) (rx : List Nat) : Option (List Nat) :=
  if rx.length = 0 then none
  else
    match readLoop g (allocBuffer g c) rx with
    | some (r, true) =>
      (match r.cmd.m_buffer with
        | none => none
        | some cells => some (cells.take r.cmd.m_buffer_read))
    | _ => none

/-- The lines dispatched over the successive `Loop()` calls of `Loops`. -/
def LoopsDispatched (g : Nat → Nat) :
    LedCmd.Cmd → List Nat → List (List Nat) → List (List Nat)
  | _, _, [] => []
  | c, rx, a :: more =>
    (dispatched g c (rx ++ a)).toList ++
      (match Loop g c (rx ++ a) with
        | none => []
        | some r => LoopsDispatched g r.cmd r.rx more)

/-! ## The terminal of the display property -/

/-- The terminal as the display property describes it: the row of cells after
the prompt, the column, and how much of an escape sequence has arrived
(0 nothing, 1 ESC, 2 ESC '[', 3 ESC '[' '1'). -/
structure Screen where
  row : List Nat
  col : Nat
  pending : Nat
  deriving DecidableEq, Repr

/-- One byte written to the terminal: a printable byte overwrites the cell at
the column and advances it, 0x08 and ESC '[' 'D' move the column left by one,
ESC '[' 'C' moves it right by one, ESC '[' '1' 'P' deletes the cell at the
column and shifts the rest left, ESC '[' 'K' erases from the column to the
end; anything else is ignored. -/
def Screen.feed (t : Screen) (b : Nat) : Screen :=
  if t.pending = 1 then
    if b = 91 then { t with pending := 2 } else { t with pending := 0 }
  else if t.pending = 2 then
    if b = 68 then { t with col := t.col - 1, pending := 0 }
    else if b = 67 then { t with col := t.col + 1, pending := 0 }
    else if b = 75 then { t with row := t.row.take t.col, pending := 0 }
    else if b = 49 then { t with pending := 3 }
    else { t with pending := 0 }
  else if t.pending = 3 then
    if b = 80 then
      { t with row := t.row.take t.col ++ t.row.drop (t.col + 1), pending := 0 }
    else { t with pending := 0 }
  else if b = 27 then { t with pending := 1 }
  else if b = 8 then { t with col := t.col - 1 }
  else if 32 ≤ b ∧ b ≤ 126 then
    { t with row := t.row.take t.col ++ b :: t.row.drop (t.col + 1), col := t.col + 1 }
  else t

/-- The terminal after a sequence of bytes. -/
def Screen.run (t : Screen) (bytes : List Nat) : Screen := bytes.foldl Screen.feed t

/-- The edit inputs of the display property. -/
inductive Edit where
  | key (b : Nat)
  | backspace
  | delete
  | left
  | right
  | home
  | toEnd
  deriving DecidableEq, Repr

/-- The bytes of an edit input. -/
def Edit.bytes : Edit → List Nat
  | Edit.key b => [b]
  | Edit.backspace => [8]
  | Edit.delete => [127]
  | Edit.left => [27, 91, 68]
  | Edit.right => [27, 91, 67]
  | Edit.home => [1]
  | Edit.toEnd => [5]

/-- A key is a printable byte other than the question mark. -/
def Edit.valid : Edit → Prop
  | Edit.key b => printable b ∧ b ≠ 63
  | _ => True

instance (e : Edit) : Decidable e.valid := by
  cases e <;> simp only [Edit.valid] <;> infer_instance

/-- The object and the terminal after each edit input, every input arriving
in a `Loop()` call of its own and the terminal receiving what the call
writes; the list stops at a call that does not return. -/
def mirror (g : Nat → Nat) : LedCmd.Cmd → Screen → List Edit → List (LedCmd.Cmd × Screen)
  | _, _, [] => []
  | c, t, e :: es =>
    match Loop g c e.bytes with
    | none => []
    | some r => (r.cmd, t.run r.tx) :: mirror g r.cmd (t.run r.tx) es

/-- The terminal shows the line held in `cells`: the row is the content, the
column is the cursor and no escape sequence is pending on either side. -/
def InSync (c : LedCmd.Cmd) (t : Screen) (cells : List Nat) : Prop :=
  c.m_buffer = some cells ∧ cells.length = c.m_buffer_size ∧
    c.m_buffer_cursor ≤ c.m_buffer_read ∧
    (c.m_buffer_read + 2 ≤ c.m_buffer_size ∨ c.m_buffer_read = 0) ∧
    c.m_buffer_reading_esc = 0 ∧ c.m_echo = true ∧
    (∀ b ∈ cells.take c.m_buffer_read, printable b) ∧
    t = ⟨cells.take c.m_buffer_read, c.m_buffer_cursor, 0⟩

/-- An allocated line is a block of `cap` cells whose content holds only
printable bytes other than the question mark. -/
def Clean (cap : Nat) (c : LedCmd.Cmd) : Prop :=
  ∀ cells, c.m_buffer = some cells →
    cells.length = cap ∧ ∀ b ∈ cells.take c.m_buffer_read, printable b ∧ b ≠ 63

/-! ## Example objects -/

/-- The registry of the specification's example: "help", then
"run_fill_screen_test", in a table of two slots, with handlers 1 and 2 and
default handler 9. -/
def exampleRegistry : LedCmd.Cmd :=
  (AddCmd (AddCmd (Cmd 2 9 (fun _ => none) (fun _ => 0)) [104, 101, 108, 112] 1).2
    [114, 117, 110, 95, 102, 105, 108, 108, 95, 115, 99, 114, 101, 101, 110, 95, 116,
      101, 115, 116] 2).2

/-- An object whose allocated line buffer holds the bytes `line` followed by
`pad` cells of value 7, with the cursor at `cursor`. -/
def withLine (c : LedCmd.Cmd) (line : List Nat) (pad cursor : Nat) : LedCmd.Cmd :=
  { c with
    m_buffer := some (line ++ List.replicate pad 7)
    m_buffer_read := line.length
    m_buffer_cursor := cursor }

end Cmd

/-! ## The countdown handler of main.cpp -/

/-- The C function `isspace` in the C locale. -/
def isspace (b : Nat) : Bool := decide (b = 32) || (decide (9 ≤ b) && decide (b ≤ 13))

/-- The digit loop of `atoi`: the decimal digits at the start of the text,
accumulated onto `acc`. -/
def digitsValue : List Nat → Nat → Nat
  | [], acc => acc
  | d :: rest, acc =>
    if 48 ≤ d ∧ d ≤ 57 then digitsValue rest (acc * 10 + (d - 48)) else acc

/-- The number a text starts with, as `atoi` reads it: white space is
skipped, then an optional sign, then decimal digits up to the first other
byte; a text without digits gives 0. -/
def atoiValue (s : List Nat) : Int :=
  match s.dropWhile isspace with
  | 45 :: r => -((digitsValue r 0 : Nat) : Int)
  | 43 :: r => ((digitsValue r 0 : Nat) : Int)
  | t => ((digitsValue t 0 : Nat) : Int)

/-- The values of an `int` of `intBits` bits. -/
def fitsInt (intBits : Nat) (v : Int) : Prop :=
  -(2 ^ (intBits - 1) : Int) ≤ v ∧ v < 2 ^ (intBits - 1)

instance (intBits : Nat) (v : Int) : Decidable (fitsInt intBits v) :=
  inferInstanceAs (Decidable (-(2 ^ (intBits - 1) : Int) ≤ v ∧ v < 2 ^ (intBits - 1)))

/-- Reduction of an integer into the range of an `int` of `intBits` bits. -/
def wrapInt (intBits : Nat) (v : Int) : Int :=
  (v + 2 ^ (intBits - 1)) % 2 ^ intBits - 2 ^ (intBits - 1)

/-- The C function `atoi(s)` for an `int` of `intBits` bits.  The function does not detect
overflow: for a number that does not fit, the result is not predictable, and
`ov` gives it. -/
def atoi (intBits : Nat) (ov : List Nat → Int) (s : List Nat) : Int :=
  if fitsInt intBits (atoiValue s) then atoiValue s else wrapInt intBits (ov s)

/-- Conversion of an `int` to `uint32_t`. -/
def toUint32 (v : Int) : Nat := (v % 4294967296).toNat

/-- An operation on the LED matrix panel. -/
inductive Display where
  | fillScreen (color : Nat)
  | printText (x y : Nat) (str : List Nat) (color size : Nat)
  deriving DecidableEq, Repr

/-- Colour `COLOR_BLACK` of led_matrix_types.h. -/
def COLOR_BLACK : Nat := 0x0000

/-- Colour `COLOR_GREEN` of led_matrix_types.h. -/
def COLOR_GREEN : Nat := 0x07E0

/-- Colour `COLOR_MAGENTA` of led_matrix_types.h. -/
def COLOR_MAGENTA : Nat := 0xF81F

/-- Function `matrix_print_text` on a parameter block (never null here): the
text settings are applied and the string is printed; the status returned is
`LED_MATRIX_SUCCESS`. -/
def matrix_print_text (x y : Nat) (str : List Nat) (color size : Nat) : List Display :=
  [Display.printText x y str color size]

/-- Function `print_test_completed`: the screen is cleared and "Test",
"Completed" are printed. -/
def print_test_completed : List Display :=
  [Display.fillScreen COLOR_BLACK] ++
    matrix_print_text 1 1 [84, 101, 115, 116] COLOR_GREEN 1 ++
    matrix_print_text 1 10 [67, 111, 109, 112, 108, 101, 116, 101, 100] COLOR_GREEN 1

/-- The text `snprintf(buffer, 4, "%02d", i)` leaves in `buffer`, for
0 ≤ i ≤ 999. -/
def fmt02 (i : Nat) : List Nat :=
  if i < 100 then [48 + i / 10, 48 + i % 10]
  else [48 + i / 100, 48 + i / 10 % 10, 48 + i % 10]

/-- The loop `for (int i = seconds; i >= 0; i--)` of `run_countdown_tests`,
entered with `i`: clear, print the number, wait. -/
def countdownFrom : Nat → List Display
  | 0 => [Display.fillScreen COLOR_BLACK] ++ matrix_print_text 27 11 (fmt02 0) COLOR_MAGENTA 1
  | i + 1 =>
    [Display.fillScreen COLOR_BLACK] ++
      matrix_print_text 27 11 (fmt02 (i + 1)) COLOR_MAGENTA 1 ++ countdownFrom i

set_option linter.unusedVariables false in
/-- Handler `run_countdown_tests(thisCmd, command, printHelp)` of main.cpp,
called by the object `c` with `saved` the text that `strtok` has left: the
operations it performs on the matrix panel, in order.  The waits and the log
lines (the logging macros expand to nothing unless the logger is enabled) are
left out. -/
def run_countdown_tests (intBits : Nat) (ov : List Nat → Int) (c : LedCmd.Cmd)
    (command : Option (List Nat)) (printHelp : Bool) (saved : List Nat) : List Display :=
  match command with
  | none => []
  | some _ =>
    match Cmd.Parse c saved with
    | (none, _) => []
    | (some parsed, saved1) =>
      let seconds := toUint32 (atoi intBits ov parsed)
      if seconds = 0 ∨ seconds > 999 then []
      else
        match Cmd.Parse c saved1 with
        | (none, _) => []
        | (some parsed2, _) =>
          let delay_ms := toUint32 (atoi intBits ov parsed2)
          if delay_ms = 0 then []
          else if delay_ms < 100 ∨ delay_ms > 10000 then []
          else
            countdownFrom seconds ++ print_test_completed ++
              [Display.fillScreen COLOR_BLACK]


/-- The object built by `setup()` of main.cpp: six commands in a table of
`NUMBER_OF_COMMANDS` slots, prompt "> ".  The handlers are numbered in
registration order from 1 (`run_countdown_tests` is 3); the default handler
`unrecognized_command` is 0. -/
def setupCmd : LedCmd.Cmd :=
  Cmd.SetLineIndicator
    (Cmd.AddCmds (Cmd.Cmd 6 0 (fun _ => none) (fun _ => 0))
      [([104, 101, 108, 112], 1),
        ([114, 117, 110, 95, 115, 99, 114, 111, 108, 108, 105, 110, 103, 95, 116, 101, 120, 116,
          95, 116, 101, 115, 116], 2),
        ([114, 117, 110, 95, 99, 111, 117, 110, 116, 100, 111, 119, 110, 95, 116, 101, 115, 116],
          3),
        ([114, 117, 110, 95, 102, 105, 108, 108, 95, 115, 99, 114, 101, 101, 110, 95, 116, 101,
          115, 116], 4),
        ([114, 117, 110, 95, 118, 101, 114, 116, 105, 99, 97, 108, 95, 108, 105, 110, 101, 95,
          116, 101, 115, 116], 5),
        ([114, 117, 110, 95, 104, 111, 114, 105, 122, 111, 110, 116, 97, 108, 95, 108, 105, 110,
          101, 95, 116, 101, 115, 116], 6)])
    [62, 32]

/-- The name "run_countdown_test". -/
def countdownName : List Nat :=
  [114, 117, 110, 95, 99, 111, 117, 110, 116, 100, 111, 119, 110, 95, 116, 101, 115, 116]

/-! ## Library lemmas -/

theorem tolower_eq_zero {b : Nat} : tolower b = 0 ↔ b = 0 := by
  unfold tolower
  split <;> omega

theorem strcasecmp_P_eq_zero (a b : List Nat) (ha : 0 ∉ a) (hb : 0 ∉ b) :
    strcasecmp_P a b = 0 ↔ a.map tolower = b.map tolower := by
  induction a generalizing b with
  | nil =>
    cases b with
    | nil => simp [strcasecmp_P]
    | cons y ys =>
      have hy : y ≠ 0 := fun h => hb (by simp [h])
      have : tolower y ≠ 0 := fun h => hy (tolower_eq_zero.mp h)
      simp [strcasecmp_P]
      omega
  | cons x xs ih =>
    have hx : x ≠ 0 := fun h => ha (by simp [h])
    have hx0 : tolower x ≠ 0 := fun h => hx (tolower_eq_zero.mp h)
    cases b with
    | nil =>
      simp [strcasecmp_P]
      omega
    | cons y ys =>
      have hxs : 0 ∉ xs := fun h => ha (by simp [h])
      have hys : 0 ∉ ys := fun h => hb (by simp [h])
      by_cases hxy : tolower x = tolower y
      · simp [strcasecmp_P, hxy, ih ys hxs hys]
      · simp [strcasecmp_P, hxy]
        omega

theorem malloc_length (g : Nat → Nat) (n : Nat) : (malloc g n).length = n := by
  simp [malloc]

theorem takeWhile_ne_zero_of_not_mem (l : List Nat) (h : 0 ∉ l) :
    l.takeWhile (fun b => b != 0) = l := by
  induction l with
  | nil => rfl
  | cons x xs ih =>
    have hx : x ≠ 0 := fun e => h (by simp [e])
    have hxs : 0 ∉ xs := fun e => h (by simp [e])
    simp [List.takeWhile_cons, hx, ih hxs]

theorem takeWhile_ne_zero_append (l r : List Nat) (h : 0 ∉ l) :
    (l ++ 0 :: r).takeWhile (fun b => b != 0) = l := by
  induction l with
  | nil => simp [List.takeWhile_cons]
  | cons x xs ih =>
    have hx : x ≠ 0 := fun e => h (by simp [e])
    have hxs : 0 ∉ xs := fun e => h (by simp [e])
    simp [List.takeWhile_cons, hx, ih hxs]

/-- A block whose first `n` cells are not NUL and whose cell `n` is NUL holds
the string made of its first `n` cells. -/
theorem cstr_append_zero (l r : List Nat) (h : 0 ∉ l) : cstr (l ++ 0 :: r) = some l := by
  simp [cstr, takeWhile_ne_zero_append l r h]

theorem set_eq_take_append (cells : List Nat) (n v : Nat) (h : n < cells.length) :
    cells.set n v = cells.take n ++ v :: cells.drop (n + 1) := by
  induction cells generalizing n with
  | nil => simp at h
  | cons x xs ih =>
    cases n with
    | zero => simp
    | succ m =>
      simp only [List.length_cons, Nat.add_lt_add_iff_right] at h
      simp [ih m h]

theorem cstr_set_zero (cells : List Nat) (n : Nat) (h : n < cells.length)
    (h0 : 0 ∉ cells.take n) : cstr (cells.set n 0) = some (cells.take n) := by
  rw [set_eq_take_append cells n 0 h]
  exact cstr_append_zero _ _ h0

theorem cstr_not_mem {cells s : List Nat} (h : cstr cells = some s) : 0 ∉ s := by
  unfold cstr at h
  split at h
  · cases h
    intro hmem
    have := List.mem_takeWhile_imp hmem
    simp at this
  · cases h

theorem cstr_length_lt {cells s : List Nat} (h : cstr cells = some s) :
    s.length < cells.length := by
  unfold cstr at h
  split at h
  · rename_i hz
    cases h
    induction cells with
    | nil => simp at hz
    | cons x xs ih =>
      by_cases hx : x = 0
      · simp [List.takeWhile_cons, hx]
      · have : 0 ∈ xs := by
          rcases List.mem_cons.mp hz with e | e
          · exact absurd e.symm hx
          · exact e
        simp [List.takeWhile_cons, hx, ih this]
  · cases h

/-- Copying a terminated block into a block that is large enough gives a
block holding the same string. -/
theorem strcpy_cstr (dst src s : List Nat) (h : cstr src = some s)
    (hlen : s.length < dst.length) :
    ∃ buf, strcpy dst src = some buf ∧ cstr buf = some s ∧ buf.take s.length = s := by
  refine ⟨s ++ 0 :: dst.drop (s.length + 1), ?_, ?_, ?_⟩
  · simp [strcpy, h, hlen]
  · exact cstr_append_zero _ _ (cstr_not_mem h)
  · simp

/-! ## Tokenising -/

theorem splitOnP_eq_takeWhile (p : Nat → Bool) (l : List Nat) :
    l.splitOnP p = l.takeWhile (fun x => !p x) ::
      (match l.dropWhile (fun x => !p x) with
        | [] => []
        | _ :: r => r.splitOnP p) := by
  induction l with
  | nil => simp
  | cons x xs ih =>
    rw [List.splitOnP_cons]
    by_cases hx : p x = true
    · simp [hx, List.takeWhile_cons, List.dropWhile_cons]
    · simp only [Bool.not_eq_true] at hx
      rw [ih]
      simp [hx, List.takeWhile_cons, List.dropWhile_cons]

theorem tokens_nil (sep : List Nat) : Cmd.tokens sep [] = [] := by
  simp [Cmd.tokens]

theorem tokens_cons_sep (sep : List Nat) (b : Nat) (l : List Nat) (hb : b ∈ sep) :
    Cmd.tokens sep (b :: l) = Cmd.tokens sep l := by
  simp [Cmd.tokens, List.splitOnP_cons, hb]

theorem tokens_dropWhile (sep l : List Nat) :
    Cmd.tokens sep (l.dropWhile (fun b => decide (b ∈ sep))) = Cmd.tokens sep l := by
  induction l with
  | nil => rfl
  | cons x xs ih =>
    by_cases hx : x ∈ sep
    · simp [List.dropWhile_cons, hx, ih, tokens_cons_sep]
    · simp [List.dropWhile_cons, hx]

theorem tokens_cons_nonsep (sep : List Nat) (b : Nat) (l : List Nat) (hb : b ∉ sep) :
    Cmd.tokens sep (b :: l) =
      (b :: l).takeWhile (fun x => !decide (x ∈ sep)) ::
        Cmd.tokens sep (((b :: l).dropWhile (fun x => !decide (x ∈ sep))).drop 1) := by
  unfold Cmd.tokens
  rw [splitOnP_eq_takeWhile]
  cases hd : (b :: l).dropWhile (fun x => !decide (x ∈ sep)) with
  | nil => simp [List.takeWhile_cons, hb]
  | cons d r => simp [List.takeWhile_cons, hb]

/-- One `strtok` call returns the first token of the text and leaves the text
that holds the remaining tokens; it returns null only when there is none. -/
theorem strtok_tokens (s sep : List Nat) :
    (∃ t r, strtok s sep = (some t, r) ∧ Cmd.tokens sep s = t :: Cmd.tokens sep r) ∨
    (strtok s sep = (none, []) ∧ Cmd.tokens sep s = []) := by
  unfold strtok
  cases hd : s.dropWhile (fun b => decide (b ∈ sep)) with
  | nil =>
    right
    refine ⟨rfl, ?_⟩
    rw [← tokens_dropWhile, hd, tokens_nil]
  | cons b r =>
    left
    have hb : b ∉ sep := by
      have := List.head_dropWhile_not (fun b => decide (b ∈ sep)) s
      simp [hd] at this
      exact this
    refine ⟨_, _, rfl, ?_⟩
    rw [← tokens_dropWhile, hd]
    exact tokens_cons_nonsep sep b r hb

theorem pulls_eq (c : Cmd) (n m : Nat) (s : List Nat) (h : n ≤ m) :
    Cmd.pulls c n s =
      ((Cmd.tokens c.m_separator s).map some ++ List.replicate m none).take n := by
  induction n generalizing s m with
  | zero => simp [Cmd.pulls]
  | succ k ih =>
    obtain ⟨m1, rfl⟩ : ∃ m1, m = m1 + 1 := ⟨m - 1, by omega⟩
    rcases strtok_tokens s c.m_separator with ⟨t, r, h1, h2⟩ | ⟨h1, h2⟩
    · simp [Cmd.pulls, Cmd.Parse, h1, h2, ih (m1 + 1) r (by omega)]
    · have := ih m1 [] (by omega)
      simp [tokens_nil] at this
      simp [Cmd.pulls, Cmd.Parse, h1, h2, this, List.replicate_succ]

/-! ## Lookup and dispatch -/

theorem scanCommands_found (tok : List Nat) (slots : List (Option (List Nat)))
    (k i : Nat) (name : List Nat) (htok : 0 ∉ tok)
    (hnul : ∀ n ∈ Cmd.registered slots, 0 ∉ n)
    (hi : (Cmd.registered slots).get? i = some name) (hm : Cmd.caseEq tok name)
    (hfirst : ∀ j n, j < i → (Cmd.registered slots).get? j = some n → ¬ Cmd.caseEq tok n) :
    Cmd.scanCommands tok slots k = some (k + i) := by
  induction slots generalizing k i with
  | nil => simp [Cmd.registered] at hi
  | cons s rest ih =>
    cases s with
    | none => simp [Cmd.registered] at hi
    | some nm =>
      have hnm : 0 ∉ nm := hnul nm (by simp [Cmd.registered])
      have hrest : ∀ n ∈ Cmd.registered rest, 0 ∉ n :=
        fun n hn => hnul n (by simp [Cmd.registered, hn])
      cases i with
      | zero =>
        simp [Cmd.registered] at hi
        subst hi
        have : strcasecmp_P tok nm = 0 := (strcasecmp_P_eq_zero tok nm htok hnm).mpr hm
        simp [Cmd.scanCommands, this]
      | succ j =>
        have h0 : ¬ Cmd.caseEq tok nm := hfirst 0 nm (by omega) (by simp [Cmd.registered])
        have : strcasecmp_P tok nm ≠ 0 :=
          fun e => h0 ((strcasecmp_P_eq_zero tok nm htok hnm).mp e)
        simp only [Cmd.scanCommands, this, if_false]
        rw [ih (k + 1) j hrest (by simpa [Cmd.registered] using hi)
          (fun j1 n hj hn => hfirst (j1 + 1) n (by omega) (by simpa [Cmd.registered] using hn))]
        congr 1
        omega

/-- Dispatch of a completed line whose buffer is allocated and has room for
the terminator: one invocation, for the first token of the content. -/
theorem endOfLine_eq (g : Nat → Nat) (c : Cmd) (cells : List Nat)
    (hbuf : c.m_buffer = some cells) (hread : c.m_buffer_read < cells.length)
    (hsize : c.m_buffer_read < c.m_buffer_size)
    (hnul : 0 ∉ cells.take c.m_buffer_read) :
    Cmd.endOfLine g c =
      some ({ c with m_buffer := none, m_processing := false },
        CRLF ++ c.m_line_indicator,
        [Cmd.invoke c (strtok (cells.take c.m_buffer_read) c.m_separator).1
          (strtok (cells.take c.m_buffer_read) c.m_separator).2 false]) := by
  have h1 := cstr_set_zero cells c.m_buffer_read hread hnul
  obtain ⟨buf, h2, h3, -⟩ := strcpy_cstr (malloc g c.m_buffer_size) _ _ h1
    (by simp [malloc_length]; omega)
  simp [Cmd.endOfLine, hbuf, writeAt, hread, Cmd.ParseBuffer, h2, h3, Cmd.StartNewBuffer,
    Cmd.invoke]

/-- A carriage return outside the `ESC [` state ends the read loop with the
line untouched. -/
theorem processByte_cr (g : Nat → Nat) (c : Cmd) (hesc : c.m_buffer_reading_esc ≠ 2) :
    Cmd.processByte g c 13 =
      some ⟨{ c with m_buffer_reading_esc :=
                if c.m_buffer_reading_esc = 1 then 0 else c.m_buffer_reading_esc },
        [], [], Flow.endLine⟩ := by
  by_cases h1 : c.m_buffer_reading_esc = 1
  · simp [Cmd.processByte, h1, Cmd.ordinaryByte, Cmd.deleteKey, Cmd.homeKey, Cmd.endKey,
      Cmd.clearKey]
  · simp [Cmd.processByte, h1, hesc, Cmd.ordinaryByte, Cmd.deleteKey, Cmd.homeKey,
      Cmd.endKey, Cmd.clearKey]

/-- A `Loop()` call whose first available byte is a carriage return, on an
allocated line: the rest of the burst stays unread and the line is dispatched. -/
theorem Loop_cr (g : Nat → Nat) (c : Cmd) (cells rest : List Nat)
    (hbuf : c.m_buffer = some cells) (hread : c.m_buffer_read < cells.length)
    (hsize : c.m_buffer_read < c.m_buffer_size)
    (hnul : 0 ∉ cells.take c.m_buffer_read) (hesc : c.m_buffer_reading_esc ≠ 2) :
    Cmd.Loop g c (13 :: rest) =
      some ⟨{ c with
              m_buffer := none
              m_processing := false
              m_buffer_reading_esc :=
                if c.m_buffer_reading_esc = 1 then 0 else c.m_buffer_reading_esc },
        rest, CRLF ++ c.m_line_indicator,
        [Cmd.invoke c (strtok (Cmd.content c) c.m_separator).1
          (strtok (Cmd.content c) c.m_separator).2 false]⟩ := by
  have h := endOfLine_eq g
    { c with m_buffer_reading_esc :=
        if c.m_buffer_reading_esc = 1 then 0 else c.m_buffer_reading_esc }
    cells hbuf hread hsize hnul
  have ha : Cmd.allocBuffer g c = c := by simp [Cmd.allocBuffer, hbuf]
  simp only [hbuf] at h
  simp [Cmd.Loop, ha, Cmd.readLoop, processByte_cr g c hesc, h, Cmd.content, hbuf,
    Cmd.invoke]

theorem invoke_command (c : Cmd) (cmd : Option (List Nat)) (saved : List Nat) (h : Bool) :
    (Cmd.invoke c cmd saved h).command = cmd ∧ (Cmd.invoke c cmd saved h).saved = saved ∧
      (Cmd.invoke c cmd saved h).printHelp = h := by
  unfold Cmd.invoke
  split
  · simp
  · split <;> simp

theorem strtok_subset {s sep t r : List Nat} (h : strtok s sep = (some t, r)) : t ⊆ s := by
  unfold strtok at h
  split at h
  · cases h
  · rename_i b s1 hd
    cases h
    exact (List.takeWhile_subset _).trans (hd ▸ List.dropWhile_subset _)

/-- The first token of a text is what the first `strtok` call returns. -/
theorem strtok_head (s sep : List Nat) : (strtok s sep).1 = (Cmd.tokens sep s).head? := by
  rcases strtok_tokens s sep with ⟨t, r, h1, h2⟩ | ⟨h1, h2⟩
  · simp [h1, h2]
  · simp [h1, h2]

/-! ## Typing at the end of the line -/

/-- For a printable byte other than the question mark the loop body echoes
the byte and stores it. -/
theorem ordinaryByte_printable (g : Nat → Nat) (c : Cmd) (b : Nat)
    (hb : Cmd.printable b) (hq : b ≠ 63) :
    Cmd.ordinaryByte g c b =
      match Cmd.insertKey g c b with
      | none => none
      | some s => some { s with tx := (if c.m_echo then [b] else []) ++ s.tx } := by
  obtain ⟨h1, h2⟩ := hb
  have e27 : b ≠ 27 := by omega
  have e8 : b ≠ 8 := by omega
  have e127 : b ≠ 127 := by omega
  have e1 : b ≠ 1 := by omega
  have e5 : b ≠ 5 := by omega
  have e3 : b ≠ 3 := by omega
  have e4 : b ≠ 4 := by omega
  have e12 : b ≠ 12 := by omega
  have e13 : b ≠ 13 := by omega
  simp [Cmd.ordinaryByte, Cmd.deleteKey, Cmd.homeKey, Cmd.endKey, Cmd.clearKey, e27, e8,
    e127, e1, e5, e3, e4, e12, e13, hq, h1, h2]

/-- Storing a byte at the end of a line that stays below the limit. -/
theorem insertKey_end (g : Nat → Nat) (c : Cmd) (cells : List Nat) (b : Nat)
    (hbuf : c.m_buffer = some cells) (hcur : c.m_buffer_cursor = c.m_buffer_read)
    (hread : c.m_buffer_read < cells.length)
    (hroom : c.m_buffer_read + 2 < c.m_buffer_size) :
    Cmd.insertKey g c b =
      some ⟨{ c with
              m_buffer := some (cells.set c.m_buffer_read b)
              m_buffer_read := c.m_buffer_read + 1
              m_buffer_cursor := c.m_buffer_cursor + 1 }, [], [], Flow.next⟩ := by
  have h : ¬ (c.m_buffer_size - 1 ≤ c.m_buffer_read + 1) := by omega
  simp [Cmd.insertKey, hbuf, hcur, writeAt, hread, Cmd.tooLarge, h]

theorem take_set_succ (cells : List Nat) (n b : Nat) (h : n < cells.length) :
    (cells.set n b).take (n + 1) = cells.take n ++ [b] := by
  rw [set_eq_take_append cells n b h]
  have : (cells.take n).length = n := by simp; omega
  rw [List.take_append_eq_append_take]
  simp [this]

/-- Typing printable bytes at the end of an allocated line, all in one pass
of the read loop and without reaching the limit, appends them. -/
theorem readLoop_typed (g : Nat → Nat) (s : List Nat) :
    ∀ (c : Cmd) (cells : List Nat), c.m_buffer = some cells →
      c.m_buffer_cursor = c.m_buffer_read → c.m_buffer_reading_esc = 0 →
      cells.length = c.m_buffer_size →
      (∀ b ∈ s, Cmd.printable b ∧ b ≠ 63) →
      c.m_buffer_read + s.length + 1 < c.m_buffer_size →
      ∃ cells1, cells1.length = cells.length ∧
        cells1.take (c.m_buffer_read + s.length) = cells.take c.m_buffer_read ++ s ∧
        Cmd.readLoop g c s =
          some (⟨{ c with
                   m_buffer := some cells1
                   m_buffer_read := c.m_buffer_read + s.length
                   m_buffer_cursor := c.m_buffer_cursor + s.length }, [],
                 if c.m_echo then s else [], []⟩, false) := by
  induction s with
  | nil =>
    intro c cells hbuf _ _ _ _ _
    refine ⟨cells, rfl, by simp, ?_⟩
    simp [Cmd.readLoop, ← hbuf]
  | cons b rest ih =>
    intro c cells hbuf hcur hesc hlen hs hroom
    simp only [List.length_cons] at hroom
    have hb := hs b (by simp)
    have hread : c.m_buffer_read < cells.length := by omega
    have hstep : Cmd.processByte g c b =
        some ⟨{ c with
                m_buffer := some (cells.set c.m_buffer_read b)
                m_buffer_read := c.m_buffer_read + 1
                m_buffer_cursor := c.m_buffer_cursor + 1 },
          if c.m_echo then [b] else [], [], Flow.next⟩ := by
      simp [Cmd.processByte, hesc, ordinaryByte_printable g c b hb.1 hb.2,
        insertKey_end g c cells b hbuf hcur hread (by omega)]
    obtain ⟨cells1, h1, h2, h3⟩ := ih
      { c with
        m_buffer := some (cells.set c.m_buffer_read b)
        m_buffer_read := c.m_buffer_read + 1
        m_buffer_cursor := c.m_buffer_cursor + 1 }
      (cells.set c.m_buffer_read b) rfl (by simp [hcur]) hesc (by simp [hlen])
      (fun x hx => hs x (by simp [hx])) (by simp; omega)
    refine ⟨cells1, by simpa using h1, ?_, ?_⟩
    · simp only [take_set_succ cells _ b hread] at h2
      simp only [List.length_cons]
      rw [show c.m_buffer_read + (rest.length + 1) = c.m_buffer_read + 1 + rest.length by omega,
        h2]
      simp
    · simp only [Cmd.readLoop, hstep, h3]
      by_cases he : c.m_echo = true <;> simp [he] <;> omega

/-- One `Loop()` call that receives printable bytes with the cursor at the
end of the line appends them, reads them all and invokes nothing. -/
theorem Loop_typed (g : Nat → Nat) (c : Cmd) (line s : List Nat) (h : Cmd.AtEnd c line)
    (hs : ∀ b ∈ s, Cmd.printable b ∧ b ≠ 63)
    (hroom : line.length + s.length + 1 < c.m_buffer_size) :
    ∃ r, Cmd.Loop g c s = some r ∧ Cmd.AtEnd r.cmd (line ++ s) ∧
      r.cmd.m_buffer_size = c.m_buffer_size ∧ r.cmd.m_echo = c.m_echo ∧ r.rx = [] ∧
      r.calls = [] ∧ r.tx = if c.m_echo then s else [] := by
  obtain ⟨hesc, hcur, hread, hcont, hbuf⟩ := h
  cases s with
  | nil =>
    refine ⟨⟨c, [], [], []⟩, by simp [Cmd.Loop], ?_, rfl, rfl, rfl, rfl, by simp⟩
    simpa using ⟨hesc, hcur, hread, hcont, hbuf⟩
  | cons b rest =>
    rcases hbuf with hnone | ⟨cells, hsome, hlen⟩
    · have hl : line = [] := by simpa [Cmd.content, hnone] using hcont.symm
      subst hl
      simp only [List.length_nil] at hread hroom
      obtain ⟨cells1, h1, h2, h3⟩ := readLoop_typed g (b :: rest)
        { c with
          m_buffer := some (malloc g c.m_buffer_size)
          m_buffer_read := 0
          m_buffer_cursor := 0 }
        (malloc g c.m_buffer_size) rfl rfl hesc (malloc_length g _) hs (by simpa using hroom)
      refine ⟨_, by simp [Cmd.Loop, Cmd.allocBuffer, hnone, h3]; rfl, ?_, rfl, rfl, rfl, rfl,
        rfl⟩
      refine ⟨hesc, by simp, by simp, ?_, Or.inr ⟨cells1, rfl, ?_⟩⟩
      · simpa [Cmd.content] using h2
      · simp [h1, malloc_length]
    · obtain ⟨cells1, h1, h2, h3⟩ := readLoop_typed g (b :: rest) c cells hsome hcur hesc
        hlen hs (by omega)
      have ha : Cmd.allocBuffer g c = c := by simp [Cmd.allocBuffer, hsome]
      refine ⟨_, by simp [Cmd.Loop, ha, h3]; rfl, ?_, rfl, rfl, rfl, rfl, rfl⟩
      refine ⟨hesc, by simp [hcur], by simp [hread], ?_, Or.inr ⟨cells1, rfl, ?_⟩⟩
      · have : cells.take c.m_buffer_read = line := by simpa [Cmd.content, hsome] using hcont
        simpa [Cmd.content, this] using h2
      · simp [h1, hlen]

/-- Printable bytes arriving over any number of `Loop()` calls with the
cursor at the end of the line are appended in order. -/
theorem Loops_typed (g : Nat → Nat) (chunks : List (List Nat)) :
    ∀ (c : Cmd) (line : List Nat), Cmd.AtEnd c line →
      (∀ b ∈ chunks.flatten, Cmd.printable b ∧ b ≠ 63) →
      line.length + chunks.flatten.length + 1 < c.m_buffer_size →
      ∃ r, Cmd.Loops g c [] chunks = some r ∧ Cmd.AtEnd r.cmd (line ++ chunks.flatten) ∧
        r.rx = [] ∧ r.calls = [] := by
  induction chunks with
  | nil =>
    intro c line h _ _
    exact ⟨⟨c, [], [], []⟩, rfl, by simpa using h, rfl, rfl⟩
  | cons a more ih =>
    intro c line h hs hroom
    simp only [List.flatten_cons, List.length_append] at hroom
    obtain ⟨r, h1, h2, h3, -, h5, h6, -⟩ := Loop_typed g c line a h
      (fun b hb => hs b (by simp [hb])) (by omega)
    obtain ⟨r2, k1, k2, k3, k4⟩ := ih r.cmd (line ++ a) h2
      (fun b hb => hs b (by simp only [List.flatten_cons, List.mem_append]; exact Or.inr hb))
      (by simp only [List.length_append]; omega)
    refine ⟨⟨r2.cmd, r2.rx, r.tx ++ r2.tx, r.calls ++ r2.calls⟩,
      by simp [Cmd.Loops, h1, h5, k1], ?_, k3, by simp [h6, k4]⟩
    simpa using k2

/-! ## Editing inside the line -/

theorem drop_eq_get_cons (buf : List Nat) (i v : Nat) (h : buf.get? i = some v) :
    buf.drop i = v :: buf.drop (i + 1) := by
  induction buf generalizing i with
  | nil => simp at h
  | cons x xs ih =>
    cases i with
    | zero =>
      simp at h
      simp [h]
    | succ j =>
      simp at h
      have := ih j (by simpa using h)
      simpa using this

theorem get?_of_lt (buf : List Nat) (i : Nat) (h : i < buf.length) :
    ∃ v, buf.get? i = some v := by
  refine ⟨buf.get ⟨i, h⟩, ?_⟩
  simp [List.get?_eq_get h]

theorem take_set_self (l : List Nat) (n a : Nat) : (l.set n a).take n = l.take n := by
  induction l generalizing n with
  | nil => simp
  | cons x xs ih =>
    cases n with
    | zero => simp
    | succ m => simp [ih m]

/-- Closed form of the copy loop of the insert branch. -/
theorem shiftRight_eq (buf : List Nat) (n : Nat) :
    ∀ (i : Nat) (cells : List Nat), i + n < cells.length → i + n ≤ buf.length →
      Cmd.shiftRight buf n i cells =
        some (cells.take (i + 1) ++ (buf.drop i).take n ++ cells.drop (i + n + 1),
          (buf.drop i).take n) := by
  induction n with
  | zero =>
    intro i cells _ _
    simp [Cmd.shiftRight]
  | succ k ih =>
    intro i cells h1 h2
    obtain ⟨v, hv⟩ := get?_of_lt buf i (by omega)
    have hw : writeAt cells (i + 1) v = some (cells.set (i + 1) v) := by
      simp [writeAt]; omega
    have h3 := ih (i + 1) (cells.set (i + 1) v) (by simp; omega) (by omega)
    have h4 : (cells.set (i + 1) v).take (i + 1 + 1) = cells.take (i + 1) ++ [v] :=
      take_set_succ cells (i + 1) v (by omega)
    have h5 : (cells.set (i + 1) v).drop (i + 1 + k + 1) = cells.drop (i + 1 + k + 1) :=
      List.drop_set_of_lt v cells (by omega)
    rw [h4, h5] at h3
    simp only [Cmd.shiftRight, hv, hw, h3, drop_eq_get_cons buf i v hv]
    simp only [List.take_succ_cons, List.append_assoc, List.singleton_append]
    rw [show i + (k + 1) + 1 = i + 1 + k + 1 by omega]

/-- Closed form of the copy loop of the delete branch. -/
theorem shiftLeft_eq (buf : List Nat) (n : Nat) :
    ∀ (i : Nat) (cells : List Nat), 0 < i → i + n ≤ cells.length + 1 →
      i + n ≤ buf.length →
      Cmd.shiftLeft buf n i cells =
        some (cells.take (i - 1) ++ (buf.drop i).take n ++ cells.drop (i - 1 + n),
          (buf.drop i).take n) := by
  induction n with
  | zero =>
    intro i cells _ _ _
    simp [Cmd.shiftLeft]
  | succ k ih =>
    intro i cells h0 h1 h2
    obtain ⟨v, hv⟩ := get?_of_lt buf i (by omega)
    have hw : writeAt cells (i - 1) v = some (cells.set (i - 1) v) := by
      simp [writeAt]; omega
    have h3 := ih (i + 1) (cells.set (i - 1) v) (by omega) (by simp; omega) (by omega)
    have h4 : (cells.set (i - 1) v).take (i + 1 - 1) = cells.take (i - 1) ++ [v] := by
      have := take_set_succ cells (i - 1) v (by omega)
      rwa [show i - 1 + 1 = i + 1 - 1 by omega] at this
    have h5 : (cells.set (i - 1) v).drop (i + 1 - 1 + k) = cells.drop (i + 1 - 1 + k) :=
      List.drop_set_of_lt v cells (by omega)
    rw [h4, h5] at h3
    simp only [Cmd.shiftLeft, hv, hw, h3, drop_eq_get_cons buf i v hv]
    simp only [List.take_succ_cons, List.append_assoc, List.singleton_append]
    rw [show i + 1 - 1 + k = i - 1 + (k + 1) by omega]

theorem takeWhile_take (l : List Nat) (n : Nat) (h : 0 ∉ l.take n) :
    (l.takeWhile (fun b => b != 0)).take n = l.take n := by
  induction l generalizing n with
  | nil => simp
  | cons x xs ih =>
    cases n with
    | zero => simp
    | succ m =>
      have hx : x ≠ 0 := fun e => h (by simp [e])
      have hxs : 0 ∉ xs.take m := fun e => h (by simp [e])
      simp [List.takeWhile_cons, hx, ih m hxs]

/-- The private copy made by `strcpy` agrees with the line on its content,
when the block holds a terminator and the content holds none. -/
theorem strcpy_content (g : Nat → Nat) (cells : List Nat) (size read : Nat)
    (hlen : cells.length ≤ size) (hterm : 0 ∈ cells) (hnul : 0 ∉ cells.take read)
    (hread : read ≤ cells.length) :
    ∃ buf, strcpy (malloc g size) cells = some buf ∧ buf.take read = cells.take read ∧
      read ≤ buf.length := by
  have hc : cstr cells = some (cells.takeWhile (fun b => b != 0)) := by simp [cstr, hterm]
  have hl := cstr_length_lt hc
  obtain ⟨buf, h1, -, h3⟩ := strcpy_cstr (malloc g size) cells _ hc
    (by rw [malloc_length]; omega)
  have h4 := takeWhile_take cells read hnul
  have h5 : read ≤ (cells.takeWhile (fun b => b != 0)).length := by
    have := congrArg List.length h4
    simp only [List.length_take] at this
    omega
  refine ⟨buf, h1, ?_, ?_⟩
  · rw [← h4, ← h3, List.take_take, Nat.min_eq_left h5]
  · have := congrArg List.length h3
    simp only [List.length_take] at this
    omega

/-- The loop body after the escape-state test, for a printable byte typed
inside the line: the byte is stored at the cursor and the bytes from the
cursor on move one place right. -/
theorem ordinaryByte_insert_interior (g : Nat → Nat) (c : Cmd) (cells : List Nat) (b : Nat)
    (hbuf : c.m_buffer = some cells) (hlen : cells.length = c.m_buffer_size)
    (hcur : c.m_buffer_cursor < c.m_buffer_read)
    (hroom : c.m_buffer_read + 1 < c.m_buffer_size - 1)
    (hb : Cmd.printable b) (hq : b ≠ 63)
    (hterm : 0 ∈ cells) (hnul : 0 ∉ cells.take c.m_buffer_read) :
    ∃ st, Cmd.ordinaryByte g c b = some st ∧ st.flow = Flow.next ∧ st.calls = [] ∧
      Cmd.content st.cmd =
        (Cmd.content c).take c.m_buffer_cursor ++ b :: (Cmd.content c).drop c.m_buffer_cursor ∧
      st.cmd.m_buffer_cursor = c.m_buffer_cursor + 1 ∧
      st.cmd.m_buffer_read = c.m_buffer_read + 1 ∧
      st.cmd.m_buffer_reading_esc = c.m_buffer_reading_esc := by
  obtain ⟨buf, h1, h2, h3⟩ := strcpy_content g cells c.m_buffer_size c.m_buffer_read
    (by omega) hterm hnul (by omega)
  have hw : writeAt cells c.m_buffer_cursor b = some (cells.set c.m_buffer_cursor b) := by
    simp [writeAt]; omega
  have hsh := shiftRight_eq buf (c.m_buffer_read - c.m_buffer_cursor) c.m_buffer_cursor
    (cells.set c.m_buffer_cursor b) (by simp; omega) (by omega)
  have hne : c.m_buffer_cursor ≠ c.m_buffer_read := by omega
  have hbig : ¬ (c.m_buffer_size - 1 ≤ c.m_buffer_read + 1) := by omega
  have hins : Cmd.insertKey g c b = some ⟨{ c with
        m_buffer := some ((cells.set c.m_buffer_cursor b).take (c.m_buffer_cursor + 1) ++
          (buf.drop c.m_buffer_cursor).take (c.m_buffer_read - c.m_buffer_cursor) ++
          (cells.set c.m_buffer_cursor b).drop
            (c.m_buffer_cursor + (c.m_buffer_read - c.m_buffer_cursor) + 1))
        m_buffer_read := c.m_buffer_read + 1
        m_buffer_cursor := c.m_buffer_cursor + 1 },
      (buf.drop c.m_buffer_cursor).take (c.m_buffer_read - c.m_buffer_cursor) ++
        List.replicate (c.m_buffer_read - c.m_buffer_cursor) 8, [], Flow.next⟩ := by
    simp [Cmd.insertKey, hbuf, hne, h1, hw, hsh, Cmd.tooLarge, hbig]
  refine ⟨_, by rw [ordinaryByte_printable g c b hb hq, hins], rfl, rfl, ?_, rfl, rfl, rfl⟩
  have e1 : (cells.set c.m_buffer_cursor b).take (c.m_buffer_cursor + 1) =
      cells.take c.m_buffer_cursor ++ [b] := take_set_succ cells _ b (by omega)
  have e2 : (buf.drop c.m_buffer_cursor).take (c.m_buffer_read - c.m_buffer_cursor) =
      (cells.take c.m_buffer_read).drop c.m_buffer_cursor := by
    rw [← h2, List.drop_take]
  have e3 : (cells.take c.m_buffer_cursor ++ [b] ++
      (cells.take c.m_buffer_read).drop c.m_buffer_cursor).length = c.m_buffer_read + 1 := by
    simp
    omega
  simp only [Cmd.content, hbuf, e1, e2]
  rw [List.take_append_of_le_length (by rw [e3]), List.take_of_length_le (by rw [e3])]
  simp [List.take_take, Nat.min_eq_left (Nat.le_of_lt hcur)]

/-- For a backspace or delete byte the loop body only runs the delete branch. -/
theorem ordinaryByte_delete (g : Nat → Nat) (c : Cmd) (b : Nat) (hb : b = 8 ∨ b = 127) :
    Cmd.ordinaryByte g c b =
      match Cmd.deleteKey g c b with
      | none => none
      | some (c1, t1) => some ⟨c1, t1, [], Flow.next⟩ := by
  rcases hb with rfl | rfl
  · simp only [Cmd.ordinaryByte, Cmd.homeKey, Cmd.endKey, Cmd.clearKey]
    cases Cmd.deleteKey g c 8 with
    | none => simp
    | some p => simp
  · simp only [Cmd.ordinaryByte, Cmd.homeKey, Cmd.endKey, Cmd.clearKey]
    cases Cmd.deleteKey g c 127 with
    | none => simp
    | some p => simp

/-- The delete branch with the cursor behind at least one byte: the byte
before the cursor is removed. -/
theorem deleteKey_removes (g : Nat → Nat) (c : Cmd) (cells : List Nat) (b : Nat)
    (hb : b = 8 ∨ b = 127)
    (hbuf : c.m_buffer = some cells) (hlen : cells.length ≤ c.m_buffer_size)
    (hpos : 0 < c.m_buffer_cursor) (hcur : c.m_buffer_cursor ≤ c.m_buffer_read)
    (hread : c.m_buffer_read ≤ cells.length)
    (hterm : c.m_buffer_cursor < c.m_buffer_read →
      0 ∈ cells ∧ 0 ∉ cells.take c.m_buffer_read) :
    ∃ c1 t1, Cmd.deleteKey g c b = some (c1, t1) ∧
      Cmd.content c1 =
        (Cmd.content c).take (c.m_buffer_cursor - 1) ++
          (Cmd.content c).drop c.m_buffer_cursor ∧
      c1.m_buffer_cursor = c.m_buffer_cursor - 1 ∧
      c1.m_buffer_read = c.m_buffer_read - 1 ∧
      c1.m_buffer_reading_esc = c.m_buffer_reading_esc := by
  have hr0 : c.m_buffer_read ≠ 0 := by omega
  have hc0 : c.m_buffer_cursor ≠ 0 := by omega
  have key : ∃ cells2 t1,
      Cmd.deleteKey g c b =
        some ({ c with
                m_buffer := some cells2
                m_buffer_read := c.m_buffer_read - 1
                m_buffer_cursor := c.m_buffer_cursor - 1 }, t1) ∧
      cells2.take (c.m_buffer_read - 1) =
        (cells.take c.m_buffer_read).take (c.m_buffer_cursor - 1) ++
          (cells.take c.m_buffer_read).drop c.m_buffer_cursor := by
    by_cases hend : c.m_buffer_cursor = c.m_buffer_read
    · have hw : writeAt cells (c.m_buffer_read - 1) 0 =
          some (cells.set (c.m_buffer_read - 1) 0) := by
        simp [writeAt]; omega
      refine ⟨cells.set (c.m_buffer_read - 1) 0, [8, 27, 91, 75],
        by simp [Cmd.deleteKey, hb, hr0, hc0, hend, hbuf, hw], ?_⟩
      rw [take_set_self, hend]
      simp [List.take_take]
    · have hlt : c.m_buffer_cursor < c.m_buffer_read := by omega
      obtain ⟨ht, hn⟩ := hterm hlt
      obtain ⟨buf, h1, h2, h3⟩ := strcpy_content g cells c.m_buffer_size c.m_buffer_read
        hlen ht hn hread
      have hsh := shiftLeft_eq buf (c.m_buffer_read - c.m_buffer_cursor) c.m_buffer_cursor
        cells hpos (by omega) (by omega)
      have e2 : (buf.drop c.m_buffer_cursor).take (c.m_buffer_read - c.m_buffer_cursor) =
          (cells.take c.m_buffer_read).drop c.m_buffer_cursor := by
        rw [← h2, List.drop_take]
      rw [e2] at hsh
      have e3 : (cells.take (c.m_buffer_cursor - 1) ++
          (cells.take c.m_buffer_read).drop c.m_buffer_cursor).length =
            c.m_buffer_read - 1 := by
        simp
        omega
      have e4 : (cells.take (c.m_buffer_cursor - 1) ++
          (cells.take c.m_buffer_read).drop c.m_buffer_cursor ++
          cells.drop (c.m_buffer_cursor - 1 + (c.m_buffer_read - c.m_buffer_cursor))).take
            (c.m_buffer_read - 1) =
          cells.take (c.m_buffer_cursor - 1) ++
            (cells.take c.m_buffer_read).drop c.m_buffer_cursor := by
        rw [List.take_append_of_le_length (by rw [e3]), List.take_of_length_le (by rw [e3])]
      have e5 : c.m_buffer_read - 1 < (cells.take (c.m_buffer_cursor - 1) ++
          (cells.take c.m_buffer_read).drop c.m_buffer_cursor ++
          cells.drop (c.m_buffer_cursor - 1 + (c.m_buffer_read - c.m_buffer_cursor))).length := by
        simp
        omega
      generalize cells.take (c.m_buffer_cursor - 1) ++
          (cells.take c.m_buffer_read).drop c.m_buffer_cursor ++
          cells.drop (c.m_buffer_cursor - 1 + (c.m_buffer_read - c.m_buffer_cursor)) = X
        at hsh e4 e5
      have hw : writeAt X (c.m_buffer_read - 1) 0 = some (X.set (c.m_buffer_read - 1) 0) := by
        simp [writeAt, e5]
      refine ⟨X.set (c.m_buffer_read - 1) 0,
        [8, 27, 91, 49, 80] ++ (cells.take c.m_buffer_read).drop c.m_buffer_cursor ++
          List.replicate (c.m_buffer_read - c.m_buffer_cursor) 8,
        by simp [Cmd.deleteKey, hb, hr0, hc0, hend, hbuf, h1, hsh, hw], ?_⟩
      rw [take_set_self, e4]
      simp [List.take_take]
      omega
  obtain ⟨cells2, t1, k1, k2⟩ := key
  refine ⟨_, t1, k1, ?_, rfl, rfl, rfl⟩
  simpa [Cmd.content, hbuf] using k2

/-! ## The invariant of the line -/

theorem PrintBuffer_fields (c c1 : Cmd) (out : List Nat)
    (h : Cmd.PrintBuffer c = some (c1, out)) :
    c1.m_buffer_size = c.m_buffer_size ∧ c1.m_buffer_read = c.m_buffer_read ∧
      c1.m_buffer_cursor = c.m_buffer_cursor ∧ (c1.m_buffer ≠ none → c.m_buffer ≠ none) := by
  unfold Cmd.PrintBuffer at h
  split at h
  · cases h
    simp
  · split at h
    · cases h
    · rename_i cells hb
      split at h
      · cases h
      · split at h
        · cases h
        · cases h
          simp [hb]

theorem deleteKey_inv (g : Nat → Nat) (cap : Nat) (c c1 : Cmd) (b : Nat) (t : List Nat)
    (hi : Cmd.LineInv cap c) (h : Cmd.deleteKey g c b = some (c1, t)) :
    Cmd.LineInv cap c1 := by
  obtain ⟨i0, i1, i2, i3, i4⟩ := hi
  unfold Cmd.deleteKey at h
  split at h
  · split at h
    · rename_i hne
      split at h
      · cases h
      · cases h
      · split at h
        · cases h
        · cases h
          refine ⟨i0, i1, ?_, ?_, ?_⟩
          · simp only; omega
          · simp only; omega
          · intro _
            simp only
            omega
    · cases h
      exact ⟨i0, i1, i2, i3, i4⟩
  · cases h
    exact ⟨i0, i1, i2, i3, i4⟩

theorem homeKey_inv (cap : Nat) (c : Cmd) (b : Nat) (hi : Cmd.LineInv cap c) :
    Cmd.LineInv cap (Cmd.homeKey c b).1 := by
  obtain ⟨i0, i1, i2, i3, i4⟩ := hi
  unfold Cmd.homeKey
  split
  · exact ⟨i0, i1, by simp, i3, i4⟩
  · exact ⟨i0, i1, i2, i3, i4⟩

theorem endKey_inv (cap : Nat) (c : Cmd) (b : Nat) (hi : Cmd.LineInv cap c) :
    Cmd.LineInv cap (Cmd.endKey c b).1 := by
  obtain ⟨i0, i1, i2, i3, i4⟩ := hi
  unfold Cmd.endKey
  split
  · split
    · exact ⟨i0, i1, by simp, i3, i4⟩
    · exact ⟨i0, i1, i2, i3, i4⟩
  · exact ⟨i0, i1, i2, i3, i4⟩

theorem StartNewBuffer_inv (cap : Nat) (c : Cmd) (hi : Cmd.LineInv cap c) :
    Cmd.LineInv cap (Cmd.StartNewBuffer c).1 := by
  obtain ⟨i0, i1, i2, i3, -⟩ := hi
  exact ⟨i0, i1, i2, i3, by simp [Cmd.StartNewBuffer]⟩

theorem clearKey_inv (cap : Nat) (c c1 : Cmd) (b : Nat) (t : List Nat)
    (hi : Cmd.LineInv cap c) (h : Cmd.clearKey c b = some (c1, t)) :
    Cmd.LineInv cap c1 := by
  obtain ⟨i0, i1, i2, i3, i4⟩ := hi
  unfold Cmd.clearKey at h
  split at h
  · split at h
    · cases h
    · rename_i cells hb
      split at h
      · cases h
      · split at h
        · cases h
        · rename_i c2 out hp
          cases h
          obtain ⟨k1, k2, k3, -⟩ := PrintBuffer_fields _ _ _ hp
          simp only at k1 k2 k3
          refine ⟨i0, by rw [k1, i1], by rw [k2, k3]; exact i2, by rw [k2]; exact i3, ?_⟩
          intro _
          rw [k2]
          exact i4 (by simp [hb])
  · cases h
    exact ⟨i0, i1, i2, i3, i4⟩

theorem helpKey_inv (g : Nat → Nat) (cap : Nat) (c c1 : Cmd) (t : List Nat)
    (calls : List Call) (hi : Cmd.LineInv cap c)
    (h : Cmd.helpKey g c = some (c1, t, calls)) : Cmd.LineInv cap c1 := by
  obtain ⟨i0, i1, i2, i3, i4⟩ := hi
  unfold Cmd.helpKey at h
  split at h
  · cases h
  · rename_i cells hb
    split at h
    · cases h
    · unfold Cmd.PrintHelp at h
      simp only at h
      split at h
      · cases h
      · split at h
        · cases h
        · split at h
          · cases h
          · rename_i c2 out hp
            cases h
            obtain ⟨k1, k2, k3, -⟩ := PrintBuffer_fields _ _ _ hp
            simp only at k1 k2 k3
            refine ⟨i0, by rw [k1, i1], by rw [k2, k3]; exact i2, by rw [k2]; exact i3, ?_⟩
            intro _
            rw [k2]
            exact i4 (by simp [hb])

theorem insertKey_inv (g : Nat → Nat) (cap : Nat) (c : Cmd) (b : Nat) (st : Step)
    (hi : Cmd.LineInv cap c) (h : Cmd.insertKey g c b = some st) :
    Cmd.LineInv cap st.cmd ∧ (st.flow = Flow.overflow → st.cmd.m_buffer = none) ∧
      st.flow ≠ Flow.endLine := by
  obtain ⟨i0, i1, i2, i3, i4⟩ := hi
  unfold Cmd.insertKey at h
  split at h
  · cases h
  · rename_i cells hb
    have i5 := i4 (by simp [hb])
    split at h
    · cases h
    · simp only at h
      split at h
      · rename_i hbig
        cases h
        refine ⟨⟨i0, by simp [Cmd.StartNewBuffer, i1], by simp [Cmd.StartNewBuffer]; omega,
          by simp [Cmd.StartNewBuffer]; omega, by simp [Cmd.StartNewBuffer]⟩,
          by simp [Cmd.StartNewBuffer], by simp⟩
      · rename_i hbig
        cases h
        simp only [Cmd.tooLarge, Bool.and_eq_true, decide_eq_true_eq, not_and] at hbig
        have hb2 : ¬ (c.m_buffer_size - 1 ≤ c.m_buffer_read + 1) := hbig (by omega)
        refine ⟨⟨i0, i1, by simp only; omega, by simp only; omega, ?_⟩, by simp, by simp⟩
        intro _
        simp only
        omega

theorem ordinaryByte_inv (g : Nat → Nat) (cap : Nat) (c : Cmd) (b : Nat) (st : Step)
    (hi : Cmd.LineInv cap c) (h : Cmd.ordinaryByte g c b = some st) :
    Cmd.LineInv cap st.cmd := by
  unfold Cmd.ordinaryByte at h
  simp only at h
  split at h
  · cases h
    obtain ⟨i0, i1, i2, i3, i4⟩ := hi
    exact ⟨i0, i1, i2, i3, i4⟩
  · split at h
    · cases h
    · rename_i c1 t1 hd
      have j1 := deleteKey_inv g cap c c1 b t1 hi hd
      have j2 := endKey_inv cap _ b (homeKey_inv cap c1 b j1)
      split at h
      · cases h
        exact StartNewBuffer_inv cap _ j2
      · split at h
        · cases h
        · rename_i c2 t2 hc
          have j3 := clearKey_inv cap _ c2 b t2 j2 hc
          split at h
          · cases h
            exact j3
          · split at h
            · split at h
              · cases h
              · rename_i c3 t3 calls hh
                cases h
                exact helpKey_inv g cap c2 c3 t3 calls j3 hh
            · split at h
              · cases h
                exact j3
              · split at h
                · cases h
                · rename_i s hs
                  cases h
                  exact (insertKey_inv g cap c2 b s j3 hs).1

theorem processByte_inv (g : Nat → Nat) (cap : Nat) (c : Cmd) (b : Nat) (st : Step)
    (hi : Cmd.LineInv cap c) (h : Cmd.processByte g c b = some st) :
    Cmd.LineInv cap st.cmd := by
  have hesc : ∀ e, Cmd.LineInv cap { c with m_buffer_reading_esc := e } := by
    intro e
    obtain ⟨i0, i1, i2, i3, i4⟩ := hi
    exact ⟨i0, i1, i2, i3, i4⟩
  obtain ⟨i0, i1, i2, i3, i4⟩ := hi
  unfold Cmd.processByte at h
  split at h
  · split at h
    · cases h
      exact hesc 2
    · exact ordinaryByte_inv g cap _ b st (hesc 0) h
  · split at h
    · split at h
      · split at h
        · cases h
          exact hesc 0
        · cases h
          exact ⟨i0, i1, by simp only; omega, i3, i4⟩
      · split at h
        · split at h
          · cases h
            exact hesc 0
          · cases h
            exact ⟨i0, i1, by simp only; omega, i3, i4⟩
        · cases h
          exact hesc 0
    · exact ordinaryByte_inv g cap c b st ⟨i0, i1, i2, i3, i4⟩ h

theorem readStates_inv (g : Nat → Nat) (cap : Nat) (rx : List Nat) :
    ∀ c : Cmd, Cmd.LineInv cap c → ∀ c1 ∈ Cmd.readStates g c rx, Cmd.LineInv cap c1 := by
  induction rx with
  | nil =>
    intro c _ c1 h1
    simp [Cmd.readStates] at h1
  | cons b rest ih =>
    intro c hi c1 h1
    unfold Cmd.readStates at h1
    split at h1
    · simp at h1
    · rename_i s hs
      have j := processByte_inv g cap c b s hi hs
      rcases List.mem_cons.mp h1 with e | e
      · rw [e]
        exact j
      · split at e
        · exact ih s.cmd j c1 e
        · simp at e
        · simp at e

theorem readLoop_inv (g : Nat → Nat) (cap : Nat) (rx : List Nat) :
    ∀ (c : Cmd) (r : LoopResult) (e : Bool), Cmd.LineInv cap c →
      Cmd.readLoop g c rx = some (r, e) → Cmd.LineInv cap r.cmd := by
  induction rx with
  | nil =>
    intro c r e hi h
    simp only [Cmd.readLoop, Option.some.injEq, Prod.mk.injEq] at h
    rw [← h.1]
    exact hi
  | cons b rest ih =>
    intro c r e hi h
    unfold Cmd.readLoop at h
    split at h
    · cases h
    · rename_i s hs
      have j := processByte_inv g cap c b s hi hs
      split at h
      · cases h
        exact j
      · cases h
        exact j
      · split at h
        · cases h
        · rename_i r1 e1 hr
          cases h
          exact ih s.cmd r1 e j hr

theorem allocBuffer_inv (g : Nat → Nat) (cap : Nat) (c : Cmd) (hi : Cmd.LineInv cap c) :
    Cmd.LineInv cap (Cmd.allocBuffer g c) := by
  obtain ⟨i0, i1, i2, i3, i4⟩ := hi
  unfold Cmd.allocBuffer
  split
  · exact ⟨i0, i1, by simp, by simp, fun _ => by simp only; omega⟩
  · exact ⟨i0, i1, i2, i3, i4⟩

theorem ParseBuffer_fields (g : Nat → Nat) (c c1 : Cmd) (calls : List Call)
    (h : Cmd.ParseBuffer g c = some (c1, calls)) :
    c1 = { c with m_processing := false } := by
  unfold Cmd.ParseBuffer at h
  split at h
  · cases h
  · split at h
    · cases h
    · split at h
      · cases h
      · cases h
        rfl

theorem endOfLine_inv (g : Nat → Nat) (cap : Nat) (c c1 : Cmd) (out : List Nat)
    (calls : List Call) (hi : Cmd.LineInv cap c)
    (h : Cmd.endOfLine g c = some (c1, out, calls)) : Cmd.LineInv cap c1 := by
  obtain ⟨i0, i1, i2, i3, i4⟩ := hi
  unfold Cmd.endOfLine at h
  split at h
  · cases h
  · split at h
    · cases h
    · split at h
      · cases h
      · rename_i c2 calls2 hp
        cases h
        rw [ParseBuffer_fields g _ _ _ hp]
        exact ⟨i0, i1, i2, i3, by simp [Cmd.StartNewBuffer]⟩

theorem Loop_inv (g : Nat → Nat) (cap : Nat) (c : Cmd) (rx : List Nat) (r : LoopResult)
    (hi : Cmd.LineInv cap c) (h : Cmd.Loop g c rx = some r) : Cmd.LineInv cap r.cmd := by
  unfold Cmd.Loop at h
  split at h
  · cases h
    exact hi
  · split at h
    · cases h
    · rename_i r1 hr
      cases h
      exact readLoop_inv g cap rx _ _ _ (allocBuffer_inv g cap c hi) hr
    · rename_i r1 hr
      have j := readLoop_inv g cap rx _ _ _ (allocBuffer_inv g cap c hi) hr
      split at h
      · cases h
      · rename_i c1 out calls he
        cases h
        exact endOfLine_inv g cap r1.cmd c1 out calls j he

theorem LoopsStates_inv (g : Nat → Nat) (cap : Nat) (chunks : List (List Nat)) :
    ∀ (c : Cmd) (rx : List Nat), Cmd.LineInv cap c →
      ∀ c1 ∈ Cmd.LoopsStates g c rx chunks, Cmd.LineInv cap c1 := by
  induction chunks with
  | nil =>
    intro c rx _ c1 h1
    simp [Cmd.LoopsStates] at h1
  | cons a more ih =>
    intro c rx hi c1 h1
    unfold Cmd.LoopsStates at h1
    rcases List.mem_append.mp h1 with e | e
    · split at e
      · simp at e
      · exact readStates_inv g cap _ _ (allocBuffer_inv g cap c hi) c1 e
    · split at e
      · simp at e
      · rename_i r hr
        have j := Loop_inv g cap c _ r hi hr
        rcases List.mem_cons.mp e with e1 | e1
        · rw [e1]
          exact j
        · exact ih r.cmd r.rx j c1 e1

/-! ## Overflow of the line -/

/-- Typing printable bytes at the end of the line, followed by further bytes
in the same pass of the read loop: the typed bytes are appended and the pass
goes on with the further bytes. -/
theorem readLoop_typed_then (g : Nat → Nat) (s : List Nat) :
    ∀ (c : Cmd) (cells : List Nat), c.m_buffer = some cells →
      c.m_buffer_cursor = c.m_buffer_read → c.m_buffer_reading_esc = 0 →
      cells.length = c.m_buffer_size →
      (∀ b ∈ s, Cmd.printable b ∧ b ≠ 63) →
      c.m_buffer_read + s.length + 1 < c.m_buffer_size →
      ∃ cells1 c1, cells1.length = cells.length ∧
        c1 = { c with
              m_buffer := some cells1
              m_buffer_read := c.m_buffer_read + s.length
              m_buffer_cursor := c.m_buffer_cursor + s.length } ∧
        ∀ ys, Cmd.readLoop g c (s ++ ys) =
          match Cmd.readLoop g c1 ys with
          | none => none
          | some (r, e) =>
            some (⟨r.cmd, r.rx, (if c.m_echo then s else []) ++ r.tx, r.calls⟩, e) := by
  induction s with
  | nil =>
    intro c cells hbuf _ _ _ _ _
    refine ⟨cells, c, rfl, by simp [← hbuf], fun ys => ?_⟩
    simp only [List.nil_append]
    cases Cmd.readLoop g c ys with
    | none => simp
    | some p => simp
  | cons b rest ih =>
    intro c cells hbuf hcur hesc hlen hs hroom
    simp only [List.length_cons] at hroom
    have hb := hs b (by simp)
    have hread : c.m_buffer_read < cells.length := by omega
    have hstep : Cmd.processByte g c b =
        some ⟨{ c with
                m_buffer := some (cells.set c.m_buffer_read b)
                m_buffer_read := c.m_buffer_read + 1
                m_buffer_cursor := c.m_buffer_cursor + 1 },
          if c.m_echo then [b] else [], [], Flow.next⟩ := by
      simp [Cmd.processByte, hesc, ordinaryByte_printable g c b hb.1 hb.2,
        insertKey_end g c cells b hbuf hcur hread (by omega)]
    obtain ⟨cells1, c1, h1, h2, h3⟩ := ih
      { c with
        m_buffer := some (cells.set c.m_buffer_read b)
        m_buffer_read := c.m_buffer_read + 1
        m_buffer_cursor := c.m_buffer_cursor + 1 }
      (cells.set c.m_buffer_read b) rfl (by simp [hcur]) hesc (by simp [hlen])
      (fun x hx => hs x (by simp [hx])) (by simp; omega)
    refine ⟨cells1, c1, by simpa using h1, ?_, fun ys => ?_⟩
    · rw [h2]
      simp only [List.length_cons, Cmd.mk.injEq, true_and, and_true]
      omega
    · rw [List.cons_append]
      simp only [Cmd.readLoop, hstep]
      rw [h3 ys]
      cases Cmd.readLoop g c1 ys with
      | none => simp
      | some p =>
        by_cases he : c.m_echo = true <;> simp [he]

/-- Storing the byte that brings the length to capacity - 1: the line is
aborted. -/
theorem insertKey_end_overflow (g : Nat → Nat) (c : Cmd) (cells : List Nat) (b : Nat)
    (hbuf : c.m_buffer = some cells) (hcur : c.m_buffer_cursor = c.m_buffer_read)
    (hread : c.m_buffer_read < cells.length)
    (hfull : c.m_buffer_read + 2 = c.m_buffer_size) :
    Cmd.insertKey g c b =
      some ⟨{ c with
              m_buffer := none
              m_buffer_read := c.m_buffer_read + 1
              m_buffer_cursor := c.m_buffer_cursor + 1 },
        dataTooLarge ++ CRLF ++ c.m_line_indicator, [], Flow.overflow⟩ := by
  have h1 : c.m_buffer_size - 1 ≤ c.m_buffer_read + 1 := by omega
  have h2 : c.m_buffer_size ≠ 0 := by omega
  simp [Cmd.insertKey, hbuf, hcur, writeAt, hread, Cmd.tooLarge, h1, h2, Cmd.StartNewBuffer]

/-! ## Help request -/

/-- For the question mark the loop body echoes the byte and runs the help
branch. -/
theorem ordinaryByte_help (g : Nat → Nat) (c : Cmd) :
    Cmd.ordinaryByte g c 63 =
      match Cmd.helpKey g c with
      | none => none
      | some (c3, t3, calls) =>
        some ⟨c3, (if c.m_echo then [63] else []) ++ t3, calls, Flow.next⟩ := by
  cases h : Cmd.helpKey g c with
  | none => simp [Cmd.ordinaryByte, Cmd.deleteKey, Cmd.homeKey, Cmd.endKey, Cmd.clearKey, h]
  | some p => simp [Cmd.ordinaryByte, Cmd.deleteKey, Cmd.homeKey, Cmd.endKey, Cmd.clearKey, h]

/-! ## The abort threshold -/

/-- The insert branch on an allocated line, with the cursor anywhere in it:
the byte is stored at the cursor, the bytes from the cursor on move one place
right and are written again followed by as many backspaces; the line is
aborted when the new length is capacity - 1 or more. -/
theorem insertKey_eq (g : Nat → Nat) (c : Cmd) (cells : List Nat) (b : Nat)
    (hbuf : c.m_buffer = some cells) (hlen : cells.length = c.m_buffer_size)
    (hcur : c.m_buffer_cursor ≤ c.m_buffer_read) (hread : c.m_buffer_read < cells.length)
    (hterm : c.m_buffer_cursor < c.m_buffer_read →
      0 ∈ cells ∧ 0 ∉ cells.take c.m_buffer_read) :
    Cmd.insertKey g c b =
      some (if c.m_buffer_size - 1 ≤ c.m_buffer_read + 1 then
          ⟨{ c with
              m_buffer := none
              m_buffer_read := c.m_buffer_read + 1
              m_buffer_cursor := c.m_buffer_cursor + 1 },
            ((cells.take c.m_buffer_read).drop c.m_buffer_cursor ++
              List.replicate (c.m_buffer_read - c.m_buffer_cursor) 8) ++
              (dataTooLarge ++ CRLF ++ c.m_line_indicator), [], Flow.overflow⟩
        else
          ⟨{ c with
              m_buffer := some (cells.take c.m_buffer_cursor ++
                b :: ((cells.take c.m_buffer_read).drop c.m_buffer_cursor ++
                  cells.drop (c.m_buffer_read + 1)))
              m_buffer_read := c.m_buffer_read + 1
              m_buffer_cursor := c.m_buffer_cursor + 1 },
            (cells.take c.m_buffer_read).drop c.m_buffer_cursor ++
              List.replicate (c.m_buffer_read - c.m_buffer_cursor) 8, [], Flow.next⟩) := by
  have hs0 : c.m_buffer_size ≠ 0 := by omega
  by_cases hend : c.m_buffer_cursor = c.m_buffer_read
  · have hw : writeAt cells c.m_buffer_read b = some (cells.set c.m_buffer_read b) := by
      simp [writeAt, hread]
    have e1 : cells.set c.m_buffer_read b =
        cells.take c.m_buffer_read ++ b :: cells.drop (c.m_buffer_read + 1) :=
      set_eq_take_append cells _ b hread
    by_cases hbig : c.m_buffer_size - 1 ≤ c.m_buffer_read + 1
    · simp [Cmd.insertKey, hbuf, hend, hw, Cmd.tooLarge, hbig, hs0, Cmd.StartNewBuffer]
    · simp [Cmd.insertKey, hbuf, hend, hw, Cmd.tooLarge, hbig, e1]
  · have hlt : c.m_buffer_cursor < c.m_buffer_read := by omega
    obtain ⟨ht, hn⟩ := hterm hlt
    obtain ⟨buf, h1, h2, h3⟩ := strcpy_content g cells c.m_buffer_size c.m_buffer_read
      (by omega) ht hn (by omega)
    have hw : writeAt cells c.m_buffer_cursor b = some (cells.set c.m_buffer_cursor b) := by
      simp [writeAt]; omega
    have hsh := shiftRight_eq buf (c.m_buffer_read - c.m_buffer_cursor) c.m_buffer_cursor
      (cells.set c.m_buffer_cursor b) (by simp; omega) (by omega)
    have e1 : (cells.set c.m_buffer_cursor b).take (c.m_buffer_cursor + 1) =
        cells.take c.m_buffer_cursor ++ [b] := take_set_succ cells _ b (by omega)
    have e2 : (buf.drop c.m_buffer_cursor).take (c.m_buffer_read - c.m_buffer_cursor) =
        (cells.take c.m_buffer_read).drop c.m_buffer_cursor := by
      rw [← h2, List.drop_take]
    have e3 : (cells.set c.m_buffer_cursor b).drop
        (c.m_buffer_cursor + (c.m_buffer_read - c.m_buffer_cursor) + 1) =
        cells.drop (c.m_buffer_read + 1) := by
      rw [show c.m_buffer_cursor + (c.m_buffer_read - c.m_buffer_cursor) + 1 =
        c.m_buffer_read + 1 by omega]
      exact List.drop_set_of_lt b cells (by omega)
    rw [e1, e2, e3] at hsh
    by_cases hbig : c.m_buffer_size - 1 ≤ c.m_buffer_read + 1
    · simp [Cmd.insertKey, hbuf, hend, h1, hw, hsh, Cmd.tooLarge, hbig, hs0,
        Cmd.StartNewBuffer]
    · simp [Cmd.insertKey, hbuf, hend, h1, hw, hsh, Cmd.tooLarge, hbig]

/-- Typing printable bytes at the end of the line, followed by further bytes
in the same pass: the content after the typed bytes is known and the pass
goes on with the further bytes. -/
theorem readLoop_typed_full (g : Nat → Nat) (s : List Nat) (c : Cmd) (cells : List Nat)
    (hbuf : c.m_buffer = some cells) (hcur : c.m_buffer_cursor = c.m_buffer_read)
    (hesc : c.m_buffer_reading_esc = 0) (hlen : cells.length = c.m_buffer_size)
    (hs : ∀ b ∈ s, Cmd.printable b ∧ b ≠ 63)
    (hroom : c.m_buffer_read + s.length + 1 < c.m_buffer_size) :
    ∃ cells1, cells1.length = cells.length ∧
      cells1.take (c.m_buffer_read + s.length) = cells.take c.m_buffer_read ++ s ∧
      ∀ ys, Cmd.readLoop g c (s ++ ys) =
        match Cmd.readLoop g { c with
            m_buffer := some cells1
            m_buffer_read := c.m_buffer_read + s.length
            m_buffer_cursor := c.m_buffer_cursor + s.length } ys with
        | none => none
        | some (r, e) =>
          some (⟨r.cmd, r.rx, (if c.m_echo then s else []) ++ r.tx, r.calls⟩, e) := by
  obtain ⟨cA, hA1, hA2, hA3⟩ := readLoop_typed g s c cells hbuf hcur hesc hlen hs hroom
  obtain ⟨cB, c1, -, hB2, hB3⟩ := readLoop_typed_then g s c cells hbuf hcur hesc hlen hs hroom
  have h := hB3 []
  rw [List.append_nil, hA3] at h
  simp only [Cmd.readLoop, List.append_nil, Option.some.injEq, Prod.mk.injEq,
    LoopResult.mk.injEq, and_true, true_and] at h
  refine ⟨cA, hA1, hA2, fun ys => ?_⟩
  rw [hB3 ys, ← h]

/-- One `Loop()` call that receives printable bytes on an empty line and then
a carriage return: the line typed is dispatched and the bytes after the
carriage return stay unread. -/
theorem Loop_typed_cr (g : Nat → Nat) (c : Cmd) (s rest : List Nat)
    (hesc : c.m_buffer_reading_esc = 0)
    (hread : c.m_buffer_read = 0) (hcur : c.m_buffer_cursor = 0)
    (hbuf : c.m_buffer = none ∨
      ∃ cells, c.m_buffer = some cells ∧ cells.length = c.m_buffer_size)
    (hs : ∀ b ∈ s, Cmd.printable b ∧ b ≠ 63)
    (hroom : s.length + 1 < c.m_buffer_size) :
    ∃ r, Cmd.Loop g c (s ++ 13 :: rest) = some r ∧ r.rx = rest ∧
      r.calls = [Cmd.invoke c (strtok s c.m_separator).1 (strtok s c.m_separator).2 false] ∧
      r.cmd.m_buffer = none ∧
      Cmd.dispatched g c (s ++ 13 :: rest) = some s := by
  obtain ⟨cells1, hc1, hl1, hr1, hu1⟩ : ∃ cells1,
      (Cmd.allocBuffer g c).m_buffer = some cells1 ∧ cells1.length = c.m_buffer_size ∧
      (Cmd.allocBuffer g c).m_buffer_read = 0 ∧ (Cmd.allocBuffer g c).m_buffer_cursor = 0 := by
    rcases hbuf with hn | ⟨cells, hsome, hl⟩
    · exact ⟨malloc g c.m_buffer_size, by simp [Cmd.allocBuffer, hn], malloc_length _ _,
        by simp [Cmd.allocBuffer, hn], by simp [Cmd.allocBuffer, hn]⟩
    · exact ⟨cells, by simp [Cmd.allocBuffer, hsome], hl,
        by simp [Cmd.allocBuffer, hsome, hread], by simp [Cmd.allocBuffer, hsome, hcur]⟩
  have hf : (Cmd.allocBuffer g c).m_buffer_size = c.m_buffer_size ∧
      (Cmd.allocBuffer g c).m_separator = c.m_separator ∧
      (Cmd.allocBuffer g c).m_commands = c.m_commands ∧
      (Cmd.allocBuffer g c).m_functions = c.m_functions ∧
      (Cmd.allocBuffer g c).m_size = c.m_size ∧
      (Cmd.allocBuffer g c).m_defaultFunction = c.m_defaultFunction ∧
      (Cmd.allocBuffer g c).m_buffer_reading_esc = c.m_buffer_reading_esc := by
    unfold Cmd.allocBuffer
    split <;> simp
  obtain ⟨f1, f2, f3, f4, f5, f6, f7⟩ := hf
  have hlen : (s ++ 13 :: rest).length ≠ 0 := by simp
  simp only [Cmd.Loop, Cmd.dispatched, hlen, if_false]
  generalize Cmd.allocBuffer g c = c1 at hc1 hr1 hu1 f1 f2 f3 f4 f5 f6 f7
  obtain ⟨cells2, k1, k2, k3⟩ := readLoop_typed_full g s c1 cells1 hc1
    (by rw [hr1, hu1]) (by rw [f7, hesc]) (by rw [hl1, f1]) hs (by rw [hr1, f1]; omega)
  rw [hr1, Nat.zero_add] at k2
  simp only [List.take_zero, List.nil_append] at k2
  have h0 : 0 ∉ cells2.take s.length := by
    rw [k2]
    intro hz
    have := (hs 0 hz).1
    simp [Cmd.printable] at this
  have hcr := processByte_cr g { c1 with
      m_buffer := some cells2
      m_buffer_read := c1.m_buffer_read + s.length
      m_buffer_cursor := c1.m_buffer_cursor + s.length } (by simp [f7, hesc])
  have heol := endOfLine_eq g { c1 with
      m_buffer := some cells2
      m_buffer_read := c1.m_buffer_read + s.length
      m_buffer_cursor := c1.m_buffer_cursor + s.length
      m_buffer_reading_esc :=
        if c1.m_buffer_reading_esc = 1 then 0 else c1.m_buffer_reading_esc }
    cells2 rfl (by simp only [hr1]; omega) (by simp only [hr1, f1]; omega)
    (by simpa [hr1] using h0)
  simp only [hr1, Nat.zero_add] at hcr heol
  rw [k3 (13 :: rest)]
  simp only [hr1, Nat.zero_add, Cmd.readLoop, hcr, heol, k2]
  refine ⟨_, rfl, ?_⟩
  simp [Cmd.invoke, f2, f3, f4, f5, f6]

/-- A dispatched line is shorter than capacity - 1. -/
theorem dispatched_length (g : Nat → Nat) (cap : Nat) (c : Cmd) (rx line : List Nat)
    (hi : Cmd.LineInv cap c) (h : Cmd.dispatched g c rx = some line) :
    line.length + 2 ≤ cap := by
  unfold Cmd.dispatched at h
  split at h
  · cases h
  · split at h
    · rename_i r hr
      have j := readLoop_inv g cap rx _ _ _ (allocBuffer_inv g cap c hi) hr
      obtain ⟨-, -, -, -, j4⟩ := j
      split at h
      · cases h
      · rename_i cells hb
        cases h
        have := j4 (by simp [hb])
        simp only [List.length_take]
        omega
    · cases h

theorem LoopsDispatched_length (g : Nat → Nat) (cap : Nat) (chunks : List (List Nat)) :
    ∀ (c : Cmd) (rx : List Nat), Cmd.LineInv cap c →
      ∀ line ∈ Cmd.LoopsDispatched g c rx chunks, line.length + 2 ≤ cap := by
  induction chunks with
  | nil =>
    intro c rx _ line h
    simp [Cmd.LoopsDispatched] at h
  | cons a more ih =>
    intro c rx hi line h
    unfold Cmd.LoopsDispatched at h
    rcases List.mem_append.mp h with e | e
    · exact dispatched_length g cap c (rx ++ a) line hi (by simpa using e)
    · split at e
      · simp at e
      · rename_i r hr
        exact ih r.cmd r.rx (Loop_inv g cap c _ r hi hr) line e

/-! ## The terminal beside the line -/

/-- The terminal handles the bytes written one after the other. -/
theorem Screen_run_append (t : Cmd.Screen) (xs ys : List Nat) :
    t.run (xs ++ ys) = (t.run xs).run ys := by
  simp [Cmd.Screen.run, List.foldl_append]

/-- Printable bytes written at a column inside the row overwrite the cells from
there on. -/
theorem Screen_run_printables (ps : List Nat) :
    ∀ (row : List Nat) (col : Nat), col ≤ row.length → (∀ b ∈ ps, Cmd.printable b) →
      (Cmd.Screen.mk row col 0).run ps =
        ⟨row.take col ++ ps ++ row.drop (col + ps.length), col + ps.length, 0⟩ := by
  induction ps with
  | nil => intro row col _ _; simp [Cmd.Screen.run]
  | cons p ps ih =>
    intro row col hc h
    have hp : Cmd.printable p := h p (by simp)
    obtain ⟨h1, h2⟩ := hp
    have e27 : p ≠ 27 := by omega
    have e8 : p ≠ 8 := by omega
    have hstep : (Cmd.Screen.mk row col 0).run (p :: ps) =
        (Cmd.Screen.mk (row.take col ++ p :: row.drop (col + 1)) (col + 1) 0).run ps := by
      simp [Cmd.Screen.run, Cmd.Screen.feed, e27, e8, h1, h2]
    rw [hstep, ih _ _ (by simp; omega) (fun b hb => h b (by simp [hb]))]
    have e1 : (row.take col ++ p :: row.drop (col + 1)).take (col + 1) = row.take col ++ [p] := by
      rw [List.take_append_eq_append_take]
      simp [Nat.min_eq_left hc]
    have e2 : (row.take col ++ p :: row.drop (col + 1)).drop (col + 1 + ps.length) =
        row.drop (col + (ps.length + 1)) := by
      rw [List.drop_append_eq_append_drop]
      rw [List.drop_of_length_le (by simp; omega),
        show col + 1 + ps.length - (row.take col).length = ps.length + 1 by simp; omega]
      simp [List.drop_drop]
      congr 1
      omega
    rw [e1, e2]
    simp
    omega

/-- Backspaces only move the column. -/
theorem Screen_run_backspaces (m : Nat) :
    ∀ (row : List Nat) (col : Nat),
      (Cmd.Screen.mk row col 0).run (List.replicate m 8) = ⟨row, col - m, 0⟩ := by
  induction m with
  | zero => intro row col; simp [Cmd.Screen.run]
  | succ k ih =>
    intro row col
    have hstep : (Cmd.Screen.mk row col 0).run (List.replicate (k + 1) 8) =
        (Cmd.Screen.mk row (col - 1) 0).run (List.replicate k 8) := by
      simp [Cmd.Screen.run, Cmd.Screen.feed, List.replicate_succ]
    rw [hstep, ih]
    simp
    omega

/-- Copies of ESC '[' 'D' only move the column left. -/
theorem Screen_run_lefts (m : Nat) :
    ∀ (row : List Nat) (col : Nat),
      (Cmd.Screen.mk row col 0).run (List.replicate m escD).flatten = ⟨row, col - m, 0⟩ := by
  induction m with
  | zero => intro row col; simp [Cmd.Screen.run]
  | succ k ih =>
    intro row col
    have hstep : (Cmd.Screen.mk row col 0).run (List.replicate (k + 1) escD).flatten =
        (Cmd.Screen.mk row (col - 1) 0).run (List.replicate k escD).flatten := by
      simp [Cmd.Screen.run, Cmd.Screen.feed, List.replicate_succ, escD]
    rw [hstep, ih]
    simp
    omega

/-- Copies of ESC '[' 'C' only move the column right. -/
theorem Screen_run_rights (m : Nat) :
    ∀ (row : List Nat) (col : Nat),
      (Cmd.Screen.mk row col 0).run (List.replicate m escC).flatten = ⟨row, col + m, 0⟩ := by
  induction m with
  | zero => intro row col; simp [Cmd.Screen.run]
  | succ k ih =>
    intro row col
    have hstep : (Cmd.Screen.mk row col 0).run (List.replicate (k + 1) escC).flatten =
        (Cmd.Screen.mk row (col + 1) 0).run (List.replicate k escC).flatten := by
      simp [Cmd.Screen.run, Cmd.Screen.feed, List.replicate_succ, escC]
    rw [hstep, ih]
    simp
    omega

theorem getLast_set_zero (X : List Nat) (i : Nat) (h : X.getLast? = some 0) :
    (X.set i 0).getLast? = some 0 := by
  rw [List.getLast?_eq_getElem?] at h ⊢
  rw [List.length_set, List.getElem?_set]
  split
  · rename_i e
    have : X.length ≠ 0 := by
      intro e0
      rw [List.length_eq_zero] at e0
      simp [e0] at h
    have : i < X.length := by omega
    simp [this]
  · exact h

theorem getLast_append_drop (P cells : List Nat) (n : Nat) (h : n < cells.length) :
    (P ++ cells.drop n).getLast? = cells.getLast? := by
  have hne : cells.drop n ≠ [] := by
    intro e
    have := congrArg List.length e
    simp at this
    omega
  rw [List.getLast?_append_of_ne_nil _ hne, List.getLast?_drop]
  simp
  omega

/-- A `Loop()` call that finds one byte, not a carriage return, on an allocated
line is one pass of the loop body. -/
theorem Loop_one (g : Nat → Nat) (c c1 : Cmd) (b : Nat) (tx : List Nat) (calls : List Call)
    (fl : Flow) (hbuf : c.m_buffer ≠ none)
    (hp : Cmd.processByte g c b = some ⟨c1, tx, calls, fl⟩) (hf : fl ≠ Flow.endLine) :
    Cmd.Loop g c [b] = some ⟨c1, [], tx, calls⟩ := by
  have ha : Cmd.allocBuffer g c = c := by simp [Cmd.allocBuffer, hbuf]
  cases fl with
  | endLine => exact absurd rfl hf
  | next => simp [Cmd.Loop, ha, Cmd.readLoop, hp]
  | overflow => simp [Cmd.Loop, ha, Cmd.readLoop, hp]

theorem Loop_one_none (g : Nat → Nat) (c : Cmd) (b : Nat) (hbuf : c.m_buffer ≠ none)
    (hp : Cmd.processByte g c b = none) : Cmd.Loop g c [b] = none := by
  have ha : Cmd.allocBuffer g c = c := by simp [Cmd.allocBuffer, hbuf]
  simp [Cmd.Loop, ha, Cmd.readLoop, hp]

/-- A printable key on a line in step with the terminal: the call returns, and
unless the line is aborted the terminal is in step with the new line. -/
theorem step_key (g : Nat → Nat) (c : Cmd) (t : Cmd.Screen) (cells : List Nat) (b : Nat)
    (hs : Cmd.InSync c t cells) (hb : Cmd.printable b) (hq : b ≠ 63)
    (hread : c.m_buffer_read < cells.length)
    (hterm : c.m_buffer_cursor < c.m_buffer_read → 0 ∈ cells) :
    ∃ r, Cmd.Loop g c [b] = some r ∧
      (r.cmd.m_buffer ≠ none →
        ∃ cells1, Cmd.InSync r.cmd (t.run r.tx) cells1 ∧
          (cells.getLast? = some 0 → cells1.getLast? = some 0)) := by
  obtain ⟨hbuf, hlen, hcur, hroom, hesc, hecho, hpr, rfl⟩ := hs
  have hnul : 0 ∉ cells.take c.m_buffer_read := by
    intro h
    have := hpr 0 h
    unfold Cmd.printable at this
    omega
  have hins := insertKey_eq g c cells b hbuf hlen hcur hread (fun h => ⟨hterm h, hnul⟩)
  have hord := ordinaryByte_printable g c b hb hq
  rw [hins] at hord
  have hproc : Cmd.processByte g c b = Cmd.ordinaryByte g c b := by
    simp [Cmd.processByte, hesc]
  rw [← hproc] at hord
  have hne : c.m_buffer ≠ none := by simp [hbuf]
  by_cases hbig : c.m_buffer_size - 1 ≤ c.m_buffer_read + 1
  · rw [if_pos hbig] at hord
    have hL := Loop_one g c _ b _ _ _ hne hord (by simp)
    exact ⟨_, hL, fun h => absurd rfl h⟩
  · rw [if_neg hbig] at hord
    have hL := Loop_one g c _ b _ _ _ hne hord (by simp)
    have e3 : (cells.take c.m_buffer_cursor ++
        b :: (cells.take c.m_buffer_read).drop c.m_buffer_cursor).length =
          c.m_buffer_read + 1 := by
      simp
      omega
    have e4 : (cells.take c.m_buffer_cursor ++
        b :: ((cells.take c.m_buffer_read).drop c.m_buffer_cursor ++
          cells.drop (c.m_buffer_read + 1))).take (c.m_buffer_read + 1) =
        cells.take c.m_buffer_cursor ++
          b :: (cells.take c.m_buffer_read).drop c.m_buffer_cursor := by
      rw [show cells.take c.m_buffer_cursor ++
          b :: ((cells.take c.m_buffer_read).drop c.m_buffer_cursor ++
            cells.drop (c.m_buffer_read + 1)) =
          (cells.take c.m_buffer_cursor ++
            b :: (cells.take c.m_buffer_read).drop c.m_buffer_cursor) ++
            cells.drop (c.m_buffer_read + 1) by simp,
        List.take_append_of_le_length (by rw [e3]), List.take_of_length_le (by rw [e3])]
    refine ⟨_, hL, fun _ => ⟨_, ⟨rfl, ?_, ?_, ?_, hesc, hecho, ?_, ?_⟩, ?_⟩⟩
    · simp only [List.length_append, List.length_cons, List.length_take, List.length_drop]
      omega
    · simp only
      omega
    · left
      simp only
      omega
    · intro x hx
      simp only at hx
      rw [e4] at hx
      rcases List.mem_append.1 hx with h1 | h1
      · exact hpr x (List.take_subset_take_left cells hcur h1)
      · rcases List.mem_cons.1 h1 with h2 | h2
        · exact h2 ▸ hb
        · exact hpr x (List.mem_of_mem_drop h2)
    · have hp : ∀ x ∈ b :: (cells.take c.m_buffer_read).drop c.m_buffer_cursor,
          Cmd.printable x := by
        intro x hx
        rcases List.mem_cons.1 hx with h2 | h2
        · exact h2 ▸ hb
        · exact hpr x (List.mem_of_mem_drop h2)
      have hk : c.m_buffer_cursor ≤ (cells.take c.m_buffer_read).length := by
        simp
        omega
      simp only [hecho, if_true, e4]
      rw [show [b] ++ ((cells.take c.m_buffer_read).drop c.m_buffer_cursor ++
            List.replicate (c.m_buffer_read - c.m_buffer_cursor) 8) =
          (b :: (cells.take c.m_buffer_read).drop c.m_buffer_cursor) ++
            List.replicate (c.m_buffer_read - c.m_buffer_cursor) 8 by simp,
        Screen_run_append, Screen_run_printables _ _ _ hk hp, Screen_run_backspaces]
      have e5 : (cells.take c.m_buffer_read).drop
          (c.m_buffer_cursor +
            (b :: (cells.take c.m_buffer_read).drop c.m_buffer_cursor).length) = [] := by
        apply List.drop_of_length_le
        simp
        omega
      rw [e5]
      simp [List.take_take, Nat.min_eq_left hcur]
      omega
    · intro h0
      rw [show cells.take c.m_buffer_cursor ++
          b :: ((cells.take c.m_buffer_read).drop c.m_buffer_cursor ++
            cells.drop (c.m_buffer_read + 1)) =
          (cells.take c.m_buffer_cursor ++
            b :: (cells.take c.m_buffer_read).drop c.m_buffer_cursor) ++
            cells.drop (c.m_buffer_read + 1) by simp,
        getLast_append_drop _ _ _ (by omega)]
      exact h0

/-- The delete branch with the cursor behind at least one byte, with what it
writes: at the end of the line a backspace and ESC '[' 'K'; inside the line a
backspace, ESC '[' '1' 'P', the bytes from the cursor on and as many
backspaces. -/
theorem deleteKey_eq (g : Nat → Nat) (c : Cmd) (cells : List Nat) (b : Nat)
    (hb : b = 8 ∨ b = 127)
    (hbuf : c.m_buffer = some cells) (hlen : cells.length ≤ c.m_buffer_size)
    (hpos : 0 < c.m_buffer_cursor) (hcur : c.m_buffer_cursor ≤ c.m_buffer_read)
    (hread : c.m_buffer_read < cells.length)
    (hterm : c.m_buffer_cursor < c.m_buffer_read →
      0 ∈ cells ∧ 0 ∉ cells.take c.m_buffer_read) :
    ∃ cells2,
      Cmd.deleteKey g c b =
        some ({ c with
                m_buffer := some cells2
                m_buffer_read := c.m_buffer_read - 1
                m_buffer_cursor := c.m_buffer_cursor - 1 },
          if c.m_buffer_cursor = c.m_buffer_read then [8, 27, 91, 75]
          else [8, 27, 91, 49, 80] ++ (cells.take c.m_buffer_read).drop c.m_buffer_cursor ++
            List.replicate (c.m_buffer_read - c.m_buffer_cursor) 8) ∧
      cells2.length = cells.length ∧
      cells2.take (c.m_buffer_read - 1) =
        (cells.take c.m_buffer_read).take (c.m_buffer_cursor - 1) ++
          (cells.take c.m_buffer_read).drop c.m_buffer_cursor ∧
      (cells.getLast? = some 0 → cells2.getLast? = some 0) := by
  have hr0 : c.m_buffer_read ≠ 0 := by omega
  have hc0 : c.m_buffer_cursor ≠ 0 := by omega
  by_cases hend : c.m_buffer_cursor = c.m_buffer_read
  · have hw : writeAt cells (c.m_buffer_read - 1) 0 =
        some (cells.set (c.m_buffer_read - 1) 0) := by
      simp [writeAt]; omega
    refine ⟨cells.set (c.m_buffer_read - 1) 0,
      by simp [Cmd.deleteKey, hb, hr0, hc0, hend, hbuf, hw], by simp, ?_,
      getLast_set_zero cells _⟩
    rw [take_set_self, hend]
    simp [List.take_take]
  · have hlt : c.m_buffer_cursor < c.m_buffer_read := by omega
    obtain ⟨ht, hn⟩ := hterm hlt
    obtain ⟨buf, h1, h2, h3⟩ := strcpy_content g cells c.m_buffer_size c.m_buffer_read
      hlen ht hn (by omega)
    have hsh := shiftLeft_eq buf (c.m_buffer_read - c.m_buffer_cursor) c.m_buffer_cursor
      cells hpos (by omega) (by omega)
    have e2 : (buf.drop c.m_buffer_cursor).take (c.m_buffer_read - c.m_buffer_cursor) =
        (cells.take c.m_buffer_read).drop c.m_buffer_cursor := by
      rw [← h2, List.drop_take]
    rw [e2] at hsh
    have e3 : (cells.take (c.m_buffer_cursor - 1) ++
        (cells.take c.m_buffer_read).drop c.m_buffer_cursor).length =
          c.m_buffer_read - 1 := by
      simp
      omega
    have e4 : (cells.take (c.m_buffer_cursor - 1) ++
        (cells.take c.m_buffer_read).drop c.m_buffer_cursor ++
        cells.drop (c.m_buffer_cursor - 1 + (c.m_buffer_read - c.m_buffer_cursor))).take
          (c.m_buffer_read - 1) =
        cells.take (c.m_buffer_cursor - 1) ++
          (cells.take c.m_buffer_read).drop c.m_buffer_cursor := by
      rw [List.take_append_of_le_length (by rw [e3]), List.take_of_length_le (by rw [e3])]
    have e5 : (cells.take (c.m_buffer_cursor - 1) ++
        (cells.take c.m_buffer_read).drop c.m_buffer_cursor ++
        cells.drop (c.m_buffer_cursor - 1 + (c.m_buffer_read - c.m_buffer_cursor))).length =
          cells.length := by
      simp
      omega
    have e6 : cells.getLast? = some 0 → (cells.take (c.m_buffer_cursor - 1) ++
        (cells.take c.m_buffer_read).drop c.m_buffer_cursor ++
        cells.drop (c.m_buffer_cursor - 1 + (c.m_buffer_read - c.m_buffer_cursor))).getLast? =
          some 0 := by
      intro h0
      rw [getLast_append_drop _ _ _ (by omega)]
      exact h0
    generalize cells.take (c.m_buffer_cursor - 1) ++
        (cells.take c.m_buffer_read).drop c.m_buffer_cursor ++
        cells.drop (c.m_buffer_cursor - 1 + (c.m_buffer_read - c.m_buffer_cursor)) = X
      at hsh e4 e5 e6
    have hw : writeAt X (c.m_buffer_read - 1) 0 = some (X.set (c.m_buffer_read - 1) 0) := by
      simp [writeAt]
      omega
    refine ⟨X.set (c.m_buffer_read - 1) 0,
      by simp [Cmd.deleteKey, hb, hr0, hc0, hend, hbuf, h1, hsh, hw], by simp [e5], ?_,
      fun h0 => getLast_set_zero X _ (e6 h0)⟩
    rw [take_set_self, e4]
    simp [List.take_take]
    omega


/-- A backspace or delete byte on a line in step with the terminal. -/
theorem step_del (g : Nat → Nat) (c : Cmd) (t : Cmd.Screen) (cells : List Nat) (b : Nat)
    (hs : Cmd.InSync c t cells) (hb : b = 8 ∨ b = 127)
    (hterm : 0 < c.m_buffer_cursor → c.m_buffer_cursor < c.m_buffer_read → 0 ∈ cells) :
    ∃ r, Cmd.Loop g c [b] = some r ∧
      (r.cmd.m_buffer ≠ none →
        ∃ cells1, Cmd.InSync r.cmd (t.run r.tx) cells1 ∧
          (cells.getLast? = some 0 → cells1.getLast? = some 0)) := by
  have hs0 := hs
  obtain ⟨hbuf, hlen, hcur, hroom, hesc, hecho, hpr, rfl⟩ := hs
  have hnul : 0 ∉ cells.take c.m_buffer_read := by
    intro h
    have := hpr 0 h
    unfold Cmd.printable at this
    omega
  have hproc : Cmd.processByte g c b = Cmd.ordinaryByte g c b := by
    simp [Cmd.processByte, hesc]
  have hord := ordinaryByte_delete g c b hb
  rw [← hproc] at hord
  have hne : c.m_buffer ≠ none := by simp [hbuf]
  by_cases hpos : 0 < c.m_buffer_cursor
  · have hread : c.m_buffer_read < cells.length := by omega
    obtain ⟨cells2, k1, k2, k3, k4⟩ := deleteKey_eq g c cells b hb hbuf (by omega) hpos hcur
      hread (fun h => ⟨hterm hpos h, hnul⟩)
    rw [k1] at hord
    have hL := Loop_one g c _ b _ _ _ hne hord (by simp)
    refine ⟨_, hL, fun _ => ⟨cells2, ⟨rfl, by rw [k2, hlen], ?_, ?_, hesc, hecho, ?_, ?_⟩, k4⟩⟩
    · simp only
      omega
    · left
      simp only
      omega
    · intro x hx
      simp only at hx
      rw [k3] at hx
      rcases List.mem_append.1 hx with h1 | h1
      · exact hpr x (List.mem_of_mem_take h1)
      · exact hpr x (List.mem_of_mem_drop h1)
    · simp only [k3]
      have hal : (cells.take c.m_buffer_read).length = c.m_buffer_read := by
        simp
        omega
      by_cases hend : c.m_buffer_cursor = c.m_buffer_read
      · rw [if_pos hend]
        have e1 : (cells.take c.m_buffer_read).drop c.m_buffer_cursor = [] :=
          List.drop_of_length_le (by omega)
        rw [e1]
        simp [Cmd.Screen.run, Cmd.Screen.feed, hend, List.take_take]
      · rw [if_neg hend]
        have hp : ∀ x ∈ (cells.take c.m_buffer_read).drop c.m_buffer_cursor,
            Cmd.printable x := fun x hx => hpr x (List.mem_of_mem_drop hx)
        have e1 : (Cmd.Screen.mk (cells.take c.m_buffer_read) c.m_buffer_cursor 0).run
            [8, 27, 91, 49, 80] =
            ⟨(cells.take c.m_buffer_read).take (c.m_buffer_cursor - 1) ++
              (cells.take c.m_buffer_read).drop c.m_buffer_cursor,
              c.m_buffer_cursor - 1, 0⟩ := by
          simp [Cmd.Screen.run, Cmd.Screen.feed, Nat.sub_add_cancel hpos]
        have e2 : c.m_buffer_cursor - 1 ≤
            ((cells.take c.m_buffer_read).take (c.m_buffer_cursor - 1) ++
              (cells.take c.m_buffer_read).drop c.m_buffer_cursor).length := by
          simp
          omega
        have e3 : ((cells.take c.m_buffer_read).take (c.m_buffer_cursor - 1) ++
              (cells.take c.m_buffer_read).drop c.m_buffer_cursor).take
                (c.m_buffer_cursor - 1) =
            (cells.take c.m_buffer_read).take (c.m_buffer_cursor - 1) := by
          rw [List.take_append_of_le_length (by simp; omega), List.take_take]
          simp
        have e4 : ((cells.take c.m_buffer_read).take (c.m_buffer_cursor - 1) ++
              (cells.take c.m_buffer_read).drop c.m_buffer_cursor).drop
                (c.m_buffer_cursor - 1 +
                  ((cells.take c.m_buffer_read).drop c.m_buffer_cursor).length) = [] := by
          apply List.drop_of_length_le
          simp
        rw [Screen_run_append, Screen_run_append, e1, Screen_run_printables _ _ _ e2 hp,
          Screen_run_backspaces, e3, e4]
        simp
        omega
  · have h0 : c.m_buffer_cursor = 0 := by omega
    have hd : Cmd.deleteKey g c b = some (c, []) := by
      simp [Cmd.deleteKey, h0]
    rw [hd] at hord
    have hL := Loop_one g c _ b _ _ _ hne hord (by simp)
    exact ⟨_, hL, fun _ => ⟨cells, by simpa [Cmd.Screen.run] using hs0, fun h => h⟩⟩


/-- The cursor keys, home and end on a line in step with the terminal. -/
theorem step_move (g : Nat → Nat) (c : Cmd) (t : Cmd.Screen) (cells : List Nat)
    (e : Cmd.Edit) (hs : Cmd.InSync c t cells)
    (he : e = Cmd.Edit.left ∨ e = Cmd.Edit.right ∨ e = Cmd.Edit.home ∨ e = Cmd.Edit.toEnd) :
    ∃ r, Cmd.Loop g c e.bytes = some r ∧ Cmd.InSync r.cmd (t.run r.tx) cells := by
  rcases c with ⟨cm, fn, df, sz, nx, ec, pr, sp, li, bs, bf, rd, es, cu⟩
  obtain ⟨hbuf, hlen, hcur, hroom, hesc, hecho, hpr, rfl⟩ := hs
  simp only at hbuf hlen hcur hroom hesc hecho hpr
  subst hbuf hesc hecho
  have ha : ∀ u, Cmd.allocBuffer g ⟨cm, fn, df, sz, nx, true, pr, sp, li, bs, some cells, rd,
      0, u⟩ = ⟨cm, fn, df, sz, nx, true, pr, sp, li, bs, some cells, rd, 0, u⟩ := by
    intro u
    simp [Cmd.allocBuffer]
  rcases he with rfl | rfl | rfl | rfl
  · by_cases h : cu = 0
    · refine ⟨⟨⟨cm, fn, df, sz, nx, true, pr, sp, li, bs, some cells, rd, 0, cu⟩, [], [], []⟩,
        by simp [Cmd.Edit.bytes, Cmd.Loop, ha, Cmd.readLoop, Cmd.processByte,
          Cmd.ordinaryByte, h], ?_⟩
      exact ⟨rfl, hlen, hcur, hroom, rfl, rfl, hpr, by simp [Cmd.Screen.run]⟩
    · refine ⟨⟨⟨cm, fn, df, sz, nx, true, pr, sp, li, bs, some cells, rd, 0, cu - 1⟩, [],
          [27, 91, 68], []⟩,
        by simp [Cmd.Edit.bytes, Cmd.Loop, ha, Cmd.readLoop, Cmd.processByte,
          Cmd.ordinaryByte, h, escD], ?_⟩
      exact ⟨rfl, hlen, by simp only; omega, hroom, rfl, rfl, hpr,
        by simp [Cmd.Screen.run, Cmd.Screen.feed]⟩
  · by_cases h : rd ≤ cu
    · refine ⟨⟨⟨cm, fn, df, sz, nx, true, pr, sp, li, bs, some cells, rd, 0, cu⟩, [], [], []⟩,
        by simp [Cmd.Edit.bytes, Cmd.Loop, ha, Cmd.readLoop, Cmd.processByte,
          Cmd.ordinaryByte, h], ?_⟩
      exact ⟨rfl, hlen, hcur, hroom, rfl, rfl, hpr, by simp [Cmd.Screen.run]⟩
    · refine ⟨⟨⟨cm, fn, df, sz, nx, true, pr, sp, li, bs, some cells, rd, 0, cu + 1⟩, [],
          [27, 91, 67], []⟩,
        by simp [Cmd.Edit.bytes, Cmd.Loop, ha, Cmd.readLoop, Cmd.processByte,
          Cmd.ordinaryByte, h, escC], ?_⟩
      exact ⟨rfl, hlen, by simp only; omega, hroom, rfl, rfl, hpr,
        by simp [Cmd.Screen.run, Cmd.Screen.feed]⟩
  · refine ⟨⟨⟨cm, fn, df, sz, nx, true, pr, sp, li, bs, some cells, rd, 0, 0⟩, [],
        (List.replicate cu escD).flatten, []⟩,
      by simp [Cmd.Edit.bytes, Cmd.Loop, ha, Cmd.readLoop, Cmd.processByte,
        Cmd.ordinaryByte, Cmd.deleteKey, Cmd.homeKey, Cmd.endKey, Cmd.clearKey], ?_⟩
    exact ⟨rfl, hlen, Nat.zero_le _, hroom, rfl, rfl, hpr,
      by simp only [Screen_run_lefts, Nat.sub_self]⟩
  · by_cases h : cu < rd
    · refine ⟨⟨⟨cm, fn, df, sz, nx, true, pr, sp, li, bs, some cells, rd, 0, rd⟩, [],
          (List.replicate (rd - cu) escC).flatten, []⟩,
        by simp [Cmd.Edit.bytes, Cmd.Loop, ha, Cmd.readLoop, Cmd.processByte,
          Cmd.ordinaryByte, Cmd.deleteKey, Cmd.homeKey, Cmd.endKey, Cmd.clearKey, h], ?_⟩
      exact ⟨rfl, hlen, Nat.le_refl _, hroom, rfl, rfl, hpr,
        by simp only [Screen_run_rights, Nat.add_sub_cancel' hcur]⟩
    · refine ⟨⟨⟨cm, fn, df, sz, nx, true, pr, sp, li, bs, some cells, rd, 0, cu⟩, [], [], []⟩,
        by simp [Cmd.Edit.bytes, Cmd.Loop, ha, Cmd.readLoop, Cmd.processByte,
          Cmd.ordinaryByte, Cmd.deleteKey, Cmd.homeKey, Cmd.endKey, Cmd.clearKey, h], ?_⟩
      exact ⟨rfl, hlen, hcur, hroom, rfl, rfl, hpr, by simp [Cmd.Screen.run]⟩


theorem strcpy_unterminated (dst src : List Nat) (h : 0 ∉ src) : strcpy dst src = none := by
  simp [strcpy, cstr, h]

/-- The insert branch does not return when the private copy runs off an
unterminated block or the byte is stored outside the block. -/
theorem insertKey_fault (g : Nat → Nat) (c : Cmd) (cells : List Nat) (b : Nat)
    (hbuf : c.m_buffer = some cells)
    (h : (c.m_buffer_cursor ≠ c.m_buffer_read ∧ 0 ∉ cells) ∨
      (c.m_buffer_cursor = c.m_buffer_read ∧ ¬ c.m_buffer_read < cells.length)) :
    Cmd.insertKey g c b = none := by
  rcases h with ⟨h1, h2⟩ | ⟨h1, h2⟩
  · simp [Cmd.insertKey, hbuf, h1, strcpy_unterminated _ _ h2]
  · simp [Cmd.insertKey, hbuf, h1, writeAt, h2]

/-- The delete branch inside the line does not return when the private copy
runs off an unterminated block. -/
theorem deleteKey_fault (g : Nat → Nat) (c : Cmd) (cells : List Nat) (b : Nat)
    (hb : b = 8 ∨ b = 127) (hbuf : c.m_buffer = some cells)
    (hpos : 0 < c.m_buffer_cursor) (hcur : c.m_buffer_cursor < c.m_buffer_read)
    (h : 0 ∉ cells) : Cmd.deleteKey g c b = none := by
  have h1 : c.m_buffer_read ≠ 0 := by omega
  have h2 : c.m_buffer_cursor ≠ 0 := by omega
  have h3 : c.m_buffer_cursor ≠ c.m_buffer_read := by omega
  simp [Cmd.deleteKey, hb, hbuf, h1, h2, h3, strcpy_unterminated _ _ h]


/-- One edit input that returns without aborting the line keeps the terminal
in step with the line. -/
theorem edit_step_some (g : Nat → Nat) (c : Cmd) (t : Cmd.Screen) (cells : List Nat)
    (e : Cmd.Edit) (r : LoopResult) (hs : Cmd.InSync c t cells) (hv : e.valid)
    (hL : Cmd.Loop g c e.bytes = some r) (hno : r.cmd.m_buffer ≠ none) :
    ∃ cells1, Cmd.InSync r.cmd (t.run r.tx) cells1 := by
  have hs0 := hs
  obtain ⟨hbuf, hlen, hcur, hroom, hesc, hecho, hpr, -⟩ := hs
  have hne : c.m_buffer ≠ none := by simp [hbuf]
  have hproc : ∀ b, Cmd.processByte g c b = Cmd.ordinaryByte g c b := by
    intro b
    simp [Cmd.processByte, hesc]
  cases e with
  | key b =>
    obtain ⟨hb, hq⟩ := hv
    by_cases hok : c.m_buffer_read < cells.length ∧
        (c.m_buffer_cursor < c.m_buffer_read → 0 ∈ cells)
    · obtain ⟨r1, h1, h2⟩ := step_key g c t cells b hs0 hb hq hok.1 hok.2
      have hr : r1 = r := by
        simp only [Cmd.Edit.bytes] at hL
        rw [h1] at hL
        exact Option.some.inj hL
      subst hr
      obtain ⟨cells1, h3, -⟩ := h2 hno
      exact ⟨cells1, h3⟩
    · have hf : Cmd.insertKey g c b = none := by
        apply insertKey_fault g c cells b hbuf
        by_cases hend : c.m_buffer_cursor = c.m_buffer_read
        · right
          refine ⟨hend, fun hr => hok ⟨hr, fun hlt => ?_⟩⟩
          omega
        · left
          refine ⟨hend, fun h0 => hok ⟨?_, fun _ => h0⟩⟩
          omega
      have hp : Cmd.processByte g c b = none := by
        rw [hproc, ordinaryByte_printable g c b hb hq, hf]
      simp only [Cmd.Edit.bytes] at hL
      rw [Loop_one_none g c b hne hp] at hL
      cases hL
  | backspace =>
    by_cases hok : 0 < c.m_buffer_cursor → c.m_buffer_cursor < c.m_buffer_read → 0 ∈ cells
    · obtain ⟨r1, h1, h2⟩ := step_del g c t cells 8 hs0 (Or.inl rfl) hok
      have hr : r1 = r := by
        simp only [Cmd.Edit.bytes] at hL
        rw [h1] at hL
        exact Option.some.inj hL
      subst hr
      obtain ⟨cells1, h3, -⟩ := h2 hno
      exact ⟨cells1, h3⟩
    · have hf : Cmd.deleteKey g c 8 = none := by
        by_cases hpos : 0 < c.m_buffer_cursor
        · by_cases hlt : c.m_buffer_cursor < c.m_buffer_read
          · exact deleteKey_fault g c cells 8 (Or.inl rfl) hbuf hpos hlt
              (fun h0 => hok (fun _ _ => h0))
          · exact absurd (fun _ h => absurd h hlt) hok
        · exact absurd (fun h _ => absurd h hpos) hok
      have hp : Cmd.processByte g c 8 = none := by
        rw [hproc, ordinaryByte_delete g c 8 (Or.inl rfl), hf]
      simp only [Cmd.Edit.bytes] at hL
      rw [Loop_one_none g c 8 hne hp] at hL
      cases hL
  | delete =>
    by_cases hok : 0 < c.m_buffer_cursor → c.m_buffer_cursor < c.m_buffer_read → 0 ∈ cells
    · obtain ⟨r1, h1, h2⟩ := step_del g c t cells 127 hs0 (Or.inr rfl) hok
      have hr : r1 = r := by
        simp only [Cmd.Edit.bytes] at hL
        rw [h1] at hL
        exact Option.some.inj hL
      subst hr
      obtain ⟨cells1, h3, -⟩ := h2 hno
      exact ⟨cells1, h3⟩
    · have hf : Cmd.deleteKey g c 127 = none := by
        by_cases hpos : 0 < c.m_buffer_cursor
        · by_cases hlt : c.m_buffer_cursor < c.m_buffer_read
          · exact deleteKey_fault g c cells 127 (Or.inr rfl) hbuf hpos hlt
              (fun h0 => hok (fun _ _ => h0))
          · exact absurd (fun _ h => absurd h hlt) hok
        · exact absurd (fun h _ => absurd h hpos) hok
      have hp : Cmd.processByte g c 127 = none := by
        rw [hproc, ordinaryByte_delete g c 127 (Or.inr rfl), hf]
      simp only [Cmd.Edit.bytes] at hL
      rw [Loop_one_none g c 127 hne hp] at hL
      cases hL
  | left =>
    obtain ⟨r1, h1, h2⟩ := step_move g c t cells Cmd.Edit.left hs0 (by simp)
    rw [h1] at hL
    cases hL
    exact ⟨cells, h2⟩
  | right =>
    obtain ⟨r1, h1, h2⟩ := step_move g c t cells Cmd.Edit.right hs0 (by simp)
    rw [h1] at hL
    cases hL
    exact ⟨cells, h2⟩
  | home =>
    obtain ⟨r1, h1, h2⟩ := step_move g c t cells Cmd.Edit.home hs0 (by simp)
    rw [h1] at hL
    cases hL
    exact ⟨cells, h2⟩
  | toEnd =>
    obtain ⟨r1, h1, h2⟩ := step_move g c t cells Cmd.Edit.toEnd hs0 (by simp)
    rw [h1] at hL
    cases hL
    exact ⟨cells, h2⟩

/-- On a block whose last cell holds a NUL every edit input returns, and the
last cell still holds a NUL when the line was not aborted. -/
theorem edit_step_total (g : Nat → Nat) (c : Cmd) (t : Cmd.Screen) (cells : List Nat)
    (e : Cmd.Edit) (hs : Cmd.InSync c t cells) (hv : e.valid)
    (h0 : cells.getLast? = some 0) :
    ∃ r, Cmd.Loop g c e.bytes = some r ∧
      (r.cmd.m_buffer ≠ none →
        ∃ cells1, Cmd.InSync r.cmd (t.run r.tx) cells1 ∧ cells1.getLast? = some 0) := by
  have hs0 := hs
  obtain ⟨hbuf, hlen, hcur, hroom, hesc, hecho, hpr, -⟩ := hs
  have hmem : 0 ∈ cells := List.mem_of_mem_getLast? h0
  have hpos : 0 < cells.length := List.length_pos_of_mem hmem
  cases e with
  | key b =>
    obtain ⟨hb, hq⟩ := hv
    obtain ⟨r, h1, h2⟩ := step_key g c t cells b hs0 hb hq (by omega) (fun _ => hmem)
    refine ⟨r, h1, fun hn => ?_⟩
    obtain ⟨cells1, h3, h4⟩ := h2 hn
    exact ⟨cells1, h3, h4 h0⟩
  | backspace =>
    obtain ⟨r, h1, h2⟩ := step_del g c t cells 8 hs0 (Or.inl rfl) (fun _ _ => hmem)
    refine ⟨r, h1, fun hn => ?_⟩
    obtain ⟨cells1, h3, h4⟩ := h2 hn
    exact ⟨cells1, h3, h4 h0⟩
  | delete =>
    obtain ⟨r, h1, h2⟩ := step_del g c t cells 127 hs0 (Or.inr rfl) (fun _ _ => hmem)
    refine ⟨r, h1, fun hn => ?_⟩
    obtain ⟨cells1, h3, h4⟩ := h2 hn
    exact ⟨cells1, h3, h4 h0⟩
  | left =>
    obtain ⟨r, h1, h2⟩ := step_move g c t cells Cmd.Edit.left hs0 (by simp)
    exact ⟨r, h1, fun _ => ⟨cells, h2, h0⟩⟩
  | right =>
    obtain ⟨r, h1, h2⟩ := step_move g c t cells Cmd.Edit.right hs0 (by simp)
    exact ⟨r, h1, fun _ => ⟨cells, h2, h0⟩⟩
  | home =>
    obtain ⟨r, h1, h2⟩ := step_move g c t cells Cmd.Edit.home hs0 (by simp)
    exact ⟨r, h1, fun _ => ⟨cells, h2, h0⟩⟩
  | toEnd =>
    obtain ⟨r, h1, h2⟩ := step_move g c t cells Cmd.Edit.toEnd hs0 (by simp)
    exact ⟨r, h1, fun _ => ⟨cells, h2, h0⟩⟩

/-- The terminal stays in step with the line along a run of edit inputs in
which no call aborts the line. -/
theorem mirror_sync (g : Nat → Nat) (es : List Cmd.Edit) :
    ∀ (c : Cmd) (t : Cmd.Screen) (cells : List Nat), Cmd.InSync c t cells →
      (∀ e ∈ es, e.valid) →
      (∀ p ∈ Cmd.mirror g c t es, p.1.m_buffer ≠ none) →
      ∀ p ∈ Cmd.mirror g c t es,
        p.2.row = Cmd.content p.1 ∧ p.2.col = p.1.m_buffer_cursor ∧ p.2.pending = 0 := by
  induction es with
  | nil =>
    intro c t cells _ _ _ p hp
    simp [Cmd.mirror] at hp
  | cons e es ih =>
    intro c t cells hs hv hno p hp
    cases hL : Cmd.Loop g c e.bytes with
    | none => simp [Cmd.mirror, hL] at hp
    | some r =>
      simp only [Cmd.mirror, hL] at hp hno
      have hn : r.cmd.m_buffer ≠ none := hno (r.cmd, t.run r.tx) (by simp)
      obtain ⟨cells1, h1⟩ := edit_step_some g c t cells e r hs (hv e (by simp)) hL hn
      rcases List.mem_cons.1 hp with rfl | hp1
      · obtain ⟨k1, -, -, -, -, -, -, k8⟩ := h1
        simp [k8, Cmd.content, k1]
      · exact ih r.cmd (t.run r.tx) cells1 h1 (fun x hx => hv x (by simp [hx]))
          (fun q hq => hno q (by simp [hq])) p hp1

/-- On a block whose last cell holds a NUL every edit input of such a run is
handled. -/
theorem mirror_total (g : Nat → Nat) (es : List Cmd.Edit) :
    ∀ (c : Cmd) (t : Cmd.Screen) (cells : List Nat), Cmd.InSync c t cells →
      cells.getLast? = some 0 →
      (∀ e ∈ es, e.valid) →
      (∀ p ∈ Cmd.mirror g c t es, p.1.m_buffer ≠ none) →
      (Cmd.mirror g c t es).length = es.length := by
  induction es with
  | nil =>
    intro c t cells _ _ _ _
    simp [Cmd.mirror]
  | cons e es ih =>
    intro c t cells hs h0 hv hno
    obtain ⟨r, hL, h2⟩ := edit_step_total g c t cells e hs (hv e (by simp)) h0
    simp only [Cmd.mirror, hL] at hno ⊢
    have hn : r.cmd.m_buffer ≠ none := hno (r.cmd, t.run r.tx) (by simp)
    obtain ⟨cells1, h3, h4⟩ := h2 hn
    simp only [List.length_cons, Nat.add_right_cancel_iff]
    exact ih r.cmd (t.run r.tx) cells1 h3 h4 (fun x hx => hv x (by simp [hx]))
      (fun q hq => hno q (by simp [hq]))

theorem mirror_allocBuffer (g : Nat → Nat) (c : Cmd) (t : Cmd.Screen) (es : List Cmd.Edit) :
    Cmd.mirror g (Cmd.allocBuffer g c) t es = Cmd.mirror g c t es := by
  cases es with
  | nil => simp [Cmd.mirror]
  | cons e es =>
    have hl : e.bytes.length ≠ 0 := by cases e <;> simp [Cmd.Edit.bytes]
    have ha : Cmd.allocBuffer g (Cmd.allocBuffer g c) = Cmd.allocBuffer g c := by
      unfold Cmd.allocBuffer
      split <;> simp_all
    have hL : Cmd.Loop g (Cmd.allocBuffer g c) e.bytes = Cmd.Loop g c e.bytes := by
      simp only [Cmd.Loop, hl, if_false, ha]
    simp only [Cmd.mirror, hL]

/-! ## Control bytes -/

/-- Directly after ESC a byte other than '[' is handled by a `Loop()` call
exactly as with no escape sequence pending. -/
theorem Loop_after_escape (g : Nat → Nat) (c : Cmd) (b : Nat) (rest : List Nat)
    (hesc : c.m_buffer_reading_esc = 1) (hb : b ≠ 91) :
    Cmd.Loop g c (b :: rest) = Cmd.Loop g { c with m_buffer_reading_esc := 0 } (b :: rest) := by
  rcases c with ⟨cm, fn, df, sz, nx, ec, pr, sp, li, bs, bf, rd, es, cu⟩
  simp only at hesc
  subst hesc
  cases bf with
  | none => simp [Cmd.Loop, Cmd.allocBuffer, Cmd.readLoop, Cmd.processByte, hb]
  | some cells => simp [Cmd.Loop, Cmd.allocBuffer, Cmd.readLoop, Cmd.processByte, hb]

/-- The home and end keys with no escape sequence pending. -/
theorem processByte_home_end (g : Nat → Nat) (c : Cmd) (hesc : c.m_buffer_reading_esc = 0) :
    Cmd.processByte g c 1 =
        some ⟨{ c with m_buffer_cursor := 0 },
          (List.replicate c.m_buffer_cursor escD).flatten, [], Flow.next⟩ ∧
      (c.m_buffer_cursor ≤ c.m_buffer_read →
        Cmd.processByte g c 5 =
          some ⟨{ c with m_buffer_cursor := c.m_buffer_read },
            (List.replicate (c.m_buffer_read - c.m_buffer_cursor) escC).flatten, [],
            Flow.next⟩) := by
  rcases c with ⟨cm, fn, df, sz, nx, ec, pr, sp, li, bs, bf, rd, es, cu⟩
  simp only at hesc
  subst hesc
  refine ⟨by simp [Cmd.processByte, Cmd.ordinaryByte, Cmd.deleteKey, Cmd.homeKey, Cmd.endKey,
    Cmd.clearKey], fun hle => ?_⟩
  simp only at hle
  by_cases h : cu < rd
  · simp [Cmd.processByte, Cmd.ordinaryByte, Cmd.deleteKey, Cmd.homeKey, Cmd.endKey,
      Cmd.clearKey, h]
  · have he : cu = rd := by omega
    subst he
    simp [Cmd.processByte, Cmd.ordinaryByte, Cmd.deleteKey, Cmd.homeKey, Cmd.endKey,
      Cmd.clearKey]

/-- The clear-screen key with no escape sequence pending, on an allocated
line outside a handler call. -/
theorem processByte_clear (g : Nat → Nat) (c : Cmd) (cells : List Nat)
    (hesc : c.m_buffer_reading_esc = 0) (hproc : c.m_processing = false)
    (hbuf : c.m_buffer = some cells) (hread : c.m_buffer_read < cells.length)
    (hnul : 0 ∉ cells.take c.m_buffer_read) :
    Cmd.processByte g c 12 =
      some ⟨{ c with m_buffer := some (cells.set c.m_buffer_read 0) },
        [27, 91, 72, 27, 91, 74] ++ (c.m_line_indicator ++ cells.take c.m_buffer_read ++
          List.replicate (c.m_buffer_read - c.m_buffer_cursor) 8), [], Flow.next⟩ := by
  have h1 := cstr_set_zero cells c.m_buffer_read hread hnul
  simp [Cmd.processByte, hesc, Cmd.ordinaryByte, Cmd.deleteKey, Cmd.homeKey, Cmd.endKey,
    Cmd.clearKey, hbuf, writeAt, hread, Cmd.PrintBuffer, hproc, List.set_set, h1]

/-- A text made of separator bytes only holds no token. -/
theorem strtok_separators (s sep : List Nat) (h : ∀ b ∈ s, b ∈ sep) :
    strtok s sep = (none, []) ∧ Cmd.tokens sep s = [] := by
  have hd : s.dropWhile (fun b => decide (b ∈ sep)) = [] := by
    rw [List.dropWhile_eq_nil_iff]
    intro b hb
    simpa using h b hb
  have h1 : strtok s sep = (none, []) := by simp [strtok, hd]
  refine ⟨h1, ?_⟩
  have h2 := strtok_head s sep
  rw [h1] at h2
  cases ht : Cmd.tokens sep s with
  | nil => rfl
  | cons t ts => simp [ht] at h2

/-! ## The bytes of the content -/

/-- A store that succeeds is inside the block. -/
theorem writeAt_eq {cells cells1 : List Nat} {i v : Nat} (h : writeAt cells i v = some cells1) :
    cells1 = cells.set i v ∧ i < cells.length := by
  unfold writeAt at h
  split at h
  · cases h
    exact ⟨rfl, by assumption⟩
  · cases h

/-- Storing the terminator behind the content keeps the content. -/
theorem Clean_terminator (cap : Nat) (c : Cmd) (cells : List Nat) (hc : Cmd.Clean cap c)
    (hbuf : c.m_buffer = some cells) (p : Bool) :
    Cmd.Clean cap { c with m_buffer := some (cells.set c.m_buffer_read 0), m_processing := p } := by
  intro cells1 h1
  simp only [Option.some.injEq] at h1
  subst h1
  obtain ⟨k1, k2⟩ := hc cells hbuf
  refine ⟨by simp [k1], ?_⟩
  simp only [take_set_self]
  exact k2

/-- A released line has no content. -/
theorem Clean_released (cap : Nat) (c : Cmd) (h : c.m_buffer = none) : Cmd.Clean cap c := by
  intro cells hb
  rw [h] at hb
  cases hb

theorem PrintBuffer_clean (cap : Nat) (c c1 : Cmd) (out : List Nat) (hc : Cmd.Clean cap c)
    (h : Cmd.PrintBuffer c = some (c1, out)) : Cmd.Clean cap c1 := by
  unfold Cmd.PrintBuffer at h
  split at h
  · cases h
    exact hc
  · split at h
    · cases h
    · rename_i cells hb
      split at h
      · cases h
      · rename_i cells1 hw
        split at h
        · cases h
        · cases h
          obtain ⟨e, -⟩ := writeAt_eq hw
          subst e
          have := Clean_terminator cap c cells hc hb c.m_processing
          exact this

theorem clearKey_clean (cap : Nat) (c c1 : Cmd) (b : Nat) (t : List Nat)
    (hc : Cmd.Clean cap c) (h : Cmd.clearKey c b = some (c1, t)) : Cmd.Clean cap c1 := by
  unfold Cmd.clearKey at h
  split at h
  · split at h
    · cases h
    · rename_i cells hb
      split at h
      · cases h
      · rename_i cells1 hw
        split at h
        · cases h
        · rename_i c2 out hp
          cases h
          obtain ⟨e, -⟩ := writeAt_eq hw
          subst e
          exact PrintBuffer_clean cap _ _ _ (Clean_terminator cap c cells hc hb c.m_processing) hp
  · cases h
    exact hc

theorem helpKey_clean (g : Nat → Nat) (cap : Nat) (c c1 : Cmd) (t : List Nat)
    (calls : List Call) (hc : Cmd.Clean cap c)
    (h : Cmd.helpKey g c = some (c1, t, calls)) :
    Cmd.Clean cap c1 ∧ calls.length = 1 ∧ ∀ call ∈ calls, call.printHelp = true := by
  unfold Cmd.helpKey at h
  split at h
  · cases h
  · rename_i cells hb
    split at h
    · cases h
    · rename_i cells1 hw
      obtain ⟨e, -⟩ := writeAt_eq hw
      subst e
      unfold Cmd.PrintHelp at h
      simp only at h
      split at h
      · cases h
      · split at h
        · cases h
        · split at h
          · cases h
          · rename_i c2 out hp
            cases h
            refine ⟨PrintBuffer_clean cap _ _ _ (Clean_terminator cap c cells hc hb false) hp,
              rfl, ?_⟩
            intro call hcall
            simp only [List.mem_singleton] at hcall
            rw [hcall]
            exact (invoke_command _ _ _ _).2.2

theorem printable_not_zero (l : List Nat) (h : ∀ b ∈ l, Cmd.printable b ∧ b ≠ 63) :
    0 ∉ l := by
  intro h0
  have := (h 0 h0).1
  unfold Cmd.printable at this
  omega

theorem deleteKey_clean (g : Nat → Nat) (cap : Nat) (c c1 : Cmd) (b : Nat) (t : List Nat)
    (hi : Cmd.LineInv cap c) (hc : Cmd.Clean cap c)
    (h : Cmd.deleteKey g c b = some (c1, t)) : Cmd.Clean cap c1 := by
  obtain ⟨i0, i1, i2, i3, i4⟩ := hi
  by_cases hb : b = 8 ∨ b = 127
  · by_cases hz : c.m_buffer_read ≠ 0 ∧ c.m_buffer_cursor ≠ 0
    · cases hbuf : c.m_buffer with
      | none =>
        by_cases he : c.m_buffer_cursor = c.m_buffer_read
        · simp [Cmd.deleteKey, hb, hz, he, hbuf] at h
        · simp [Cmd.deleteKey, hb, hz, he, hbuf] at h
      | some cells =>
        obtain ⟨k1, k2⟩ := hc cells hbuf
        have i5 := i4 (by simp [hbuf])
        by_cases hterm : c.m_buffer_cursor < c.m_buffer_read → 0 ∈ cells
        · obtain ⟨cells2, e1, e2, e3, -⟩ := deleteKey_eq g c cells b hb hbuf (by omega)
            (by omega) i2 (by omega) (fun hlt => ⟨hterm hlt, printable_not_zero _ k2⟩)
          rw [e1] at h
          cases h
          intro cells3 h3
          simp only [Option.some.injEq] at h3
          subst h3
          refine ⟨by rw [e2, k1], ?_⟩
          simp only [e3]
          intro x hx
          rcases List.mem_append.1 hx with h1 | h1
          · exact k2 x (List.mem_of_mem_take h1)
          · exact k2 x (List.mem_of_mem_drop h1)
        · have hlt : c.m_buffer_cursor < c.m_buffer_read := by
            by_contra hn
            exact hterm (fun h => absurd h hn)
          have h0 : 0 ∉ cells := fun h0 => hterm (fun _ => h0)
          rw [deleteKey_fault g c cells b hb hbuf (by omega) hlt h0] at h
          cases h
    · have : Cmd.deleteKey g c b = some (c, []) := by simp [Cmd.deleteKey, hz]
      rw [this] at h
      cases h
      exact hc
  · have : Cmd.deleteKey g c b = some (c, []) := by simp [Cmd.deleteKey, hb]
    rw [this] at h
    cases h
    exact hc

theorem insertKey_clean (g : Nat → Nat) (cap : Nat) (c : Cmd) (b : Nat) (st : Step)
    (hi : Cmd.LineInv cap c) (hc : Cmd.Clean cap c) (hb : Cmd.printable b ∧ b ≠ 63)
    (h : Cmd.insertKey g c b = some st) : Cmd.Clean cap st.cmd ∧ st.calls = [] := by
  obtain ⟨i0, i1, i2, i3, i4⟩ := hi
  cases hbuf : c.m_buffer with
  | none => simp [Cmd.insertKey, hbuf] at h
  | some cells =>
    obtain ⟨k1, k2⟩ := hc cells hbuf
    have i5 := i4 (by simp [hbuf])
    by_cases hterm : c.m_buffer_cursor < c.m_buffer_read → 0 ∈ cells
    · rw [insertKey_eq g c cells b hbuf (by omega) i2 (by omega)
        (fun hlt => ⟨hterm hlt, printable_not_zero _ k2⟩)] at h
      by_cases hbig : c.m_buffer_size - 1 ≤ c.m_buffer_read + 1
      · rw [if_pos hbig] at h
        cases h
        exact ⟨Clean_released cap _ rfl, rfl⟩
      · rw [if_neg hbig] at h
        cases h
        have e3 : (cells.take c.m_buffer_cursor ++
            b :: (cells.take c.m_buffer_read).drop c.m_buffer_cursor).length =
              c.m_buffer_read + 1 := by
          simp
          omega
        have e4 : (cells.take c.m_buffer_cursor ++
            b :: ((cells.take c.m_buffer_read).drop c.m_buffer_cursor ++
              cells.drop (c.m_buffer_read + 1))).take (c.m_buffer_read + 1) =
            cells.take c.m_buffer_cursor ++
              b :: (cells.take c.m_buffer_read).drop c.m_buffer_cursor := by
          rw [show cells.take c.m_buffer_cursor ++
              b :: ((cells.take c.m_buffer_read).drop c.m_buffer_cursor ++
                cells.drop (c.m_buffer_read + 1)) =
              (cells.take c.m_buffer_cursor ++
                b :: (cells.take c.m_buffer_read).drop c.m_buffer_cursor) ++
                cells.drop (c.m_buffer_read + 1) by simp,
            List.take_append_of_le_length (by rw [e3]), List.take_of_length_le (by rw [e3])]
        refine ⟨?_, rfl⟩
        intro cells3 h3
        simp only [Option.some.injEq] at h3
        subst h3
        refine ⟨?_, ?_⟩
        · simp only [List.length_append, List.length_cons, List.length_take, List.length_drop]
          omega
        · simp only [e4]
          intro x hx
          rcases List.mem_append.1 hx with h1 | h1
          · exact k2 x (List.take_subset_take_left cells i2 h1)
          · rcases List.mem_cons.1 h1 with h2 | h2
            · exact h2 ▸ hb
            · exact k2 x (List.mem_of_mem_drop h2)
    · have hlt : c.m_buffer_cursor < c.m_buffer_read := by
        by_contra hn
        exact hterm (fun h => absurd h hn)
      have h0 : 0 ∉ cells := fun h0 => hterm (fun _ => h0)
      rw [insertKey_fault g c cells b hbuf (Or.inl ⟨by omega, h0⟩)] at h
      cases h

theorem homeKey_clean (cap : Nat) (c : Cmd) (b : Nat) (hc : Cmd.Clean cap c) :
    Cmd.Clean cap (Cmd.homeKey c b).1 := by
  unfold Cmd.homeKey
  split
  · exact hc
  · exact hc

theorem endKey_clean (cap : Nat) (c : Cmd) (b : Nat) (hc : Cmd.Clean cap c) :
    Cmd.Clean cap (Cmd.endKey c b).1 := by
  unfold Cmd.endKey
  split
  · split
    · exact hc
    · exact hc
  · exact hc

theorem ordinaryByte_clean (g : Nat → Nat) (cap : Nat) (c : Cmd) (b : Nat) (st : Step)
    (hi : Cmd.LineInv cap c) (hc : Cmd.Clean cap c)
    (h : Cmd.ordinaryByte g c b = some st) :
    Cmd.Clean cap st.cmd ∧ ∀ call ∈ st.calls, call.printHelp = true := by
  unfold Cmd.ordinaryByte at h
  simp only at h
  split at h
  · cases h
    exact ⟨hc, by simp⟩
  · split at h
    · cases h
    · rename_i c1 t1 hd
      have j1 := deleteKey_inv g cap c c1 b t1 hi hd
      have j2 := endKey_inv cap _ b (homeKey_inv cap c1 b j1)
      have m1 := deleteKey_clean g cap c c1 b t1 hi hc hd
      have m2 := endKey_clean cap _ b (homeKey_clean cap c1 b m1)
      split at h
      · cases h
        exact ⟨Clean_released cap _ rfl, by simp⟩
      · split at h
        · cases h
        · rename_i c2 t2 hcl
          have j3 := clearKey_inv cap _ c2 b t2 j2 hcl
          have m3 := clearKey_clean cap _ c2 b t2 m2 hcl
          split at h
          · cases h
            exact ⟨m3, by simp⟩
          · split at h
            · split at h
              · cases h
              · rename_i c3 t3 calls hh
                cases h
                obtain ⟨n1, -, n3⟩ := helpKey_clean g cap c2 c3 t3 calls m3 hh
                exact ⟨n1, n3⟩
            · split at h
              · cases h
                exact ⟨m3, by simp⟩
              · rename_i hq hascii
                split at h
                · cases h
                · rename_i s hs
                  cases h
                  have hp : Cmd.printable b ∧ b ≠ 63 := by
                    refine ⟨?_, hq⟩
                    simpa [Cmd.printable] using hascii
                  obtain ⟨n1, n2⟩ := insertKey_clean g cap c2 b s j3 m3 hp hs
                  exact ⟨n1, by simp [n2]⟩

/-- One pass of the read loop keeps the content printable and free of question
marks; the only handler calls it makes are help requests. -/
theorem processByte_clean (g : Nat → Nat) (cap : Nat) (c : Cmd) (b : Nat) (st : Step)
    (hi : Cmd.LineInv cap c) (hc : Cmd.Clean cap c)
    (h : Cmd.processByte g c b = some st) :
    Cmd.Clean cap st.cmd ∧ ∀ call ∈ st.calls, call.printHelp = true := by
  have hesc : ∀ e, Cmd.LineInv cap { c with m_buffer_reading_esc := e } := by
    intro e
    obtain ⟨i0, i1, i2, i3, i4⟩ := hi
    exact ⟨i0, i1, i2, i3, i4⟩
  unfold Cmd.processByte at h
  split at h
  · split at h
    · cases h
      exact ⟨hc, by simp⟩
    · exact ordinaryByte_clean g cap _ b st (hesc 0) hc h
  · split at h
    · split at h
      · split at h
        · cases h
          exact ⟨hc, by simp⟩
        · cases h
          exact ⟨hc, by simp⟩
      · split at h
        · split at h
          · cases h
            exact ⟨hc, by simp⟩
          · cases h
            exact ⟨hc, by simp⟩
        · cases h
          exact ⟨hc, by simp⟩
    · exact ordinaryByte_clean g cap c b st hi hc h

theorem readStates_clean (g : Nat → Nat) (cap : Nat) (rx : List Nat) :
    ∀ c : Cmd, Cmd.LineInv cap c → Cmd.Clean cap c →
      ∀ c1 ∈ Cmd.readStates g c rx, Cmd.Clean cap c1 := by
  induction rx with
  | nil =>
    intro c _ _ c1 h1
    simp [Cmd.readStates] at h1
  | cons b rest ih =>
    intro c hi hc c1 h1
    unfold Cmd.readStates at h1
    split at h1
    · simp at h1
    · rename_i s hs
      have j := processByte_inv g cap c b s hi hs
      have m := (processByte_clean g cap c b s hi hc hs).1
      rcases List.mem_cons.mp h1 with e | e
      · rw [e]
        exact m
      · split at e
        · exact ih s.cmd j m c1 e
        · simp at e
        · simp at e

theorem readLoop_clean (g : Nat → Nat) (cap : Nat) (rx : List Nat) :
    ∀ (c : Cmd) (r : LoopResult) (e : Bool), Cmd.LineInv cap c → Cmd.Clean cap c →
      Cmd.readLoop g c rx = some (r, e) →
      Cmd.Clean cap r.cmd ∧ ∀ call ∈ r.calls, call.printHelp = true := by
  induction rx with
  | nil =>
    intro c r e _ hc h
    simp only [Cmd.readLoop, Option.some.injEq, Prod.mk.injEq] at h
    rw [← h.1]
    exact ⟨hc, by simp⟩
  | cons b rest ih =>
    intro c r e hi hc h
    unfold Cmd.readLoop at h
    split at h
    · cases h
    · rename_i s hs
      have j := processByte_inv g cap c b s hi hs
      have m := processByte_clean g cap c b s hi hc hs
      split at h
      · cases h
        exact m
      · cases h
        exact m
      · split at h
        · cases h
        · rename_i r1 e1 hr
          cases h
          obtain ⟨n1, n2⟩ := ih s.cmd r1 e j m.1 hr
          refine ⟨n1, fun call hcall => ?_⟩
          rcases List.mem_append.1 hcall with q | q
          · exact m.2 call q
          · exact n2 call q

theorem allocBuffer_clean (g : Nat → Nat) (cap : Nat) (c : Cmd) (hi : Cmd.LineInv cap c)
    (hc : Cmd.Clean cap c) : Cmd.Clean cap (Cmd.allocBuffer g c) := by
  obtain ⟨i0, i1, i2, i3, i4⟩ := hi
  unfold Cmd.allocBuffer
  split
  · intro cells h
    simp only [Option.some.injEq] at h
    subst h
    exact ⟨by rw [malloc_length, i1], by simp⟩
  · exact hc

theorem endOfLine_released (g : Nat → Nat) (c c1 : Cmd) (out : List Nat)
    (calls : List Call) (h : Cmd.endOfLine g c = some (c1, out, calls)) :
    c1.m_buffer = none := by
  unfold Cmd.endOfLine at h
  split at h
  · cases h
  · split at h
    · cases h
    · split at h
      · cases h
      · cases h
        rfl

theorem Loop_clean (g : Nat → Nat) (cap : Nat) (c : Cmd) (rx : List Nat) (r : LoopResult)
    (hi : Cmd.LineInv cap c) (hc : Cmd.Clean cap c) (h : Cmd.Loop g c rx = some r) :
    Cmd.Clean cap r.cmd := by
  unfold Cmd.Loop at h
  split at h
  · cases h
    exact hc
  · split at h
    · cases h
    · rename_i r1 hr
      cases h
      exact (readLoop_clean g cap rx _ _ _ (allocBuffer_inv g cap c hi)
        (allocBuffer_clean g cap c hi hc) hr).1
    · rename_i r1 hr
      split at h
      · cases h
      · rename_i c1 out calls he
        cases h
        exact Clean_released cap _ (endOfLine_released g _ _ _ _ he)

theorem LoopsStates_clean (g : Nat → Nat) (cap : Nat) (chunks : List (List Nat)) :
    ∀ (c : Cmd) (rx : List Nat), Cmd.LineInv cap c → Cmd.Clean cap c →
      ∀ c1 ∈ Cmd.LoopsStates g c rx chunks, Cmd.Clean cap c1 := by
  induction chunks with
  | nil =>
    intro c rx _ _ c1 h1
    simp [Cmd.LoopsStates] at h1
  | cons a more ih =>
    intro c rx hi hc c1 h1
    unfold Cmd.LoopsStates at h1
    rcases List.mem_append.mp h1 with e | e
    · split at e
      · simp at e
      · exact readStates_clean g cap _ _ (allocBuffer_inv g cap c hi)
          (allocBuffer_clean g cap c hi hc) c1 e
    · split at e
      · simp at e
      · rename_i r hr
        have j := Loop_inv g cap c _ r hi hr
        have m := Loop_clean g cap c _ r hi hc hr
        rcases List.mem_cons.mp e with e1 | e1
        · rw [e1]
          exact m
        · exact ih r.cmd r.rx j m c1 e1

/-- A dispatched line holds only printable bytes other than the question
mark. -/
theorem dispatched_clean (g : Nat → Nat) (cap : Nat) (c : Cmd) (rx line : List Nat)
    (hi : Cmd.LineInv cap c) (hc : Cmd.Clean cap c)
    (h : Cmd.dispatched g c rx = some line) :
    ∀ b ∈ line, Cmd.printable b ∧ b ≠ 63 := by
  unfold Cmd.dispatched at h
  split at h
  · cases h
  · split at h
    · rename_i r hr
      have m := (readLoop_clean g cap rx _ _ _ (allocBuffer_inv g cap c hi)
        (allocBuffer_clean g cap c hi hc) hr).1
      split at h
      · cases h
      · rename_i cells hb
        cases h
        exact (m cells hb).2
    · cases h

theorem LoopsDispatched_clean (g : Nat → Nat) (cap : Nat) (chunks : List (List Nat)) :
    ∀ (c : Cmd) (rx : List Nat), Cmd.LineInv cap c → Cmd.Clean cap c →
      ∀ line ∈ Cmd.LoopsDispatched g c rx chunks, ∀ b ∈ line, Cmd.printable b ∧ b ≠ 63 := by
  induction chunks with
  | nil =>
    intro c rx _ _ line h
    simp [Cmd.LoopsDispatched] at h
  | cons a more ih =>
    intro c rx hi hc line h
    unfold Cmd.LoopsDispatched at h
    rcases List.mem_append.mp h with e | e
    · exact dispatched_clean g cap c (rx ++ a) line hi hc (by simpa using e)
    · split at e
      · simp at e
      · rename_i r hr
        exact ih r.cmd r.rx (Loop_inv g cap c _ r hi hr) (Loop_clean g cap c _ r hi hc hr)
          line e

/-- The text left by `strtok` is a shorter part of the text scanned. -/
theorem strtok_rest {s sep t r : List Nat} (h : strtok s sep = (some t, r)) :
    r ⊆ s ∧ r.length < s.length := by
  unfold strtok at h
  split at h
  · cases h
  · rename_i b s1 hd
    cases h
    have hsub : (b :: s1) ⊆ s := hd ▸ List.dropWhile_subset _
    have hlen : (b :: s1).length ≤ s.length := by
      rw [← hd]
      exact (List.dropWhile_sublist _).length_le
    constructor
    · exact ((List.drop_subset _ _).trans (List.dropWhile_subset _)).trans hsub
    · have h1 : ((b :: s1).dropWhile (fun x => !decide (x ∈ sep))).length ≤ (b :: s1).length :=
        (List.dropWhile_sublist _).length_le
      have hb : b ∉ sep := by
        have := List.head_dropWhile_not (fun b => decide (b ∈ sep)) s
        simp [hd] at this
        exact this
      have h2 : (b :: s1).dropWhile (fun x => !decide (x ∈ sep)) =
          s1.dropWhile (fun x => !decide (x ∈ sep)) := by
        simp [List.dropWhile_cons, hb]
      have h3 : (s1.dropWhile (fun x => !decide (x ∈ sep))).length ≤ s1.length :=
        (List.dropWhile_sublist _).length_le
      simp only [List.length_drop, h2]
      simp only [List.length_cons] at hlen
      omega

/-- Every token of a line is made of bytes of the line. -/
theorem tokens_subset (sep : List Nat) (n : Nat) :
    ∀ l : List Nat, l.length ≤ n → ∀ t ∈ Cmd.tokens sep l, t ⊆ l := by
  induction n with
  | zero =>
    intro l hl t ht
    have : l = [] := List.length_eq_zero.1 (by omega)
    subst this
    simp [tokens_nil] at ht
  | succ k ih =>
    intro l hl t ht
    rcases strtok_tokens l sep with ⟨t0, r, h1, h2⟩ | ⟨-, h2⟩
    · rw [h2] at ht
      obtain ⟨r1, r2⟩ := strtok_rest h1
      rcases List.mem_cons.1 ht with e | e
      · rw [e]
        exact strtok_subset h1
      · exact (ih r (by omega) t e).trans r1
    · rw [h2] at ht
      simp at ht

/-- The help branch keeps the content, the length and the cursor, and invokes
one handler with `printHelp = true`. -/
theorem helpKey_content (g : Nat → Nat) (c c1 : Cmd) (t : List Nat) (calls : List Call)
    (h : Cmd.helpKey g c = some (c1, t, calls)) :
    Cmd.content c1 = Cmd.content c ∧ c1.m_buffer_read = c.m_buffer_read ∧
      c1.m_buffer_cursor = c.m_buffer_cursor ∧
      calls.length = 1 ∧ ∀ call ∈ calls, call.printHelp = true := by
  unfold Cmd.helpKey at h
  split at h
  · cases h
  · rename_i cells hb
    split at h
    · cases h
    · rename_i cells1 hw
      obtain ⟨e, -⟩ := writeAt_eq hw
      subst e
      unfold Cmd.PrintHelp at h
      simp only at h
      split at h
      · cases h
      · split at h
        · cases h
        · split at h
          · cases h
          · rename_i c2 out hp
            cases h
            unfold Cmd.PrintBuffer at hp
            simp only [Bool.false_eq_true, if_false] at hp
            split at hp
            · cases hp
            · rename_i cells2 hw2
              obtain ⟨e2, -⟩ := writeAt_eq hw2
              subst e2
              split at hp
              · cases hp
              · cases hp
                refine ⟨by simp [Cmd.content, hb, take_set_self], rfl, rfl, rfl, ?_⟩
                intro call hcall
                simp only [List.mem_singleton] at hcall
                rw [hcall]
                exact (invoke_command _ _ _ _).2.2

/-! ## The countdown handler -/

theorem countdownFrom_ne_nil (n : Nat) : countdownFrom n ≠ [] := by
  cases n <;> simp [countdownFrom]

/-- An `int` of at most 32 bits converted to `uint32_t` lies in a range of
small positive numbers exactly when the `int` does. -/
theorem toUint32_range (intBits : Nat) (a : Int) (lo hi : Nat) (hbits : intBits ≤ 32)
    (ha : fitsInt intBits a) (hlo : 1 ≤ lo) (hhi : hi ≤ 10000) :
    (lo ≤ toUint32 a ∧ toUint32 a ≤ hi) ↔ ((lo : Int) ≤ a ∧ a ≤ (hi : Int)) := by
  have hp : (2 : Int) ^ (intBits - 1) ≤ 2147483648 := by
    have : (2 : Nat) ^ (intBits - 1) ≤ 2 ^ 31 := Nat.pow_le_pow_right (by decide) (by omega)
    have h2 : ((2 ^ (intBits - 1) : Nat) : Int) ≤ ((2 ^ 31 : Nat) : Int) := by
      exact_mod_cast this
    simpa using h2
  obtain ⟨h1, h2⟩ := ha
  unfold toUint32
  omega

theorem atoi_fits (intBits : Nat) (ov : List Nat → Int) (s : List Nat) (h1 : 1 ≤ intBits) :
    fitsInt intBits (atoi intBits ov s) := by
  unfold atoi
  split
  · assumption
  · unfold fitsInt wrapInt
    have hpos : (0 : Int) < 2 ^ intBits := by positivity
    have hd : (2 : Int) ^ intBits = 2 * 2 ^ (intBits - 1) := by
      obtain ⟨k, rfl⟩ : ∃ k, intBits = k + 1 := ⟨intBits - 1, by omega⟩
      simp [pow_succ]
      ring
    have m1 := Int.emod_nonneg (ov s + 2 ^ (intBits - 1)) (ne_of_gt hpos)
    have m2 := Int.emod_lt_of_pos (ov s + 2 ^ (intBits - 1)) hpos
    constructor
    · omega
    · omega

theorem atoi_of_fits (intBits : Nat) (ov : List Nat → Int) (s : List Nat)
    (h : fitsInt intBits (atoiValue s)) : atoi intBits ov s = atoiValue s := by
  simp [atoi, h]

/-- The handler operates the panel exactly when both tokens are there and
the two numbers, as stored in `seconds` and `delay_ms`, are in range. -/
theorem run_countdown_tests_iff (intBits : Nat) (ov : List Nat → Int) (c : Cmd)
    (command : Option (List Nat)) (printHelp : Bool) (saved : List Nat) :
    run_countdown_tests intBits ov c command printHelp saved ≠ [] ↔
      command ≠ none ∧ ∃ p1 p2, Cmd.pulls c 2 saved = [some p1, some p2] ∧
        (1 ≤ toUint32 (atoi intBits ov p1) ∧ toUint32 (atoi intBits ov p1) ≤ 999) ∧
        (100 ≤ toUint32 (atoi intBits ov p2) ∧ toUint32 (atoi intBits ov p2) ≤ 10000) := by
  cases command with
  | none => simp [run_countdown_tests]
  | some cmd =>
    cases h1 : Cmd.Parse c saved with
    | mk t1 s1 =>
      cases t1 with
      | none => simp [run_countdown_tests, Cmd.pulls, h1]
      | some p1 =>
        cases h2 : Cmd.Parse c s1 with
        | mk t2 s2 =>
          cases t2 with
          | none =>
            by_cases hs : toUint32 (atoi intBits ov p1) = 0 ∨
                toUint32 (atoi intBits ov p1) > 999
            · simp [run_countdown_tests, Cmd.pulls, h1, h2, hs]
            · simp [run_countdown_tests, Cmd.pulls, h1, h2, hs]
          | some p2 =>
            have hp : Cmd.pulls c 2 saved = [some p1, some p2] := by
              simp [Cmd.pulls, h1, h2]
            rw [hp]
            have hval : run_countdown_tests intBits ov c (some cmd) printHelp saved =
                if toUint32 (atoi intBits ov p1) = 0 ∨ toUint32 (atoi intBits ov p1) > 999
                then []
                else if toUint32 (atoi intBits ov p2) = 0 then []
                else if toUint32 (atoi intBits ov p2) < 100 ∨
                    toUint32 (atoi intBits ov p2) > 10000 then []
                else countdownFrom (toUint32 (atoi intBits ov p1)) ++ print_test_completed ++
                  [Display.fillScreen COLOR_BLACK] := by
              simp [run_countdown_tests, h1, h2]
            rw [hval]
            constructor
            · intro hne
              refine ⟨by simp, p1, p2, rfl, ?_⟩
              generalize toUint32 (atoi intBits ov p1) = A at hne ⊢
              generalize toUint32 (atoi intBits ov p2) = B at hne ⊢
              by_cases hs : A = 0 ∨ A > 999
              · simp [hs] at hne
              · by_cases hd0 : B = 0
                · simp [hs, hd0] at hne
                · by_cases hd : B < 100 ∨ B > 10000
                  · rw [if_neg hs, if_neg hd0, if_pos hd] at hne
                    exact absurd rfl hne
                  · omega
            · rintro ⟨-, q1, q2, hq, hA, hB⟩
              simp only [List.cons.injEq, Option.some.injEq, and_true] at hq
              obtain ⟨e1, e2⟩ := hq
              subst e1 e2
              generalize toUint32 (atoi intBits ov p1) = A at hA ⊢
              generalize toUint32 (atoi intBits ov p2) = B at hB ⊢
              have hs : ¬ (A = 0 ∨ A > 999) := by omega
              have hd0 : ¬ B = 0 := by omega
              have hd : ¬ (B < 100 ∨ B > 10000) := by omega
              rw [if_neg hs, if_neg hd0, if_neg hd]
              simp

/-- The terminal beside the line over a run of edit inputs, each handled by a
`Loop()` call, starting from an empty line with echo enabled and with no call
aborting the line for overflow: after each input handled the terminal row
equals the content and the terminal column equals the cursor.  When the last
cell of the line's block holds a NUL byte, every input of the run is handled;
in a block without NUL an edit inside the line is not (the private copy runs
off the block). -/
theorem mirror_in_step (g : Nat → Nat) (c0 : Cmd) (es : List Cmd.Edit)
    (hecho : c0.m_echo = true) (hesc : c0.m_buffer_reading_esc = 0)
    (hread : c0.m_buffer_read = 0) (hcur : c0.m_buffer_cursor = 0)
    (hbuf : c0.m_buffer = none ∨
      ∃ cells, c0.m_buffer = some cells ∧ cells.length = c0.m_buffer_size)
    (hvalid : ∀ e ∈ es, e.valid)
    (hroom : ∀ p ∈ Cmd.mirror g c0 ⟨[], 0, 0⟩ es, p.1.m_buffer ≠ none) :
    (∀ p ∈ Cmd.mirror g c0 ⟨[], 0, 0⟩ es,
        p.2.row = Cmd.content p.1 ∧ p.2.col = p.1.m_buffer_cursor) ∧
      ((∀ cells, (Cmd.allocBuffer g c0).m_buffer = some cells → cells.getLast? = some 0) →
        (Cmd.mirror g c0 ⟨[], 0, 0⟩ es).length = es.length) := by
  obtain ⟨cells0, hs⟩ : ∃ cells0, Cmd.InSync (Cmd.allocBuffer g c0) ⟨[], 0, 0⟩ cells0 := by
    rcases hbuf with hn | ⟨cells, hsome, hl⟩
    · exact ⟨malloc g c0.m_buffer_size,
        by simp [Cmd.InSync, Cmd.allocBuffer, hn, malloc_length, hesc, hecho]⟩
    · exact ⟨cells, by simp [Cmd.InSync, Cmd.allocBuffer, hsome, hl, hesc, hecho, hread, hcur]⟩
  rw [← mirror_allocBuffer g c0] at hroom ⊢
  refine ⟨fun p hp => ?_, fun h0 => ?_⟩
  · obtain ⟨h1, h2, -⟩ := mirror_sync g es _ _ cells0 hs hvalid hroom p hp
    exact ⟨h1, h2⟩
  · exact mirror_total g es _ _ cells0 hs (h0 cells0 hs.1) hvalid hroom


/-! ## Claims -/

/-- C1. A completed line whose first token equals a registered name, ASCII
case ignored, makes `Loop` invoke exactly one handler: the one of the first
such entry in registration order, with that token and `printHelp = false`;
the default handler is not invoked.  The line is any allocated line with room
for the terminator, the carriage return is not the final byte of an `ESC [`
sequence, and the bytes after it stay unread. -/
theorem C1_first_match_dispatched (g : Nat → Nat) (c : Cmd)
    (cells rest tok name : List Nat) (i : Nat)
    (hbuf : c.m_buffer = some cells) (hread : c.m_buffer_read < cells.length)
    (hsize : c.m_buffer_read < c.m_buffer_size)
    (hnul : 0 ∉ cells.take c.m_buffer_read) (hesc : c.m_buffer_reading_esc ≠ 2)
    (hnames : ∀ n ∈ Cmd.registry c, 0 ∉ n)
    (htok : (Cmd.tokens c.m_separator (Cmd.content c)).head? = some tok)
    (hi : (Cmd.registry c).get? i = some name) (hm : Cmd.caseEq tok name)
    (hfirst : ∀ j n, j < i → (Cmd.registry c).get? j = some n → ¬ Cmd.caseEq tok n) :
    ∃ r saved, Cmd.Loop g c (13 :: rest) = some r ∧ r.rx = rest ∧
      r.calls = [⟨some i, c.m_functions.getD i 0, some tok, false, saved⟩] := by
  refine ⟨_, (strtok (Cmd.content c) c.m_separator).2,
    Loop_cr g c cells rest hbuf hread hsize hnul hesc, rfl, ?_⟩
  have h1 : (strtok (Cmd.content c) c.m_separator).1 = some tok := by
    rw [strtok_head, htok]
  have h0 : 0 ∉ tok := by
    have hsub : tok ⊆ Cmd.content c :=
      strtok_subset (r := (strtok (Cmd.content c) c.m_separator).2) (Prod.ext h1 rfl)
    intro hz
    have := hsub hz
    simp only [Cmd.content, hbuf] at this
    exact hnul this
  have h2 := scanCommands_found tok (c.m_commands.take c.m_size) 0 i name h0 hnames hi hm
    hfirst
  simp only [h1, Cmd.invoke, h2, Nat.zero_add]

/-- Witness of C1: registry "help", "run_fill_screen_test" and the line
"HELP"; the same call results from typing "HELP" and Enter on a new object. -/
theorem C1_first_match_dispatched_witness :
    (∃ r saved,
      Cmd.Loop (fun _ => 7) (Cmd.withLine Cmd.exampleRegistry [72, 69, 76, 80] 46 4) [13] =
        some r ∧ r.rx = [] ∧
      r.calls = [⟨some 0, 1, some [72, 69, 76, 80], false, saved⟩]) ∧
    (Cmd.Loop (fun _ => 7) Cmd.exampleRegistry [72, 69, 76, 80, 13]).map (fun r => r.calls) =
      some [⟨some 0, 1, some [72, 69, 76, 80], false, []⟩] :=
  ⟨C1_first_match_dispatched (fun _ => 7)
      (Cmd.withLine Cmd.exampleRegistry [72, 69, 76, 80] 46 4)
      ([72, 69, 76, 80] ++ List.replicate 46 7) [] [72, 69, 76, 80] [104, 101, 108, 112] 0
      rfl (by decide) (by decide) (by decide) (by decide) (by decide) (by decide)
      (by decide) (by decide) (fun j n hj => absurd hj (Nat.not_lt_zero j)),
    by decide⟩

/-- C3. For every finalized line and separator set, the token handed to the
handler followed by the results of `n` successive `Parse()` calls is the list
of the maximal non-empty runs of non-separator bytes of the line, in order,
followed by the null result for every call made after the list is exhausted. -/
theorem C3_tokens_in_order (g : Nat → Nat) (c : Cmd) (cells rest : List Nat)
    (hbuf : c.m_buffer = some cells) (hread : c.m_buffer_read < cells.length)
    (hsize : c.m_buffer_read < c.m_buffer_size)
    (hnul : 0 ∉ cells.take c.m_buffer_read) (hesc : c.m_buffer_reading_esc ≠ 2) :
    ∃ r call, Cmd.Loop g c (13 :: rest) = some r ∧ r.calls = [call] ∧
      ∀ n, call.command :: Cmd.pulls c n call.saved =
        ((Cmd.tokens c.m_separator (Cmd.content c)).map some ++
          List.replicate (n + 1) none).take (n + 1) := by
  refine ⟨_, _, Loop_cr g c cells rest hbuf hread hsize hnul hesc, rfl, ?_⟩
  intro n
  obtain ⟨hc, hs, -⟩ := invoke_command c (strtok (Cmd.content c) c.m_separator).1
    (strtok (Cmd.content c) c.m_separator).2 false
  rw [hc, hs, pulls_eq c n (n + 1) _ (by omega)]
  rcases strtok_tokens (Cmd.content c) c.m_separator with ⟨t, r, h1, h2⟩ | ⟨h1, h2⟩
  · simp [h1, h2]
  · have h3 : List.take n (none :: List.replicate n (none : Option (List Nat))) =
        List.replicate n none := by
      rw [← List.replicate_succ, List.take_replicate]
      simp
    simp [h1, h2, tokens_nil, List.replicate_succ, h3]

/-- Witness of C3: the line "run_countdown_test 10 500" hands
"run_countdown_test" to the handler; three `Parse()` calls then give "10",
"500" and the null result. -/
theorem C3_tokens_in_order_witness :
    ∃ r call,
      Cmd.Loop (fun _ => 7)
        (Cmd.withLine Cmd.exampleRegistry
          [114, 117, 110, 95, 99, 111, 117, 110, 116, 100, 111, 119, 110, 95, 116, 101,
            115, 116, 32, 49, 48, 32, 53, 48, 48] 25 25) [13] = some r ∧
      r.calls = [call] ∧
      call.command :: Cmd.pulls Cmd.exampleRegistry 3 call.saved =
        [some [114, 117, 110, 95, 99, 111, 117, 110, 116, 100, 111, 119, 110, 95, 116,
            101, 115, 116], some [49, 48], some [53, 48, 48], none] := by
  obtain ⟨r, call, h1, h2, h3⟩ := C3_tokens_in_order (fun _ => 7)
    (Cmd.withLine Cmd.exampleRegistry
      [114, 117, 110, 95, 99, 111, 117, 110, 116, 100, 111, 119, 110, 95, 116, 101,
        115, 116, 32, 49, 48, 32, 53, 48, 48] 25 25)
    ([114, 117, 110, 95, 99, 111, 117, 110, 116, 100, 111, 119, 110, 95, 116, 101,
        115, 116, 32, 49, 48, 32, 53, 48, 48] ++ List.replicate 25 7) []
    rfl (by decide) (by decide) (by decide) (by decide)
  exact ⟨r, call, h1, h2, (h3 3).trans (by decide)⟩

/-- C4, as stated, fails: the printable byte '?' (63) typed on the empty line
of a new object is not stored (it requests help), and a printable byte typed
on an empty line while `ESC [` is pending is consumed as the final byte of the
sequence. -/
theorem C4_counterexample :
    ((∀ b ∈ [63], Cmd.printable b) ∧
      [63].length < Cmd.exampleRegistry.m_buffer_size - 1 ∧
      (Cmd.Loop (fun _ => 7) Cmd.exampleRegistry [63]).map
          (fun r => (Cmd.content r.cmd, r.cmd.m_buffer_read, r.cmd.m_buffer_cursor)) =
        some ([], 0, 0)) ∧
    ((∀ b ∈ [97], Cmd.printable b) ∧
      (Cmd.Loop (fun _ => 7) { Cmd.exampleRegistry with m_buffer_reading_esc := 2 } [97]).map
          (fun r => (Cmd.content r.cmd, r.cmd.m_buffer_read, r.cmd.m_buffer_cursor)) =
        some ([], 0, 0)) := by
  decide

/-- C4, amended.  For every sequence of printable bytes other than '?' that
is shorter than capacity - 1, fed to `Loop` in one call or split over several
calls, starting from an empty line with no escape sequence pending: every call
returns, the content is the sequence and cursor = length = its length. -/
theorem C4_typed_content (g : Nat → Nat) (c : Cmd) (chunks : List (List Nat))
    (hs : ∀ b ∈ chunks.flatten, Cmd.printable b ∧ b ≠ 63)
    (hlen : chunks.flatten.length < c.m_buffer_size - 1)
    (hesc : c.m_buffer_reading_esc = 0)
    (hread : c.m_buffer_read = 0) (hcur : c.m_buffer_cursor = 0)
    (hbuf : c.m_buffer = none ∨
      ∃ cells, c.m_buffer = some cells ∧ cells.length = c.m_buffer_size) :
    ∃ r, Cmd.Loops g c [] chunks = some r ∧ Cmd.content r.cmd = chunks.flatten ∧
      r.cmd.m_buffer_cursor = chunks.flatten.length ∧
      r.cmd.m_buffer_read = chunks.flatten.length := by
  have h0 : Cmd.AtEnd c [] := by
    refine ⟨hesc, by omega, by simpa using hread, ?_, hbuf⟩
    unfold Cmd.content
    cases c.m_buffer <;> simp [hread]
  obtain ⟨r, h1, ⟨-, k2, k3, k4, -⟩, -, -⟩ := Loops_typed g chunks c [] h0 hs
    (by simp only [List.length_nil]; omega)
  simp only [List.nil_append] at k3 k4
  exact ⟨r, h1, k4, by omega, k3⟩

/-- Witness of C4 (amended): "ab" then "c" typed on a new object. -/
theorem C4_typed_content_witness :
    ∃ r, Cmd.Loops (fun _ => 7) Cmd.exampleRegistry [] [[97, 98], [99]] = some r ∧
      Cmd.content r.cmd = [97, 98, 99] ∧ r.cmd.m_buffer_cursor = 3 ∧
      r.cmd.m_buffer_read = 3 :=
  C4_typed_content (fun _ => 7) Cmd.exampleRegistry [[97, 98], [99]] (by decide)
    (by decide) rfl rfl rfl (Or.inl rfl)

/-- C5, as stated, fails.  First part (by design): after "ab", cursor-left and
a pending `ESC [`, the printable byte 'c' is taken as the final byte of the
escape sequence and nothing is inserted.  Second part (the unterminated
`strcpy` of line 327): after "ab" and cursor-left in a fresh block that holds
no NUL, inserting 'c' reads past the end of the block. -/
theorem C5_counterexample :
    ((Cmd.Loop (fun _ => 7) Cmd.exampleRegistry [97, 98, 27, 91, 68, 27, 91]).map
        (fun r => r.cmd) =
      some { Cmd.withLine Cmd.exampleRegistry [97, 98] 48 1 with m_buffer_reading_esc := 2 } ∧
      (Cmd.processByte (fun _ => 7)
          { Cmd.withLine Cmd.exampleRegistry [97, 98] 48 1 with m_buffer_reading_esc := 2 }
          99).map (fun st => (Cmd.content st.cmd, st.cmd.m_buffer_cursor, st.cmd.m_buffer_read)) =
        some ([97, 98], 1, 2)) ∧
    ((Cmd.Loop (fun _ => 7) Cmd.exampleRegistry [97, 98, 27, 91, 68]).map (fun r => r.cmd) =
      some (Cmd.withLine Cmd.exampleRegistry [97, 98] 48 1) ∧
      Cmd.processByte (fun _ => 7) (Cmd.withLine Cmd.exampleRegistry [97, 98] 48 1) 99 =
        none) := by
  decide

/-- C5, amended.  For every line whose block holds a NUL and whose content
holds none, with cursor < length and length + 1 < capacity - 1, and every
printable byte b other than '?', received when no escape sequence is pending
(or right after ESC when b is not '['): processing b yields
content = old[0..cursor) ++ [b] ++ old[cursor..length), cursor and length each
increased by exactly 1, no handler invoked and no escape sequence pending. -/
theorem C5_interior_insert (g : Nat → Nat) (c : Cmd) (cells : List Nat) (b : Nat)
    (hbuf : c.m_buffer = some cells) (hlen : cells.length = c.m_buffer_size)
    (hcur : c.m_buffer_cursor < c.m_buffer_read)
    (hroom : c.m_buffer_read + 1 < c.m_buffer_size - 1)
    (hb : Cmd.printable b) (hq : b ≠ 63)
    (hesc : c.m_buffer_reading_esc = 0 ∨ (c.m_buffer_reading_esc = 1 ∧ b ≠ 91))
    (hterm : 0 ∈ cells) (hnul : 0 ∉ Cmd.content c) :
    ∃ st, Cmd.processByte g c b = some st ∧ st.flow = Flow.next ∧ st.calls = [] ∧
      Cmd.content st.cmd =
        (Cmd.content c).take c.m_buffer_cursor ++ [b] ++
          (Cmd.content c).drop c.m_buffer_cursor ∧
      st.cmd.m_buffer_cursor = c.m_buffer_cursor + 1 ∧
      st.cmd.m_buffer_read = c.m_buffer_read + 1 ∧
      st.cmd.m_buffer_reading_esc = 0 := by
  have hnul1 : 0 ∉ cells.take c.m_buffer_read := by simpa [Cmd.content, hbuf] using hnul
  rcases hesc with h0 | ⟨h1, h91⟩
  · obtain ⟨st, k1, k2, k3, k4, k5, k6, k7⟩ :=
      ordinaryByte_insert_interior g c cells b hbuf hlen hcur hroom hb hq hterm hnul1
    refine ⟨st, by simp [Cmd.processByte, h0, k1], k2, k3, ?_, k5, k6, by rw [k7, h0]⟩
    simpa using k4
  · obtain ⟨st, k1, k2, k3, k4, k5, k6, k7⟩ :=
      ordinaryByte_insert_interior g { c with m_buffer_reading_esc := 0 } cells b hbuf hlen
        hcur hroom hb hq hterm hnul1
    refine ⟨st, by simp [Cmd.processByte, h1, h91, k1], k2, k3, ?_, k5, k6, k7⟩
    simpa [Cmd.content] using k4

/-- Witness of C5 (amended): 'c' typed between 'a' and 'b' in a block that
holds a NUL after the content. -/
theorem C5_interior_insert_witness :
    ∃ st,
      Cmd.processByte (fun _ => 7)
        { Cmd.exampleRegistry with
          m_buffer := some ([97, 98, 0] ++ List.replicate 47 7)
          m_buffer_read := 2
          m_buffer_cursor := 1 } 99 = some st ∧
      st.flow = Flow.next ∧ st.calls = [] ∧
      Cmd.content st.cmd = [97] ++ [99] ++ [98] ∧
      st.cmd.m_buffer_cursor = 1 + 1 ∧ st.cmd.m_buffer_read = 2 + 1 ∧
      st.cmd.m_buffer_reading_esc = 0 :=
  C5_interior_insert (fun _ => 7)
    { Cmd.exampleRegistry with
      m_buffer := some ([97, 98, 0] ++ List.replicate 47 7)
      m_buffer_read := 2
      m_buffer_cursor := 1 }
    ([97, 98, 0] ++ List.replicate 47 7) 99 rfl (by decide) (by decide) (by decide)
    (by decide) (by decide) (Or.inl rfl) (by decide) (by decide)

/-- C6, as stated, fails.  First part (by design): with `ESC [` pending, a
backspace is taken as the final byte of the escape sequence and nothing is
deleted.  Second part (the unterminated `strcpy` of line 245): after "abc"
and cursor-left in a fresh block that holds no NUL, a backspace reads past
the end of the block. -/
theorem C6_counterexample :
    ((Cmd.Loop (fun _ => 7) Cmd.exampleRegistry [97, 98, 27, 91]).map (fun r => r.cmd) =
      some { Cmd.withLine Cmd.exampleRegistry [97, 98] 48 2 with m_buffer_reading_esc := 2 } ∧
      (Cmd.processByte (fun _ => 7)
          { Cmd.withLine Cmd.exampleRegistry [97, 98] 48 2 with m_buffer_reading_esc := 2 }
          8).map (fun st => (Cmd.content st.cmd, st.cmd.m_buffer_cursor, st.cmd.m_buffer_read)) =
        some ([97, 98], 2, 2)) ∧
    ((Cmd.Loop (fun _ => 7) Cmd.exampleRegistry [97, 98, 99, 27, 91, 68]).map (fun r => r.cmd) =
      some (Cmd.withLine Cmd.exampleRegistry [97, 98, 99] 47 2) ∧
      Cmd.processByte (fun _ => 7) (Cmd.withLine Cmd.exampleRegistry [97, 98, 99] 47 2) 8 =
        none) := by
  decide

/-- C6, amended.  For every allocated line with 0 < cursor ≤ length, when the
final byte of an `ESC [` sequence is not awaited and, for a cursor inside the
line, the block holds a NUL and the content holds none: processing a delete
byte (0x08 or 0x7F) removes exactly the byte before the cursor; content
becomes old[0..cursor-1) ++ old[cursor..length), and cursor and length each
decrease by exactly 1. -/
theorem C6_delete_before_cursor (g : Nat → Nat) (c : Cmd) (cells : List Nat) (b : Nat)
    (hb : b = 8 ∨ b = 127)
    (hbuf : c.m_buffer = some cells) (hlen : cells.length = c.m_buffer_size)
    (hpos : 0 < c.m_buffer_cursor) (hcur : c.m_buffer_cursor ≤ c.m_buffer_read)
    (hread : c.m_buffer_read ≤ cells.length)
    (hesc : c.m_buffer_reading_esc ≠ 2)
    (hterm : c.m_buffer_cursor < c.m_buffer_read → 0 ∈ cells ∧ 0 ∉ Cmd.content c) :
    ∃ st, Cmd.processByte g c b = some st ∧ st.flow = Flow.next ∧ st.calls = [] ∧
      Cmd.content st.cmd =
        (Cmd.content c).take (c.m_buffer_cursor - 1) ++
          (Cmd.content c).drop c.m_buffer_cursor ∧
      st.cmd.m_buffer_cursor + 1 = c.m_buffer_cursor ∧
      st.cmd.m_buffer_read + 1 = c.m_buffer_read := by
  have hterm1 : c.m_buffer_cursor < c.m_buffer_read →
      0 ∈ cells ∧ 0 ∉ cells.take c.m_buffer_read := by
    simpa [Cmd.content, hbuf] using hterm
  have h91 : b ≠ 91 := by omega
  by_cases h1 : c.m_buffer_reading_esc = 1
  · obtain ⟨c1, t1, k1, k2, k3, k4, -⟩ :=
      deleteKey_removes g { c with m_buffer_reading_esc := 0 } cells b hb hbuf
        (by simp [hlen]) hpos hcur hread hterm1
    refine ⟨⟨c1, t1, [], Flow.next⟩,
      by simp [Cmd.processByte, h1, h91, ordinaryByte_delete g _ b hb, k1], rfl, rfl, ?_,
      by simp only [k3]; omega, by simp only [k4]; omega⟩
    simpa [Cmd.content] using k2
  · obtain ⟨c1, t1, k1, k2, k3, k4, -⟩ :=
      deleteKey_removes g c cells b hb hbuf (by simp [hlen]) hpos hcur hread hterm1
    exact ⟨⟨c1, t1, [], Flow.next⟩,
      by simp [Cmd.processByte, h1, hesc, ordinaryByte_delete g _ b hb, k1], rfl, rfl, k2,
      by simp only [k3]; omega, by simp only [k4]; omega⟩

/-- Witness of C6 (amended): backspace after "ab" with the cursor at the end. -/
theorem C6_delete_before_cursor_witness :
    ∃ st,
      Cmd.processByte (fun _ => 7) (Cmd.withLine Cmd.exampleRegistry [97, 98] 48 2) 8 =
        some st ∧
      st.flow = Flow.next ∧ st.calls = [] ∧
      Cmd.content st.cmd = [97] ++ [] ∧
      st.cmd.m_buffer_cursor + 1 = 2 ∧ st.cmd.m_buffer_read + 1 = 2 :=
  C6_delete_before_cursor (fun _ => 7) (Cmd.withLine Cmd.exampleRegistry [97, 98] 48 2)
    ([97, 98] ++ List.replicate 48 7) 8 (Or.inl rfl) rfl (by decide) (by decide) (by decide)
    (by decide) (by decide) (by decide)

/-- C7. For every state of the object with length 0 or cursor 0, processing a
delete byte (0x08 or 0x7F) changes nothing of the line: buffer, length and
cursor are as before, nothing is written to the transport and no handler is
invoked; only a pending escape sequence is dropped. -/
theorem C7_delete_at_start_noop (g : Nat → Nat) (c : Cmd) (b : Nat)
    (hb : b = 8 ∨ b = 127) (h0 : c.m_buffer_read = 0 ∨ c.m_buffer_cursor = 0) :
    Cmd.processByte g c b =
      some ⟨{ c with m_buffer_reading_esc :=
                if c.m_buffer_reading_esc = 1 ∨ c.m_buffer_reading_esc = 2 then 0
                else c.m_buffer_reading_esc }, [], [], Flow.next⟩ := by
  have h91 : b ≠ 91 := by omega
  have h68 : b ≠ 68 := by omega
  have h67 : b ≠ 67 := by omega
  have hd : ∀ c1 : Cmd, c1.m_buffer_read = c.m_buffer_read →
      c1.m_buffer_cursor = c.m_buffer_cursor → Cmd.deleteKey g c1 b = some (c1, []) := by
    intro c1 e1 e2
    have : ¬ (c1.m_buffer_read ≠ 0 ∧ c1.m_buffer_cursor ≠ 0) := by
      rw [e1, e2]
      omega
    simp only [Cmd.deleteKey, hb, this, if_true, if_false]
  by_cases h1 : c.m_buffer_reading_esc = 1
  · simp [Cmd.processByte, h1, h91, ordinaryByte_delete g _ b hb,
      hd { c with m_buffer_reading_esc := 0 } rfl rfl]
  · by_cases h2 : c.m_buffer_reading_esc = 2
    · simp [Cmd.processByte, h2, h68, h67]
    · simp [Cmd.processByte, h1, h2, ordinaryByte_delete g _ b hb, hd c rfl rfl]

/-- Witness of C7: backspace with the cursor at the start of "ab". -/
theorem C7_delete_at_start_noop_witness :
    Cmd.processByte (fun _ => 7) (Cmd.withLine Cmd.exampleRegistry [97, 98] 48 0) 8 =
      some ⟨Cmd.withLine Cmd.exampleRegistry [97, 98] 48 0, [], [], Flow.next⟩ :=
  C7_delete_at_start_noop (fun _ => 7) (Cmd.withLine Cmd.exampleRegistry [97, 98] 48 0) 8
    (Or.inl rfl) (Or.inr rfl)

/-- C8. For every state of the object with no escape sequence pending, the
bytes ESC '[' 'D' (resp. ESC '[' 'C') leave everything but the cursor
unchanged; when cursor > 0 (resp. cursor < length) the cursor moves by exactly
1 and exactly ESC '[' 'D' (resp. ESC '[' 'C') is written; otherwise the cursor
stays and nothing is written; no escape sequence is pending afterwards.  This
holds for one pass of the read loop over the three bytes and, on an allocated
line, for one `Loop()` call and for three calls that get one byte each. -/
theorem C8_cursor_keys (g : Nat → Nat) (c : Cmd) (hesc : c.m_buffer_reading_esc = 0) :
    (Cmd.readLoop g c [27, 91, 68] =
        some (⟨{ c with m_buffer_cursor :=
                   if 0 < c.m_buffer_cursor then c.m_buffer_cursor - 1 else c.m_buffer_cursor },
          [], if 0 < c.m_buffer_cursor then [27, 91, 68] else [], []⟩, false) ∧
      Cmd.readLoop g c [27, 91, 67] =
        some (⟨{ c with m_buffer_cursor :=
                   if c.m_buffer_cursor < c.m_buffer_read then c.m_buffer_cursor + 1
                   else c.m_buffer_cursor },
          [], if c.m_buffer_cursor < c.m_buffer_read then [27, 91, 67] else [], []⟩, false)) ∧
    (c.m_buffer ≠ none →
      Cmd.Loop g c [27, 91, 68] =
        some ⟨{ c with m_buffer_cursor :=
                  if 0 < c.m_buffer_cursor then c.m_buffer_cursor - 1 else c.m_buffer_cursor },
          [], if 0 < c.m_buffer_cursor then [27, 91, 68] else [], []⟩ ∧
      Cmd.Loop g c [27, 91, 67] =
        some ⟨{ c with m_buffer_cursor :=
                  if c.m_buffer_cursor < c.m_buffer_read then c.m_buffer_cursor + 1
                  else c.m_buffer_cursor },
          [], if c.m_buffer_cursor < c.m_buffer_read then [27, 91, 67] else [], []⟩ ∧
      Cmd.Loops g c [] [[27], [91], [68]] =
        some ⟨{ c with m_buffer_cursor :=
                  if 0 < c.m_buffer_cursor then c.m_buffer_cursor - 1 else c.m_buffer_cursor },
          [], if 0 < c.m_buffer_cursor then [27, 91, 68] else [], []⟩ ∧
      Cmd.Loops g c [] [[27], [91], [67]] =
        some ⟨{ c with m_buffer_cursor :=
                  if c.m_buffer_cursor < c.m_buffer_read then c.m_buffer_cursor + 1
                  else c.m_buffer_cursor },
          [], if c.m_buffer_cursor < c.m_buffer_read then [27, 91, 67] else [], []⟩) := by
  rcases c with ⟨cm, fn, df, sz, nx, ec, pr, sp, li, bs, bf, rd, es, cu⟩
  simp only at hesc
  subst hesc
  have hD : Cmd.readLoop g ⟨cm, fn, df, sz, nx, ec, pr, sp, li, bs, bf, rd, 0, cu⟩
      [27, 91, 68] =
      some (⟨⟨cm, fn, df, sz, nx, ec, pr, sp, li, bs, bf, rd, 0,
          if 0 < cu then cu - 1 else cu⟩,
        [], if 0 < cu then [27, 91, 68] else [], []⟩, false) := by
    by_cases h : 0 < cu
    · have h' : ¬ cu = 0 := by omega
      simp [Cmd.readLoop, Cmd.processByte, Cmd.ordinaryByte, h, h', escD]
    · have h' : cu = 0 := by omega
      simp [Cmd.readLoop, Cmd.processByte, Cmd.ordinaryByte, h']
  have hC : Cmd.readLoop g ⟨cm, fn, df, sz, nx, ec, pr, sp, li, bs, bf, rd, 0, cu⟩
      [27, 91, 67] =
      some (⟨⟨cm, fn, df, sz, nx, ec, pr, sp, li, bs, bf, rd, 0,
          if cu < rd then cu + 1 else cu⟩,
        [], if cu < rd then [27, 91, 67] else [], []⟩, false) := by
    by_cases h : cu < rd
    · have h' : ¬ rd ≤ cu := by omega
      simp [Cmd.readLoop, Cmd.processByte, Cmd.ordinaryByte, h, h', escC]
    · have h' : rd ≤ cu := by omega
      simp [Cmd.readLoop, Cmd.processByte, Cmd.ordinaryByte, h, h']
  refine ⟨⟨hD, hC⟩, fun hb => ?_⟩
  simp only at hb
  have ha : ∀ e u, Cmd.allocBuffer g ⟨cm, fn, df, sz, nx, ec, pr, sp, li, bs, bf, rd, e, u⟩ =
      ⟨cm, fn, df, sz, nx, ec, pr, sp, li, bs, bf, rd, e, u⟩ := by
    intro e u
    simp [Cmd.allocBuffer, hb]
  refine ⟨by simp [Cmd.Loop, ha, hD], by simp [Cmd.Loop, ha, hC], ?_, ?_⟩
  · by_cases h : 0 < cu
    · have h' : ¬ cu = 0 := by omega
      simp [Cmd.Loops, Cmd.Loop, ha, Cmd.readLoop, Cmd.processByte, Cmd.ordinaryByte, h, h',
        escD]
    · have h' : cu = 0 := by omega
      simp [Cmd.Loops, Cmd.Loop, ha, Cmd.readLoop, Cmd.processByte, Cmd.ordinaryByte, h']
  · by_cases h : cu < rd
    · have h' : ¬ rd ≤ cu := by omega
      simp [Cmd.Loops, Cmd.Loop, ha, Cmd.readLoop, Cmd.processByte, Cmd.ordinaryByte, h, h',
        escC]
    · have h' : rd ≤ cu := by omega
      simp [Cmd.Loops, Cmd.Loop, ha, Cmd.readLoop, Cmd.processByte, Cmd.ordinaryByte, h, h']

/-- Witness of C8: on the line "ab" with the cursor at the end, ESC [ D moves
the cursor to 1 and writes the three bytes; ESC [ C writes nothing. -/
theorem C8_cursor_keys_witness :
    Cmd.readLoop (fun _ => 7) (Cmd.withLine Cmd.exampleRegistry [97, 98] 48 2) [27, 91, 68] =
        some (⟨Cmd.withLine Cmd.exampleRegistry [97, 98] 48 1, [], [27, 91, 68], []⟩, false) ∧
      Cmd.readLoop (fun _ => 7) (Cmd.withLine Cmd.exampleRegistry [97, 98] 48 2) [27, 91, 67] =
        some (⟨Cmd.withLine Cmd.exampleRegistry [97, 98] 48 2, [], [], []⟩, false) :=
  (C8_cursor_keys (fun _ => 7) (Cmd.withLine Cmd.exampleRegistry [97, 98] 48 2) rfl).1

/-- C9. For every capacity ≥ 2 and every sequence of input bytes, split into
`Loop()` calls in any way, starting from an object without a line: the object
after each byte handled and at the return of each call satisfies
0 ≤ cursor ≤ length ≤ capacity - 1. -/
theorem C9_line_invariant (g : Nat → Nat) (cap : Nat) (c0 : Cmd) (rx : List Nat)
    (chunks : List (List Nat)) (hcap : 2 ≤ cap) (hsize : c0.m_buffer_size = cap)
    (hbuf : c0.m_buffer = none) (hread : c0.m_buffer_read = 0)
    (hcur : c0.m_buffer_cursor = 0) :
    ∀ c ∈ Cmd.LoopsStates g c0 rx chunks,
      0 ≤ c.m_buffer_cursor ∧ c.m_buffer_cursor ≤ c.m_buffer_read ∧
        c.m_buffer_read ≤ cap - 1 := by
  intro c hc
  have h0 : Cmd.LineInv cap c0 :=
    ⟨hcap, hsize, by omega, by omega, fun h => absurd hbuf h⟩
  obtain ⟨-, -, i2, i3, -⟩ := LoopsStates_inv g cap chunks c0 rx h0 c hc
  exact ⟨Nat.zero_le _, i2, i3⟩

/-- Witness of C9: capacity 5, bytes "ab", ESC, then '[', 'D', Enter, "cdefg"
over three calls (the last one gets what the second left unread and aborts
the line); thirteen objects are observed. -/
theorem C9_line_invariant_witness :
    (Cmd.LoopsStates (fun _ => 7) (Cmd.SetBufferSize Cmd.exampleRegistry 5) []
        [[97, 98, 27], [91, 68, 13, 99, 100, 101, 102, 103], []]).length = 13 ∧
    ∀ c ∈ Cmd.LoopsStates (fun _ => 7) (Cmd.SetBufferSize Cmd.exampleRegistry 5) []
        [[97, 98, 27], [91, 68, 13, 99, 100, 101, 102, 103], []],
      0 ≤ c.m_buffer_cursor ∧ c.m_buffer_cursor ≤ c.m_buffer_read ∧
        c.m_buffer_read ≤ 5 - 1 :=
  ⟨by decide,
    C9_line_invariant (fun _ => 7) 5 (Cmd.SetBufferSize Cmd.exampleRegistry 5) []
      [[97, 98, 27], [91, 68, 13, 99, 100, 101, 102, 103], []] (by decide) rfl rfl rfl rfl⟩

/-- C10. For every capacity c ≥ 2 and every burst p ++ rest available in one
`Loop()` call on an empty line with no escape sequence pending, where p is
c - 1 printable bytes other than '?' and rest is arbitrary: the call returns,
writes the echo of p, the bytes of "Data too large.", CR LF and the prompt,
reads every byte of the burst, invokes no handler and releases the line, so
that the next call starts from an empty line. -/
theorem C10_overflow_drains (g : Nat → Nat) (c : Cmd) (p rest : List Nat)
    (hcap : 2 ≤ c.m_buffer_size) (hp : p.length = c.m_buffer_size - 1)
    (hs : ∀ b ∈ p, Cmd.printable b ∧ b ≠ 63)
    (hesc : c.m_buffer_reading_esc = 0)
    (hread : c.m_buffer_read = 0) (hcur : c.m_buffer_cursor = 0)
    (hbuf : c.m_buffer = none ∨
      ∃ cells, c.m_buffer = some cells ∧ cells.length = c.m_buffer_size) :
    ∃ r, Cmd.Loop g c (p ++ rest) = some r ∧
      r.tx = (if c.m_echo then p else []) ++
        [68, 97, 116, 97, 32, 116, 111, 111, 32, 108, 97, 114, 103, 101, 46] ++ [13, 10] ++
        c.m_line_indicator ∧
      r.rx = [] ∧ r.calls = [] ∧ r.cmd.m_buffer = none ∧
      ∀ g2, Cmd.content (Cmd.allocBuffer g2 r.cmd) = [] ∧
        (Cmd.allocBuffer g2 r.cmd).m_buffer_read = 0 ∧
        (Cmd.allocBuffer g2 r.cmd).m_buffer_cursor = 0 := by
  have hne : p ≠ [] := by
    intro e
    rw [e] at hp
    simp at hp
    omega
  obtain ⟨p0, last, rfl⟩ : ∃ p0 last, p = p0 ++ [last] :=
    ⟨p.dropLast, p.getLast hne, (List.dropLast_append_getLast hne).symm⟩
  simp only [List.length_append, List.length_singleton] at hp
  obtain ⟨cells1, hc1, hl1, hr1, hu1⟩ : ∃ cells1,
      (Cmd.allocBuffer g c).m_buffer = some cells1 ∧ cells1.length = c.m_buffer_size ∧
      (Cmd.allocBuffer g c).m_buffer_read = 0 ∧ (Cmd.allocBuffer g c).m_buffer_cursor = 0 := by
    rcases hbuf with hn | ⟨cells, hsome, hl⟩
    · exact ⟨malloc g c.m_buffer_size, by simp [Cmd.allocBuffer, hn], malloc_length _ _,
        by simp [Cmd.allocBuffer, hn], by simp [Cmd.allocBuffer, hn]⟩
    · exact ⟨cells, by simp [Cmd.allocBuffer, hsome], hl,
        by simp [Cmd.allocBuffer, hsome, hread], by simp [Cmd.allocBuffer, hsome, hcur]⟩
  have hf : (Cmd.allocBuffer g c).m_buffer_size = c.m_buffer_size ∧
      (Cmd.allocBuffer g c).m_echo = c.m_echo ∧
      (Cmd.allocBuffer g c).m_line_indicator = c.m_line_indicator ∧
      (Cmd.allocBuffer g c).m_buffer_reading_esc = c.m_buffer_reading_esc := by
    unfold Cmd.allocBuffer
    split <;> simp
  obtain ⟨f1, f2, f3, f4⟩ := hf
  have hlen : ((p0 ++ [last]) ++ rest).length ≠ 0 := by simp
  simp only [Cmd.Loop, hlen, if_false]
  generalize Cmd.allocBuffer g c = c1 at hc1 hr1 hu1 f1 f2 f3 f4
  obtain ⟨cells2, c2, k1, k2, k3⟩ := readLoop_typed_then g p0 c1 cells1 hc1
    (by rw [hr1, hu1]) (by rw [f4, hesc]) (by rw [hl1, f1])
    (fun b hb => hs b (by simp [hb])) (by rw [hr1, f1]; omega)
  have e1 : c2.m_buffer = some cells2 := by rw [k2]
  have e2 : c2.m_buffer_read = p0.length := by rw [k2]; simp [hr1]
  have e3 : c2.m_buffer_cursor = p0.length := by rw [k2]; simp [hu1]
  have e4 : c2.m_buffer_size = c.m_buffer_size := by rw [k2]; exact f1
  have e5 : c2.m_echo = c.m_echo := by rw [k2]; exact f2
  have e6 : c2.m_line_indicator = c.m_line_indicator := by rw [k2]; exact f3
  have e7 : c2.m_buffer_reading_esc = 0 := by rw [k2]; simp [f4, hesc]
  have hl := hs last (by simp)
  have hstep : Cmd.processByte g c2 last =
      some ⟨{ c2 with
              m_buffer := none
              m_buffer_read := c2.m_buffer_read + 1
              m_buffer_cursor := c2.m_buffer_cursor + 1 },
        (if c2.m_echo then [last] else []) ++
          (dataTooLarge ++ CRLF ++ c2.m_line_indicator), [], Flow.overflow⟩ := by
    simp [Cmd.processByte, e7, ordinaryByte_printable g c2 last hl.1 hl.2,
      insertKey_end_overflow g c2 cells2 last e1 (by rw [e2, e3])
        (by rw [e2, k1, hl1]; omega) (by rw [e2, e4]; omega)]
  have hrun : Cmd.readLoop g c1 ((p0 ++ [last]) ++ rest) =
      some (⟨{ c2 with
               m_buffer := none
               m_buffer_read := c2.m_buffer_read + 1
               m_buffer_cursor := c2.m_buffer_cursor + 1 }, [],
          (if c1.m_echo then p0 else []) ++ ((if c2.m_echo then [last] else []) ++
            (dataTooLarge ++ CRLF ++ c2.m_line_indicator)), []⟩, false) := by
    rw [List.append_assoc, k3 ([last] ++ rest)]
    simp [Cmd.readLoop, hstep]
  rw [hrun]
  refine ⟨_, rfl, ?_, rfl, rfl, rfl, fun g2 => ?_⟩
  · simp only [e5, e6, f2]
    by_cases he : c.m_echo = true <;> simp [he, dataTooLarge, CRLF]
  · simp [Cmd.allocBuffer, Cmd.content]

/-- Witness of C10: capacity 5 and ten printable bytes with no Enter; the
bytes written are "0123", "Data too large.", CR LF and "$ ". -/
theorem C10_overflow_drains_witness :
    ∃ r,
      Cmd.Loop (fun _ => 7) (Cmd.SetBufferSize Cmd.exampleRegistry 5)
        ([48, 49, 50, 51] ++ [52, 53, 54, 55, 56, 57]) = some r ∧
      r.tx = [48, 49, 50, 51] ++
        [68, 97, 116, 97, 32, 116, 111, 111, 32, 108, 97, 114, 103, 101, 46] ++ [13, 10] ++
        [36, 32] ∧
      r.rx = [] ∧ r.calls = [] ∧ r.cmd.m_buffer = none ∧
      ∀ g2, Cmd.content (Cmd.allocBuffer g2 r.cmd) = [] ∧
        (Cmd.allocBuffer g2 r.cmd).m_buffer_read = 0 ∧
        (Cmd.allocBuffer g2 r.cmd).m_buffer_cursor = 0 :=
  C10_overflow_drains (fun _ => 7) (Cmd.SetBufferSize Cmd.exampleRegistry 5) [48, 49, 50, 51]
    [52, 53, 54, 55, 56, 57] (by decide) (by decide) (by decide) rfl rfl rfl (Or.inl rfl)

/-- C17. With no escape sequence pending, every byte outside the printable
range 32-126 that is not one of the handled control bytes (0x1B, 0x08, 0x7F,
0x01, 0x05, 0x03, 0x04, 0x0C, carriage return) is dropped: the object is
unchanged (content, length, cursor, escape state), nothing is written to the
transport, no handler is invoked and the read loop goes on.  This holds for
every state of the object. -/
theorem C17_unhandled_byte_dropped (g : Nat → Nat) (c : Cmd) (b : Nat)
    (hesc : c.m_buffer_reading_esc = 0) (hnp : ¬ Cmd.printable b)
    (hb : b ∉ [27, 8, 127, 1, 5, 3, 4, 12, 13]) :
    Cmd.processByte g c b = some ⟨c, [], [], Flow.next⟩ := by
  simp only [List.mem_cons, List.mem_singleton, List.not_mem_nil, or_false, not_or] at hb
  obtain ⟨e27, e8, e127, e1, e5, e3, e4, e12, e13⟩ := hb
  have e63 : b ≠ 63 := by
    intro e
    exact hnp (by rw [e]; decide)
  have ha : (decide (32 ≤ b) && decide (b ≤ 126)) = false := by
    simp only [Cmd.printable] at hnp
    simp only [Bool.and_eq_false_imp, decide_eq_true_eq, decide_eq_false_iff_not]
    intro h1 h2
    exact hnp ⟨h1, h2⟩
  simp [Cmd.processByte, hesc, Cmd.ordinaryByte, Cmd.deleteKey, Cmd.homeKey, Cmd.endKey,
    Cmd.clearKey, e27, e8, e127, e1, e5, e3, e4, e12, e13, e63, ha]

/-- Witness of C17: line feed, tab and byte 200 on the line "ab". -/
theorem C17_unhandled_byte_dropped_witness :
    Cmd.processByte (fun _ => 7) (Cmd.withLine Cmd.exampleRegistry [97, 98] 48 1) 10 =
        some ⟨Cmd.withLine Cmd.exampleRegistry [97, 98] 48 1, [], [], Flow.next⟩ ∧
      Cmd.processByte (fun _ => 7) (Cmd.withLine Cmd.exampleRegistry [97, 98] 48 1) 9 =
        some ⟨Cmd.withLine Cmd.exampleRegistry [97, 98] 48 1, [], [], Flow.next⟩ ∧
      Cmd.processByte (fun _ => 7) (Cmd.withLine Cmd.exampleRegistry [97, 98] 48 1) 200 =
        some ⟨Cmd.withLine Cmd.exampleRegistry [97, 98] 48 1, [], [], Flow.next⟩ :=
  ⟨C17_unhandled_byte_dropped (fun _ => 7) (Cmd.withLine Cmd.exampleRegistry [97, 98] 48 1) 10
      rfl (by decide) (by decide),
    C17_unhandled_byte_dropped (fun _ => 7) (Cmd.withLine Cmd.exampleRegistry [97, 98] 48 1) 9
      rfl (by decide) (by decide),
    C17_unhandled_byte_dropped (fun _ => 7) (Cmd.withLine Cmd.exampleRegistry [97, 98] 48 1)
      200 rfl (by decide) (by decide)⟩

/-- C18. A freshly constructed `Cmd` has buffer capacity 50, echo enabled,
separator " " and prompt "$ "; each of `SetBufferSize`, `SetEcho`,
`SetSeparator`, `SetLineIndicator` changes only its own field, and the
matching getter then returns the value set. -/
theorem C18_defaults_and_setters (size defaultCallback : Nat)
    (gc : Nat → Option (List Nat)) (gf : Nat → Nat) (c : Cmd) (n : Nat) (e : Bool)
    (s l : List Nat) :
    (Cmd.GetBufferSize (Cmd.Cmd size defaultCallback gc gf) = 50 ∧
      Cmd.GetEcho (Cmd.Cmd size defaultCallback gc gf) = true ∧
      Cmd.GetSeparator (Cmd.Cmd size defaultCallback gc gf) = [32] ∧
      Cmd.GetLineIndicator (Cmd.Cmd size defaultCallback gc gf) = [36, 32]) ∧
    (Cmd.GetBufferSize (Cmd.SetBufferSize c n) = n ∧
      Cmd.SetBufferSize c n = { c with m_buffer_size := n }) ∧
    (Cmd.GetEcho (Cmd.SetEcho c e) = e ∧ Cmd.SetEcho c e = { c with m_echo := e }) ∧
    (Cmd.GetSeparator (Cmd.SetSeparator c s) = s ∧
      Cmd.SetSeparator c s = { c with m_separator := s }) ∧
    (Cmd.GetLineIndicator (Cmd.SetLineIndicator c l) = l ∧
      Cmd.SetLineIndicator c l = { c with m_line_indicator := l }) :=
  ⟨⟨rfl, rfl, rfl, rfl⟩, ⟨rfl, rfl⟩, ⟨rfl, rfl⟩, ⟨rfl, rfl⟩, ⟨rfl, rfl⟩⟩

/-- C20. After ESC '[', every final byte other than 'C' and 'D' is ignored:
the object is unchanged apart from the escape state, which returns to idle;
nothing is written and no handler is invoked.  In particular the up-arrow
sequence ESC '[' 'A', received with no escape sequence pending, changes
nothing and writes nothing. -/
theorem C20_unknown_final_byte_ignored (g : Nat → Nat) (c : Cmd) (b : Nat)
    (hesc : c.m_buffer_reading_esc = 2) (hC : b ≠ 67) (hD : b ≠ 68) :
    Cmd.processByte g c b =
        some ⟨{ c with m_buffer_reading_esc := 0 }, [], [], Flow.next⟩ ∧
      Cmd.readLoop g { c with m_buffer_reading_esc := 0 } [27, 91, 65] =
        some (⟨{ c with m_buffer_reading_esc := 0 }, [], [], []⟩, false) := by
  constructor
  · simp [Cmd.processByte, hesc, hC, hD]
  · simp [Cmd.readLoop, Cmd.processByte, Cmd.ordinaryByte]

/-- Witness of C20: 'A' after ESC '[' on the line "ab". -/
theorem C20_unknown_final_byte_ignored_witness :
    Cmd.processByte (fun _ => 7)
        { Cmd.withLine Cmd.exampleRegistry [97, 98] 48 2 with m_buffer_reading_esc := 2 } 65 =
        some ⟨Cmd.withLine Cmd.exampleRegistry [97, 98] 48 2, [], [], Flow.next⟩ ∧
      Cmd.readLoop (fun _ => 7) (Cmd.withLine Cmd.exampleRegistry [97, 98] 48 2)
          [27, 91, 65] =
        some (⟨Cmd.withLine Cmd.exampleRegistry [97, 98] 48 2, [], [], []⟩, false) :=
  C20_unknown_final_byte_ignored (fun _ => 7)
    { Cmd.withLine Cmd.exampleRegistry [97, 98] 48 2 with m_buffer_reading_esc := 2 } 65
    rfl (by decide) (by decide)

/-- C12, as stated, fails: directly after ESC (one escape byte pending) a
byte other than '[' is not discarded.  On the line "ab" the byte 'c' is
echoed and inserted, and a carriage return completes the line. -/
theorem C12_counterexample :
    (Cmd.processByte (fun _ => 7)
        { Cmd.withLine Cmd.exampleRegistry [97, 98] 48 2 with m_buffer_reading_esc := 1 }
        99).map (fun st => (Cmd.content st.cmd, st.cmd.m_buffer_read,
          st.cmd.m_buffer_cursor, st.tx)) =
      some ([97, 98, 99], 3, 3, [99]) ∧
    (Cmd.processByte (fun _ => 7)
        { Cmd.withLine Cmd.exampleRegistry [97, 98] 48 2 with m_buffer_reading_esc := 1 }
        13).map (fun st => st.flow) = some Flow.endLine := by
  decide

/-- C12, amended.  After ESC '[', a byte other than 'C' and 'D' returns the
escape state to idle and is discarded: the object is otherwise unchanged,
nothing is written, no handler is invoked and the byte is not processed as
ordinary input.  Directly after ESC, a byte other than '[' returns the escape
state to idle and is then processed as ordinary input, exactly as the same
byte is processed when no escape sequence is pending. -/
theorem C12_escape_abort (g : Nat → Nat) (c : Cmd) (b : Nat) :
    (c.m_buffer_reading_esc = 2 → b ≠ 67 → b ≠ 68 →
      Cmd.processByte g c b =
        some ⟨{ c with m_buffer_reading_esc := 0 }, [], [], Flow.next⟩) ∧
    (c.m_buffer_reading_esc = 1 → b ≠ 91 →
      Cmd.processByte g c b = Cmd.processByte g { c with m_buffer_reading_esc := 0 } b) := by
  constructor
  · intro h2 hC hD
    simp [Cmd.processByte, h2, hC, hD]
  · intro h1 h91
    simp [Cmd.processByte, h1, h91]

/-- Witness of C12 (amended): 'x' after ESC '[' is discarded; 'x' after ESC
is processed as with no escape sequence pending. -/
theorem C12_escape_abort_witness :
    Cmd.processByte (fun _ => 7)
        { Cmd.withLine Cmd.exampleRegistry [97, 98] 48 2 with m_buffer_reading_esc := 2 } 120 =
      some ⟨Cmd.withLine Cmd.exampleRegistry [97, 98] 48 2, [], [], Flow.next⟩ ∧
    Cmd.processByte (fun _ => 7)
        { Cmd.withLine Cmd.exampleRegistry [97, 98] 48 2 with m_buffer_reading_esc := 1 } 120 =
      Cmd.processByte (fun _ => 7) (Cmd.withLine Cmd.exampleRegistry [97, 98] 48 2) 120 :=
  ⟨(C12_escape_abort (fun _ => 7)
      { Cmd.withLine Cmd.exampleRegistry [97, 98] 48 2 with m_buffer_reading_esc := 2 } 120).1
      rfl (by decide) (by decide),
    (C12_escape_abort (fun _ => 7)
      { Cmd.withLine Cmd.exampleRegistry [97, 98] 48 2 with m_buffer_reading_esc := 1 } 120).2
      rfl (by decide)⟩

/-- C13 at the failing input: a cancel byte followed by a carriage return in
the same burst.  The cancel branch releases the buffer and goes on with the
loop; the carriage return then makes `Loop` write the terminator through the
null pointer, so no line is dispatched.  The blocks are zero-filled here. -/
theorem C13_cancel_then_enter :
    Cmd.Loop (fun _ => 0) Cmd.exampleRegistry [97, 3, 13] = none ∧
    Cmd.Loop (fun _ => 0) Cmd.exampleRegistry [3, 13] = none ∧
    (Cmd.Loop (fun _ => 0) Cmd.exampleRegistry [97, 3]).map
        (fun r => (r.cmd.m_buffer, r.cmd.m_buffer_read, r.rx)) = some (none, 1, []) := by
  decide

/-- C14, as stated, fails.  First part (by design): after ESC '[' the cancel
byte is the final byte of the escape sequence; the line "ab" stays and no
prompt is written.  Second part (by design): the cancel branch releases the
buffer but leaves length and cursor at 2; they are set to 0 by the next
`Loop()` call.  Third part: bytes that follow in the same burst are handled
with the released buffer and the old counters; a cursor-left moves the cursor
to 1 and is echoed after the prompt, and a printable byte is stored through
the null pointer. -/
theorem C14_counterexample :
    Cmd.processByte (fun _ => 0)
        { Cmd.withLine Cmd.exampleRegistry [97, 98] 48 2 with m_buffer_reading_esc := 2 } 3 =
      some ⟨Cmd.withLine Cmd.exampleRegistry [97, 98] 48 2, [], [], Flow.next⟩ ∧
    (Cmd.processByte (fun _ => 0) (Cmd.withLine Cmd.exampleRegistry [97, 98] 48 2) 3).map
        (fun st => (st.cmd.m_buffer, st.cmd.m_buffer_read, st.cmd.m_buffer_cursor)) =
      some (none, 2, 2) ∧
    (Cmd.Loop (fun _ => 0) Cmd.exampleRegistry [97, 98, 3, 27, 91, 68]).map
        (fun r => (r.cmd.m_buffer_read, r.cmd.m_buffer_cursor, r.tx)) =
      some (2, 1, [97, 98, 13, 10, 36, 32, 27, 91, 68]) ∧
    Cmd.Loop (fun _ => 0) Cmd.exampleRegistry [97, 3, 98] = none := by
  decide

/-- C14, amended.  For every state of the object that does not await the
final byte of an ESC '[' sequence, processing a cancel byte (0x03 or 0x04)
writes a line feed and the prompt, releases the line buffer (the content is
discarded), invokes no handler and changes nothing else but a pending ESC;
the next `Loop()` call that finds input allocates an empty line with
cursor = length = 0. -/
theorem C14_cancel_releases_line (g : Nat → Nat) (c : Cmd) (b : Nat)
    (hb : b = 3 ∨ b = 4) (hesc : c.m_buffer_reading_esc ≠ 2) :
    ∃ st, Cmd.processByte g c b = some st ∧
      st = ⟨{ c with
              m_buffer := none
              m_buffer_reading_esc :=
                if c.m_buffer_reading_esc = 1 then 0 else c.m_buffer_reading_esc },
          CRLF ++ c.m_line_indicator, [], Flow.next⟩ ∧
      ∀ g2 : Nat → Nat,
        Cmd.content (Cmd.allocBuffer g2 st.cmd) = [] ∧
        (Cmd.allocBuffer g2 st.cmd).m_buffer_read = 0 ∧
        (Cmd.allocBuffer g2 st.cmd).m_buffer_cursor = 0 := by
  refine ⟨_, ?_, rfl, fun g2 => by simp [Cmd.allocBuffer, Cmd.content]⟩
  by_cases h1 : c.m_buffer_reading_esc = 1
  · rcases hb with rfl | rfl <;>
      simp [Cmd.processByte, h1, Cmd.ordinaryByte, Cmd.deleteKey, Cmd.homeKey, Cmd.endKey,
        Cmd.StartNewBuffer]
  · rcases hb with rfl | rfl <;>
      simp [Cmd.processByte, h1, hesc, Cmd.ordinaryByte, Cmd.deleteKey, Cmd.homeKey,
        Cmd.endKey, Cmd.StartNewBuffer]

/-- Witness of C14 (amended): Ctrl-C on the line "ab". -/
theorem C14_cancel_releases_line_witness :
    ∃ st,
      Cmd.processByte (fun _ => 7) (Cmd.withLine Cmd.exampleRegistry [97, 98] 48 2) 3 =
        some st ∧
      st = ⟨{ Cmd.withLine Cmd.exampleRegistry [97, 98] 48 2 with m_buffer := none },
          [13, 10, 36, 32], [], Flow.next⟩ ∧
      ∀ g2 : Nat → Nat,
        Cmd.content (Cmd.allocBuffer g2 st.cmd) = [] ∧
        (Cmd.allocBuffer g2 st.cmd).m_buffer_read = 0 ∧
        (Cmd.allocBuffer g2 st.cmd).m_buffer_cursor = 0 :=
  C14_cancel_releases_line (fun _ => 7) (Cmd.withLine Cmd.exampleRegistry [97, 98] 48 2) 3
    (Or.inl rfl) (by decide)

/-- C15. For every registry with capacity n = `m_size` and k = `m_nextCmd`
entries: `AddCmd` returns true iff k < n; when it returns true the two tables
are the old ones with the name and the handler stored at index k, all other
slots unchanged, and the count is k + 1; when it returns false the object is
unchanged.  Hence the count never exceeds the capacity: it stays so under
`AddCmd`, and it holds after any number of `AddCmd` calls on a new object. -/
theorem C15_AddCmd_appends (c : Cmd) (cmd : List Nat) (function : Nat)
    (hc : c.m_commands.length = c.m_size) (hf : c.m_functions.length = c.m_size) :
    ((Cmd.AddCmd c cmd function).1 = true ↔ c.m_nextCmd < c.m_size) ∧
    (c.m_nextCmd < c.m_size →
      (Cmd.AddCmd c cmd function).2.m_commands =
          c.m_commands.take c.m_nextCmd ++ some cmd :: c.m_commands.drop (c.m_nextCmd + 1) ∧
        (Cmd.AddCmd c cmd function).2.m_functions =
          c.m_functions.take c.m_nextCmd ++ function :: c.m_functions.drop (c.m_nextCmd + 1) ∧
        (Cmd.AddCmd c cmd function).2.m_nextCmd = c.m_nextCmd + 1 ∧
        (Cmd.AddCmd c cmd function).2 =
          { c with
            m_commands := (Cmd.AddCmd c cmd function).2.m_commands
            m_functions := (Cmd.AddCmd c cmd function).2.m_functions
            m_nextCmd := c.m_nextCmd + 1 }) ∧
    (¬ c.m_nextCmd < c.m_size → (Cmd.AddCmd c cmd function).2 = c) ∧
    (c.m_nextCmd ≤ c.m_size →
      (Cmd.AddCmd c cmd function).2.m_nextCmd ≤ (Cmd.AddCmd c cmd function).2.m_size) ∧
    (∀ (size d : Nat) (gc : Nat → Option (List Nat)) (gf : Nat → Nat)
        (entries : List (List Nat × Nat)),
      (Cmd.AddCmds (Cmd.Cmd size d gc gf) entries).m_nextCmd ≤ size ∧
        (Cmd.AddCmds (Cmd.Cmd size d gc gf) entries).m_size = size) := by
  refine ⟨?_, ?_, ?_, ?_, ?_⟩
  · unfold Cmd.AddCmd
    split
    · simp only [Bool.false_eq_true, false_iff]
      omega
    · simp only [true_iff]
      omega
  · intro hk
    have h1 : ¬ c.m_nextCmd ≥ c.m_size := by omega
    have e1 : (Cmd.AddCmd c cmd function).2 =
        { c with
          m_commands := c.m_commands.set c.m_nextCmd (some cmd)
          m_functions := c.m_functions.set c.m_nextCmd function
          m_nextCmd := c.m_nextCmd + 1 } := by
      simp [Cmd.AddCmd, h1]
    rw [e1]
    refine ⟨?_, ?_, rfl, rfl⟩
    · exact List.set_eq_take_append_cons_drop.trans (by simp [hc, hk])
    · exact List.set_eq_take_append_cons_drop.trans (by simp [hf, hk])
  · intro hk
    have h1 : c.m_nextCmd ≥ c.m_size := by omega
    simp [Cmd.AddCmd, h1]
  · intro hk
    unfold Cmd.AddCmd
    split
    · exact hk
    · simp only
      omega
  · intro size d gc gf entries
    have key : ∀ (es : List (List Nat × Nat)) (c1 : Cmd), c1.m_nextCmd ≤ c1.m_size →
        (Cmd.AddCmds c1 es).m_nextCmd ≤ c1.m_size ∧ (Cmd.AddCmds c1 es).m_size = c1.m_size := by
      intro es
      induction es with
      | nil =>
        intro c1 h
        exact ⟨h, rfl⟩
      | cons e rest ih =>
        intro c1 h
        have h2 : (Cmd.AddCmd c1 e.1 e.2).2.m_size = c1.m_size := by
          unfold Cmd.AddCmd
          split <;> rfl
        have h3 : (Cmd.AddCmd c1 e.1 e.2).2.m_nextCmd ≤ (Cmd.AddCmd c1 e.1 e.2).2.m_size := by
          unfold Cmd.AddCmd
          split
          · exact h
          · simp only
            omega
        have := ih (Cmd.AddCmd c1 e.1 e.2).2 h3
        rw [h2] at this
        exact this
    exact key entries (Cmd.Cmd size d gc gf) (Nat.zero_le _)

/-- Witness of C15: a third `AddCmd` on the full two-slot example registry
fails and changes nothing; the second one of its construction stored the name
at index 1. -/
theorem C15_AddCmd_appends_witness :
    ((Cmd.AddCmd Cmd.exampleRegistry [120] 3).1 = true ↔
        Cmd.exampleRegistry.m_nextCmd < Cmd.exampleRegistry.m_size) ∧
      (Cmd.AddCmd Cmd.exampleRegistry [120] 3) = (false, Cmd.exampleRegistry) ∧
      (Cmd.AddCmd (Cmd.AddCmd (Cmd.Cmd 2 9 (fun _ => none) (fun _ => 0)) [104] 1).2 [120] 3) =
        (true, { Cmd.Cmd 2 9 (fun _ => none) (fun _ => 0) with
                  m_commands := [some [104], some [120]]
                  m_functions := [1, 3]
                  m_nextCmd := 2 }) :=
  ⟨(C15_AddCmd_appends Cmd.exampleRegistry [120] 3 rfl rfl).1, by decide, by decide⟩

/-- C19. For every capacity c ≥ 2.  First part: on an allocated line (length
≤ c - 2) a printable byte other than '?', received with no escape sequence
pending, is stored and counted; when the new length is ≤ c - 2 the line is
not aborted (the loop goes on and the buffer stays), and when the new length
is c - 1 the line is aborted (diagnostic and prompt written, buffer released,
loop left).  Second part: c - 2 such bytes typed on an empty line and followed
by a carriage return are dispatched with the full content.  Third part: over
any sequence of `Loop()` calls from an object without a line, every line
dispatched has at most c - 2 bytes. -/
theorem C19_abort_threshold (g : Nat → Nat) (cap : Nat) (hcap : 2 ≤ cap) :
    (∀ (c : Cmd) (cells : List Nat) (b : Nat),
      c.m_buffer_size = cap → c.m_buffer = some cells → cells.length = cap →
      c.m_buffer_cursor ≤ c.m_buffer_read → c.m_buffer_read + 2 ≤ cap →
      (c.m_buffer_cursor < c.m_buffer_read → 0 ∈ cells ∧ 0 ∉ Cmd.content c) →
      Cmd.printable b → b ≠ 63 → c.m_buffer_reading_esc = 0 →
      ∃ st, Cmd.processByte g c b = some st ∧
        st.cmd.m_buffer_read = c.m_buffer_read + 1 ∧
        (c.m_buffer_read + 1 ≤ cap - 2 → st.flow = Flow.next ∧ st.cmd.m_buffer ≠ none) ∧
        (c.m_buffer_read + 1 = cap - 1 →
          st.flow = Flow.overflow ∧ st.cmd.m_buffer = none ∧
          ∃ pre, st.tx = pre ++ (dataTooLarge ++ CRLF ++ c.m_line_indicator))) ∧
    (∀ (c : Cmd) (s rest : List Nat),
      c.m_buffer_size = cap → c.m_buffer_reading_esc = 0 →
      c.m_buffer_read = 0 → c.m_buffer_cursor = 0 →
      (c.m_buffer = none ∨ ∃ cells, c.m_buffer = some cells ∧ cells.length = c.m_buffer_size) →
      (∀ b ∈ s, Cmd.printable b ∧ b ≠ 63) → s.length = cap - 2 →
      ∃ r, Cmd.Loop g c (s ++ 13 :: rest) = some r ∧ r.rx = rest ∧
        r.calls =
          [Cmd.invoke c (strtok s c.m_separator).1 (strtok s c.m_separator).2 false] ∧
        Cmd.dispatched g c (s ++ 13 :: rest) = some s) ∧
    (∀ (c0 : Cmd) (rx : List Nat) (chunks : List (List Nat)),
      c0.m_buffer_size = cap → c0.m_buffer = none →
      c0.m_buffer_read = 0 → c0.m_buffer_cursor = 0 →
      ∀ line ∈ Cmd.LoopsDispatched g c0 rx chunks, line.length ≤ cap - 2) := by
  refine ⟨?_, ?_, ?_⟩
  · intro c cells b hsize hbuf hlen hcur hread hterm hb hq hesc
    have hterm1 : c.m_buffer_cursor < c.m_buffer_read →
        0 ∈ cells ∧ 0 ∉ cells.take c.m_buffer_read := by
      simpa [Cmd.content, hbuf] using hterm
    have hins := insertKey_eq g c cells b hbuf (by rw [hlen, hsize]) hcur (by omega) hterm1
    have hstep : Cmd.processByte g c b =
        match Cmd.insertKey g c b with
        | none => none
        | some s => some { s with tx := (if c.m_echo then [b] else []) ++ s.tx } := by
      simp only [Cmd.processByte, hesc]
      simp [ordinaryByte_printable g c b hb hq]
    rw [hins] at hstep
    by_cases hbig : c.m_buffer_size - 1 ≤ c.m_buffer_read + 1
    · simp only [hbig, if_true] at hstep
      refine ⟨_, hstep, rfl, fun h => by omega, fun _ => ⟨rfl, rfl, ?_⟩⟩
      exact ⟨_, (List.append_assoc _ _ _).symm⟩
    · simp only [hbig, if_false] at hstep
      exact ⟨_, hstep, rfl, fun _ => ⟨rfl, by simp⟩, fun h => by omega⟩
  · intro c s rest hsize hesc hread hcur hbuf hs hlen
    obtain ⟨r, h1, h2, h3, -, h5⟩ := Loop_typed_cr g c s rest hesc hread hcur hbuf hs
      (by omega)
    exact ⟨r, h1, h2, h3, h5⟩
  · intro c0 rx chunks hsize hbuf hread hcur line hline
    have h0 : Cmd.LineInv cap c0 :=
      ⟨hcap, hsize, by omega, by omega, fun h => absurd hbuf h⟩
    have := LoopsDispatched_length g cap chunks c0 rx h0 line hline
    omega

/-- Witness of C19.  Capacity 5: the third byte of a line does not abort it,
the fourth does.  Default capacity 50: 48 bytes and a carriage return are
dispatched with the full content.  Capacity 5, bytes "abc", Enter, "defgh",
Enter over successive calls: only "abc" is dispatched. -/
theorem C19_abort_threshold_witness :
    (∃ st,
      Cmd.processByte (fun _ => 7)
          (Cmd.withLine (Cmd.SetBufferSize Cmd.exampleRegistry 5) [97, 98] 3 2) 99 = some st ∧
        st.cmd.m_buffer_read = 2 + 1 ∧
        (2 + 1 ≤ 5 - 2 → st.flow = Flow.next ∧ st.cmd.m_buffer ≠ none) ∧
        (2 + 1 = 5 - 1 →
          st.flow = Flow.overflow ∧ st.cmd.m_buffer = none ∧
          ∃ pre, st.tx = pre ++ (dataTooLarge ++ CRLF ++ [36, 32]))) ∧
    (∃ st,
      Cmd.processByte (fun _ => 7)
          (Cmd.withLine (Cmd.SetBufferSize Cmd.exampleRegistry 5) [97, 98, 99] 2 3) 100 =
        some st ∧
        st.cmd.m_buffer_read = 3 + 1 ∧
        (3 + 1 ≤ 5 - 2 → st.flow = Flow.next ∧ st.cmd.m_buffer ≠ none) ∧
        (3 + 1 = 5 - 1 →
          st.flow = Flow.overflow ∧ st.cmd.m_buffer = none ∧
          ∃ pre, st.tx = pre ++ (dataTooLarge ++ CRLF ++ [36, 32]))) ∧
    (∃ r,
      Cmd.Loop (fun _ => 7) Cmd.exampleRegistry (List.replicate 48 97 ++ 13 :: [120]) =
        some r ∧ r.rx = [120] ∧
      r.calls =
        [Cmd.invoke Cmd.exampleRegistry (strtok (List.replicate 48 97) [32]).1
          (strtok (List.replicate 48 97) [32]).2 false] ∧
      Cmd.dispatched (fun _ => 7) Cmd.exampleRegistry (List.replicate 48 97 ++ 13 :: [120]) =
        some (List.replicate 48 97)) ∧
    (Cmd.LoopsDispatched (fun _ => 7) (Cmd.SetBufferSize Cmd.exampleRegistry 5) []
        [[97, 98, 99, 13, 100], [101, 102, 103, 104, 13], []] = [[97, 98, 99]] ∧
      ∀ line ∈ Cmd.LoopsDispatched (fun _ => 7) (Cmd.SetBufferSize Cmd.exampleRegistry 5) []
          [[97, 98, 99, 13, 100], [101, 102, 103, 104, 13], []],
        line.length ≤ 5 - 2) :=
  ⟨(C19_abort_threshold (fun _ => 7) 5 (by decide)).1
      (Cmd.withLine (Cmd.SetBufferSize Cmd.exampleRegistry 5) [97, 98] 3 2)
      ([97, 98] ++ List.replicate 3 7) 99 rfl rfl (by decide) (by decide) (by decide)
      (by decide) (by decide) (by decide) rfl,
    (C19_abort_threshold (fun _ => 7) 5 (by decide)).1
      (Cmd.withLine (Cmd.SetBufferSize Cmd.exampleRegistry 5) [97, 98, 99] 2 3)
      ([97, 98, 99] ++ List.replicate 2 7) 100 rfl rfl (by decide) (by decide) (by decide)
      (by decide) (by decide) (by decide) rfl,
    (C19_abort_threshold (fun _ => 7) 50 (by decide)).2.1 Cmd.exampleRegistry
      (List.replicate 48 97) [120] rfl rfl rfl rfl (Or.inl rfl) (by decide) (by decide),
    by decide,
    (C19_abort_threshold (fun _ => 7) 5 (by decide)).2.2
      (Cmd.SetBufferSize Cmd.exampleRegistry 5) []
      [[97, 98, 99, 13, 100], [101, 102, 103, 104, 13], []] rfl rfl rfl rfl⟩

/-- C16 at the failing input.  With echo enabled and the terminal of the
display property, on a new object whose fresh block holds no NUL byte
(every cell 7): after 'a', 'b' and ESC '[' 'D' the terminal shows "ab" with
the column at 1, in step with the line; the next input 'c' is an insert
inside the line, whose `strcpy(buf, m_buffer)` copies the unterminated block
and runs off its end, so no state follows, for the inputs in calls of their
own and in one burst; a backspace inside the line does the same.  In a
zero-filled block the same inputs are handled and the terminal stays in step:
"acb", then "acdb". -/
theorem C16_unterminated_copy :
    (Cmd.mirror (fun _ => 7) Cmd.exampleRegistry ⟨[], 0, 0⟩
        [Cmd.Edit.key 97, Cmd.Edit.key 98, Cmd.Edit.left, Cmd.Edit.key 99,
          Cmd.Edit.key 100]).map (fun p => (p.2.row, p.2.col, Cmd.content p.1,
            p.1.m_buffer_cursor)) =
      [([97], 1, [97], 1), ([97, 98], 2, [97, 98], 2), ([97, 98], 1, [97, 98], 1)] ∧
    Cmd.Loops (fun _ => 7) Cmd.exampleRegistry [] [[97], [98], [27, 91, 68], [99]] = none ∧
    Cmd.Loops (fun _ => 7) Cmd.exampleRegistry [] [[97, 98, 27, 91, 68, 99]] = none ∧
    (Cmd.mirror (fun _ => 7) Cmd.exampleRegistry ⟨[], 0, 0⟩
        [Cmd.Edit.key 97, Cmd.Edit.key 98, Cmd.Edit.left, Cmd.Edit.backspace]).length = 3 ∧
    (Cmd.mirror (fun _ => 0) Cmd.exampleRegistry ⟨[], 0, 0⟩
        [Cmd.Edit.key 97, Cmd.Edit.key 98, Cmd.Edit.left, Cmd.Edit.key 99,
          Cmd.Edit.key 100]).map (fun p => (p.2.row, p.2.col, Cmd.content p.1,
            p.1.m_buffer_cursor)) =
      [([97], 1, [97], 1), ([97, 98], 2, [97, 98], 2), ([97, 98], 1, [97, 98], 1),
        ([97, 99, 98], 2, [97, 99, 98], 2), ([97, 99, 100, 98], 3, [97, 99, 100, 98], 3)] := by
  decide

/-- C21, as stated, fails: after ESC '[' a control byte is the final byte of
the escape sequence and does nothing else.  On the line "ab" a carriage
return after ESC '[' does not end the read loop and the call dispatches
nothing, while with no escape sequence pending it dispatches the line; a
backspace after ESC '[' leaves "ab", while with no escape sequence pending it
leaves "a". -/
theorem C21_counterexample :
    (Cmd.processByte (fun _ => 7)
        { Cmd.withLine Cmd.exampleRegistry [97, 98] 48 2 with m_buffer_reading_esc := 2 }
        13).map (fun st => st.flow) = some Flow.next ∧
    (Cmd.processByte (fun _ => 7) (Cmd.withLine Cmd.exampleRegistry [97, 98] 48 2)
        13).map (fun st => st.flow) = some Flow.endLine ∧
    (Cmd.Loop (fun _ => 7)
        { Cmd.withLine Cmd.exampleRegistry [97, 98] 48 2 with m_buffer_reading_esc := 2 }
        [13]).map (fun r => (r.calls, Cmd.content r.cmd)) = some ([], [97, 98]) ∧
    (Cmd.Loop (fun _ => 7) (Cmd.withLine Cmd.exampleRegistry [97, 98] 48 2)
        [13]).map (fun r => (r.calls.length, Cmd.content r.cmd)) = some (1, []) ∧
    (Cmd.processByte (fun _ => 7)
        { Cmd.withLine Cmd.exampleRegistry [97, 98] 48 2 with m_buffer_reading_esc := 2 }
        8).map (fun st => Cmd.content st.cmd) = some [97, 98] ∧
    (Cmd.processByte (fun _ => 7) (Cmd.withLine Cmd.exampleRegistry [97, 98] 48 2)
        8).map (fun st => Cmd.content st.cmd) = some [97] := by
  decide

/-- C21, amended.  For every control byte among 0x08, 0x7F, 0x01, 0x05, 0x03,
0x04, 0x0C, '?' and carriage return: directly after ESC the byte has the
effect it has with no escape sequence pending, for the loop body and for the
whole `Loop()` call (content, cursor, length, bytes written, handler
invocations, line completion and dispatch); after ESC '[' the byte ends the
escape sequence and has no other effect. -/
theorem C21_control_bytes (g : Nat → Nat) (c : Cmd) (b : Nat) (rest : List Nat)
    (hb : b ∈ [8, 127, 1, 5, 3, 4, 12, 63, 13]) :
    (c.m_buffer_reading_esc = 1 →
      Cmd.processByte g c b = Cmd.processByte g { c with m_buffer_reading_esc := 0 } b ∧
      Cmd.Loop g c (b :: rest) =
        Cmd.Loop g { c with m_buffer_reading_esc := 0 } (b :: rest)) ∧
    (c.m_buffer_reading_esc = 2 →
      Cmd.processByte g c b =
        some ⟨{ c with m_buffer_reading_esc := 0 }, [], [], Flow.next⟩) := by
  have h91 : b ≠ 91 := by
    intro e
    subst e
    simp at hb
  have h67 : b ≠ 67 := by
    intro e
    subst e
    simp at hb
  have h68 : b ≠ 68 := by
    intro e
    subst e
    simp at hb
  refine ⟨fun h1 => ⟨?_, Loop_after_escape g c b rest h1 h91⟩, fun h2 => ?_⟩
  · simp [Cmd.processByte, h1, h91]
  · simp [Cmd.processByte, h2, h67, h68]

/-- Witness of C21 (amended): a carriage return on the line "ab" directly
after ESC and after ESC '['. -/
theorem C21_control_bytes_witness :
    (Cmd.processByte (fun _ => 7)
          { Cmd.withLine Cmd.exampleRegistry [97, 98] 48 2 with m_buffer_reading_esc := 1 }
          13 =
        Cmd.processByte (fun _ => 7) (Cmd.withLine Cmd.exampleRegistry [97, 98] 48 2) 13 ∧
      Cmd.Loop (fun _ => 7)
          { Cmd.withLine Cmd.exampleRegistry [97, 98] 48 2 with m_buffer_reading_esc := 1 }
          [13, 120] =
        Cmd.Loop (fun _ => 7) (Cmd.withLine Cmd.exampleRegistry [97, 98] 48 2) [13, 120]) ∧
    Cmd.processByte (fun _ => 7)
        { Cmd.withLine Cmd.exampleRegistry [97, 98] 48 2 with m_buffer_reading_esc := 2 } 13 =
      some ⟨Cmd.withLine Cmd.exampleRegistry [97, 98] 48 2, [], [], Flow.next⟩ :=
  ⟨(C21_control_bytes (fun _ => 7)
      { Cmd.withLine Cmd.exampleRegistry [97, 98] 48 2 with m_buffer_reading_esc := 1 } 13
      [120] (by decide)).1 rfl,
    (C21_control_bytes (fun _ => 7)
      { Cmd.withLine Cmd.exampleRegistry [97, 98] 48 2 with m_buffer_reading_esc := 2 } 13
      [] (by decide)).2 rfl⟩

/-- C22. For every state of the object with no escape sequence pending: byte
0x01 sets the cursor to 0 and writes exactly old-cursor copies of ESC '[' 'D';
byte 0x05, on a line with cursor ≤ length, sets the cursor to the length and
writes exactly (length - old cursor) copies of ESC '[' 'C'.  In both cases
only the cursor changes (content and length stay), no handler is invoked and
the read loop goes on. -/
theorem C22_home_end (g : Nat → Nat) (c : Cmd) (hesc : c.m_buffer_reading_esc = 0) :
    (Cmd.processByte g c 1 =
        some ⟨{ c with m_buffer_cursor := 0 },
          (List.replicate c.m_buffer_cursor escD).flatten, [], Flow.next⟩ ∧
      Cmd.content { c with m_buffer_cursor := 0 } = Cmd.content c) ∧
    (c.m_buffer_cursor ≤ c.m_buffer_read →
      Cmd.processByte g c 5 =
          some ⟨{ c with m_buffer_cursor := c.m_buffer_read },
            (List.replicate (c.m_buffer_read - c.m_buffer_cursor) escC).flatten, [],
            Flow.next⟩ ∧
        Cmd.content { c with m_buffer_cursor := c.m_buffer_read } = Cmd.content c) := by
  obtain ⟨h1, h2⟩ := processByte_home_end g c hesc
  exact ⟨⟨h1, rfl⟩, fun hle => ⟨h2 hle, rfl⟩⟩

/-- Witness of C22: on the line "abc" with the cursor at 1, home writes one
ESC '[' 'D' and end writes two ESC '[' 'C'. -/
theorem C22_home_end_witness :
    Cmd.processByte (fun _ => 7) (Cmd.withLine Cmd.exampleRegistry [97, 98, 99] 47 1) 1 =
        some ⟨Cmd.withLine Cmd.exampleRegistry [97, 98, 99] 47 0, [27, 91, 68], [],
          Flow.next⟩ ∧
      Cmd.processByte (fun _ => 7) (Cmd.withLine Cmd.exampleRegistry [97, 98, 99] 47 1) 5 =
        some ⟨Cmd.withLine Cmd.exampleRegistry [97, 98, 99] 47 3,
          [27, 91, 67, 27, 91, 67], [], Flow.next⟩ :=
  ⟨(C22_home_end (fun _ => 7) (Cmd.withLine Cmd.exampleRegistry [97, 98, 99] 47 1) rfl).1.1,
    ((C22_home_end (fun _ => 7) (Cmd.withLine Cmd.exampleRegistry [97, 98, 99] 47 1) rfl).2
      (by decide)).1⟩

/-- C23. For every allocated line with no escape sequence pending, outside a
handler call (length inside the block, content without NUL), byte 0x0C leaves
content, length and cursor unchanged and writes exactly ESC '[' 'H',
ESC '[' 'J', the prompt, the content and (length - cursor) backspaces; the
only change to the object is the terminator stored behind the content. -/
theorem C23_clear_screen (g : Nat → Nat) (c : Cmd) (cells : List Nat)
    (hesc : c.m_buffer_reading_esc = 0) (hproc : c.m_processing = false)
    (hbuf : c.m_buffer = some cells) (hread : c.m_buffer_read < cells.length)
    (hnul : 0 ∉ Cmd.content c) :
    ∃ st, Cmd.processByte g c 12 = some st ∧
      st.cmd = { c with m_buffer := some (cells.set c.m_buffer_read 0) } ∧
      Cmd.content st.cmd = Cmd.content c ∧
      st.cmd.m_buffer_read = c.m_buffer_read ∧
      st.cmd.m_buffer_cursor = c.m_buffer_cursor ∧
      st.tx = [27, 91, 72] ++ [27, 91, 74] ++ c.m_line_indicator ++ Cmd.content c ++
        List.replicate (c.m_buffer_read - c.m_buffer_cursor) 8 ∧
      st.calls = [] ∧ st.flow = Flow.next := by
  have hnul1 : 0 ∉ cells.take c.m_buffer_read := by simpa [Cmd.content, hbuf] using hnul
  refine ⟨_, processByte_clear g c cells hesc hproc hbuf hread hnul1, rfl, ?_, rfl, rfl, ?_,
    rfl, rfl⟩
  · simp [Cmd.content, hbuf, take_set_self]
  · simp [Cmd.content, hbuf]

/-- Witness of C23: Ctrl-L on the line "abc" with the cursor at 1. -/
theorem C23_clear_screen_witness :
    ∃ st, Cmd.processByte (fun _ => 7)
        (Cmd.withLine Cmd.exampleRegistry [97, 98, 99] 47 1) 12 = some st ∧
      st.cmd = { Cmd.withLine Cmd.exampleRegistry [97, 98, 99] 47 1 with
        m_buffer := some (([97, 98, 99] ++ List.replicate 47 7).set 3 0) } ∧
      Cmd.content st.cmd = [97, 98, 99] ∧
      st.cmd.m_buffer_read = 3 ∧ st.cmd.m_buffer_cursor = 1 ∧
      st.tx = [27, 91, 72] ++ [27, 91, 74] ++ [36, 32] ++ [97, 98, 99] ++
        List.replicate (3 - 1) 8 ∧
      st.calls = [] ∧ st.flow = Flow.next :=
  C23_clear_screen (fun _ => 7) (Cmd.withLine Cmd.exampleRegistry [97, 98, 99] 47 1)
    ([97, 98, 99] ++ List.replicate 47 7) rfl rfl rfl (by decide) (by decide)

/-- C24. For every allocated line that is empty or made of separator bytes
only, completed by a carriage return (not taken as the final byte of
ESC '['): the line has no token, `Loop` invokes no registered handler and
invokes the default handler exactly once, with a null command and
`printHelp = false`; the bytes after the carriage return stay unread, a line
feed and the prompt are written and the buffer is released, so that the next
call starts an empty line. -/
theorem C24_empty_line_default (g : Nat → Nat) (c : Cmd) (cells rest : List Nat)
    (hbuf : c.m_buffer = some cells) (hread : c.m_buffer_read < cells.length)
    (hsize : c.m_buffer_read < c.m_buffer_size)
    (hnul : 0 ∉ cells.take c.m_buffer_read) (hesc : c.m_buffer_reading_esc ≠ 2)
    (hsep : ∀ b ∈ Cmd.content c, b ∈ c.m_separator) :
    Cmd.tokens c.m_separator (Cmd.content c) = [] ∧
    ∃ r, Cmd.Loop g c (13 :: rest) = some r ∧ r.rx = rest ∧
      r.calls = [⟨none, c.m_defaultFunction, none, false, []⟩] ∧
      r.tx = CRLF ++ c.m_line_indicator ∧ r.cmd.m_buffer = none ∧
      ∀ g2 : Nat → Nat,
        Cmd.content (Cmd.allocBuffer g2 r.cmd) = [] ∧
        (Cmd.allocBuffer g2 r.cmd).m_buffer_read = 0 ∧
        (Cmd.allocBuffer g2 r.cmd).m_buffer_cursor = 0 := by
  obtain ⟨h1, h2⟩ := strtok_separators (Cmd.content c) c.m_separator hsep
  refine ⟨h2, _, Loop_cr g c cells rest hbuf hread hsize hnul hesc, rfl, ?_, rfl, rfl,
    fun g2 => by simp [Cmd.allocBuffer, Cmd.content]⟩
  simp [h1, Cmd.invoke]

/-- Witness of C24: Enter on the line "  " (two spaces); Enter alone and two
spaces followed by Enter typed on a new object. -/
theorem C24_empty_line_default_witness :
    (Cmd.tokens [32] [32, 32] = [] ∧
      ∃ r, Cmd.Loop (fun _ => 7) (Cmd.withLine Cmd.exampleRegistry [32, 32] 48 2) [13, 120] =
          some r ∧ r.rx = [120] ∧
        r.calls = [⟨none, 9, none, false, []⟩] ∧
        r.tx = CRLF ++ [36, 32] ∧ r.cmd.m_buffer = none ∧
        ∀ g2 : Nat → Nat,
          Cmd.content (Cmd.allocBuffer g2 r.cmd) = [] ∧
          (Cmd.allocBuffer g2 r.cmd).m_buffer_read = 0 ∧
          (Cmd.allocBuffer g2 r.cmd).m_buffer_cursor = 0) ∧
    (Cmd.Loop (fun _ => 7) Cmd.exampleRegistry [13]).map (fun r => r.calls) =
      some [⟨none, 9, none, false, []⟩] ∧
    (Cmd.Loop (fun _ => 7) Cmd.exampleRegistry [32, 32, 13]).map (fun r => r.calls) =
      some [⟨none, 9, none, false, []⟩] :=
  ⟨C24_empty_line_default (fun _ => 7) (Cmd.withLine Cmd.exampleRegistry [32, 32] 48 2)
      ([32, 32] ++ List.replicate 48 7) [120] rfl (by decide) (by decide) (by decide)
      (by decide) (by decide),
    by decide, by decide⟩

/-- C27. For every capacity ≥ 2 and every sequence of input bytes, split into
`Loop()` calls in any way, starting from an object without a line: in every
object produced, after each byte handled and at the return of each call,
every byte of the content is in the printable range 32-126 and is not '?';
every line dispatched holds only such bytes, so no token a handler pulls from
it, for any separator, holds '?'.  A '?' received with no escape sequence
pending is never inserted: when the pass returns, the content, the length and
the cursor are unchanged and exactly one handler was invoked, with
`printHelp = true`. -/
theorem C27_content_printable (g : Nat → Nat) (cap : Nat) (c0 : Cmd) (rx : List Nat)
    (chunks : List (List Nat)) (hcap : 2 ≤ cap) (hsize : c0.m_buffer_size = cap)
    (hbuf : c0.m_buffer = none) (hread : c0.m_buffer_read = 0)
    (hcur : c0.m_buffer_cursor = 0) :
    (∀ c ∈ Cmd.LoopsStates g c0 rx chunks,
      ∀ b ∈ Cmd.content c, Cmd.printable b ∧ b ≠ 63) ∧
    (∀ line ∈ Cmd.LoopsDispatched g c0 rx chunks,
      (∀ b ∈ line, Cmd.printable b ∧ b ≠ 63) ∧
        ∀ sep, ∀ t ∈ Cmd.tokens sep line, 63 ∉ t) ∧
    (∀ (c : Cmd) (st : Step), c.m_buffer_reading_esc = 0 →
      Cmd.processByte g c 63 = some st →
      Cmd.content st.cmd = Cmd.content c ∧ st.cmd.m_buffer_read = c.m_buffer_read ∧
        st.cmd.m_buffer_cursor = c.m_buffer_cursor ∧
        st.calls.length = 1 ∧ ∀ call ∈ st.calls, call.printHelp = true) := by
  have h0 : Cmd.LineInv cap c0 :=
    ⟨hcap, hsize, by omega, by omega, fun h => absurd hbuf h⟩
  have h1 : Cmd.Clean cap c0 := Clean_released cap c0 hbuf
  refine ⟨fun c hc b hb => ?_, fun line hl => ?_, fun c st hesc hp => ?_⟩
  · have m := LoopsStates_clean g cap chunks c0 rx h0 h1 c hc
    cases hbf : c.m_buffer with
    | none => simp [Cmd.content, hbf] at hb
    | some cells =>
      simp only [Cmd.content, hbf] at hb
      exact (m cells hbf).2 b hb
  · have m := LoopsDispatched_clean g cap chunks c0 rx h0 h1 line hl
    refine ⟨m, fun sep t ht h63 => ?_⟩
    exact (m 63 (tokens_subset sep line.length line (Nat.le_refl _) t ht h63)).2 rfl
  · simp only [Cmd.processByte, hesc, ordinaryByte_help] at hp
    have hne : ¬ ((0 : Nat) = 1) := by decide
    have hne2 : ¬ ((0 : Nat) = 2) := by decide
    simp only [hne, hne2, if_false] at hp
    cases hk : Cmd.helpKey g c with
    | none => simp [hk] at hp
    | some p =>
      obtain ⟨c3, t3, calls⟩ := p
      simp only [hk, Option.some.injEq] at hp
      subst hp
      exact helpKey_content g c c3 t3 calls hk

/-- Witness of C27: capacity 50, on a new object the bursts "h?i" and
ESC "?" Enter.  Both question marks ask for help and neither is stored; the
line dispatched is "hi". -/
theorem C27_content_printable_witness :
    ((∀ c ∈ Cmd.LoopsStates (fun _ => 7) Cmd.exampleRegistry []
          [[104, 63, 105], [27, 63, 13]],
        ∀ b ∈ Cmd.content c, Cmd.printable b ∧ b ≠ 63) ∧
      (∀ line ∈ Cmd.LoopsDispatched (fun _ => 7) Cmd.exampleRegistry []
          [[104, 63, 105], [27, 63, 13]],
        (∀ b ∈ line, Cmd.printable b ∧ b ≠ 63) ∧
          ∀ sep, ∀ t ∈ Cmd.tokens sep line, 63 ∉ t) ∧
      (∀ (c : Cmd) (st : Step), c.m_buffer_reading_esc = 0 →
        Cmd.processByte (fun _ => 7) c 63 = some st →
        Cmd.content st.cmd = Cmd.content c ∧ st.cmd.m_buffer_read = c.m_buffer_read ∧
          st.cmd.m_buffer_cursor = c.m_buffer_cursor ∧
          st.calls.length = 1 ∧ ∀ call ∈ st.calls, call.printHelp = true)) ∧
    Cmd.LoopsDispatched (fun _ => 7) Cmd.exampleRegistry []
        [[104, 63, 105], [27, 63, 13]] = [[104, 105]] ∧
    (Cmd.Loops (fun _ => 7) Cmd.exampleRegistry [] [[104, 63, 105], [27, 63, 13]]).map
        (fun r => r.calls.map (fun call => (call.command, call.printHelp))) =
      some [(some [104], true), (some [104, 105], true), (some [104, 105], false)] :=
  ⟨C27_content_printable (fun _ => 7) 50 Cmd.exampleRegistry []
      [[104, 63, 105], [27, 63, 13]] (by decide) rfl rfl rfl rfl,
    by decide, by decide⟩

/-- C26 at the failing inputs.  First defect: after 'a' and a cancel byte the
call goes on with the buffer released and length and cursor still 1; a
printable byte, Ctrl-L, '?' or a backspace that follows in the same burst
then reads or writes through the null pointer.  Second defect: after "ab"
and cursor-left in a fresh block that holds no NUL, 'c' makes the insert
branch copy the unterminated line with `strcpy`, which reads past the end of
the block; in a zero-filled block the same burst is handled. -/
theorem C26_access_after_release :
    (Cmd.Loop (fun _ => 0) Cmd.exampleRegistry [97, 3]).map
        (fun r => (r.cmd.m_buffer, r.cmd.m_buffer_read, r.cmd.m_buffer_cursor)) =
      some (none, 1, 1) ∧
    Cmd.Loop (fun _ => 0) Cmd.exampleRegistry [97, 3, 98] = none ∧
    Cmd.Loop (fun _ => 0) Cmd.exampleRegistry [97, 3, 12] = none ∧
    Cmd.Loop (fun _ => 0) Cmd.exampleRegistry [97, 3, 63] = none ∧
    Cmd.Loop (fun _ => 0) Cmd.exampleRegistry [97, 3, 8] = none ∧
    Cmd.Loop (fun _ => 7) Cmd.exampleRegistry [97, 98, 27, 91, 68, 99] = none ∧
    (Cmd.Loop (fun _ => 0) Cmd.exampleRegistry [97, 98, 27, 91, 68, 99]).map
        (fun r => Cmd.content r.cmd) = some [97, 99, 98] := by
  decide

/-- C25, as stated, fails: the handler validates the number `atoi` returns
and not the decimal number written in the token.  With the 16-bit `int` of an
AVR target and an `atoi` that wraps on overflow, for the text "65537 500" both
tokens are present and the number written in the first is 65537, outside
[1, 999], yet it is read as 1 and the handler counts down from 1 (eight panel
operations).  With a 32-bit `int` the same happens for "4294967297 500". -/
theorem C25_counterexample :
    ¬ (run_countdown_tests 16 atoiValue setupCmd (some countdownName) false
          [54, 53, 53, 51, 55, 32, 53, 48, 48] ≠ [] ↔
        ∃ p1 p2, Cmd.pulls setupCmd 2 [54, 53, 53, 51, 55, 32, 53, 48, 48] =
            [some p1, some p2] ∧
          (1 ≤ atoiValue p1 ∧ atoiValue p1 ≤ 999) ∧
          (100 ≤ atoiValue p2 ∧ atoiValue p2 ≤ 10000)) ∧
    Cmd.pulls setupCmd 2 [54, 53, 53, 51, 55, 32, 53, 48, 48] =
      [some [54, 53, 53, 51, 55], some [53, 48, 48]] ∧
    atoiValue [54, 53, 53, 51, 55] = 65537 ∧ atoiValue [53, 48, 48] = 500 ∧
    atoi 16 atoiValue [54, 53, 53, 51, 55] = 1 ∧
    run_countdown_tests 16 atoiValue setupCmd (some countdownName) false
        [54, 53, 53, 51, 55, 32, 53, 48, 48] =
      countdownFrom 1 ++ print_test_completed ++ [Display.fillScreen COLOR_BLACK] ∧
    (run_countdown_tests 16 atoiValue setupCmd (some countdownName) false
        [54, 53, 53, 51, 55, 32, 53, 48, 48]).length = 8 ∧
    atoiValue [52, 50, 57, 52, 57, 54, 55, 50, 57, 55] = 4294967297 ∧
    run_countdown_tests 32 atoiValue setupCmd (some countdownName) false
        [52, 50, 57, 52, 57, 54, 55, 50, 57, 55, 32, 53, 48, 48] =
      countdownFrom 1 ++ print_test_completed ++ [Display.fillScreen COLOR_BLACK] := by
  refine ⟨?_, by decide, by decide, by decide, by decide, by decide, by decide, by decide,
    by decide⟩
  intro h
  have hne : run_countdown_tests 16 atoiValue setupCmd (some countdownName) false
      [54, 53, 53, 51, 55, 32, 53, 48, 48] ≠ [] := by decide
  obtain ⟨p1, p2, hp, hs, -⟩ := h.1 hne
  have hpull : Cmd.pulls setupCmd 2 [54, 53, 53, 51, 55, 32, 53, 48, 48] =
      [some [54, 53, 53, 51, 55], some [53, 48, 48]] := by decide
  rw [hpull] at hp
  simp only [List.cons.injEq, Option.some.injEq, and_true] at hp
  obtain ⟨e1, -⟩ := hp
  subst e1
  have hv : atoiValue [54, 53, 53, 51, 55] = 65537 := by decide
  rw [hv] at hs
  omega

/-- C25, amended.  The handler `run_countdown_tests`, called with a command,
operates the matrix panel if and only if both argument tokens are present and
the numbers `atoi` reads from them are in range: seconds in [1, 999] and
delay_ms in [100, 10000].  For a token whose decimal number fits the `int` of
the target (at most 32 bits) the number `atoi` reads is that decimal number;
so, for tokens that fit, the handler operates the panel exactly when the
numbers written are in these ranges, and a token read as 0, a negative number
and a number outside the ranges give no display action.  A missing token
gives no display action. -/
theorem C25_countdown_validation (intBits : Nat) (ov : List Nat → Int) (c : Cmd)
    (command : List Nat) (printHelp : Bool) (saved : List Nat)
    (hbits : 1 ≤ intBits ∧ intBits ≤ 32) :
    (run_countdown_tests intBits ov c (some command) printHelp saved ≠ [] ↔
      ∃ p1 p2, Cmd.pulls c 2 saved = [some p1, some p2] ∧
        (1 ≤ atoi intBits ov p1 ∧ atoi intBits ov p1 ≤ 999) ∧
        (100 ≤ atoi intBits ov p2 ∧ atoi intBits ov p2 ≤ 10000)) ∧
    (∀ p, fitsInt intBits (atoiValue p) → atoi intBits ov p = atoiValue p) ∧
    (∀ p1 p2, Cmd.pulls c 2 saved = [some p1, some p2] →
      fitsInt intBits (atoiValue p1) →
      (1 ≤ atoiValue p1 ∧ atoiValue p1 ≤ 999 → fitsInt intBits (atoiValue p2)) →
      (run_countdown_tests intBits ov c (some command) printHelp saved ≠ [] ↔
        (1 ≤ atoiValue p1 ∧ atoiValue p1 ≤ 999) ∧
        (100 ≤ atoiValue p2 ∧ atoiValue p2 ≤ 10000))) ∧
    ((∀ p1 p2, Cmd.pulls c 2 saved ≠ [some p1, some p2]) →
      run_countdown_tests intBits ov c (some command) printHelp saved = []) := by
  have hmain : run_countdown_tests intBits ov c (some command) printHelp saved ≠ [] ↔
      ∃ p1 p2, Cmd.pulls c 2 saved = [some p1, some p2] ∧
        (1 ≤ atoi intBits ov p1 ∧ atoi intBits ov p1 ≤ 999) ∧
        (100 ≤ atoi intBits ov p2 ∧ atoi intBits ov p2 ≤ 10000) := by
    rw [run_countdown_tests_iff]
    have hr : ∀ (p : List Nat) (lo hi : Nat), 1 ≤ lo → hi ≤ 10000 →
        ((lo ≤ toUint32 (atoi intBits ov p) ∧ toUint32 (atoi intBits ov p) ≤ hi) ↔
          ((lo : Int) ≤ atoi intBits ov p ∧ atoi intBits ov p ≤ (hi : Int))) :=
      fun p lo hi h1 h2 =>
        toUint32_range intBits _ lo hi hbits.2 (atoi_fits intBits ov p hbits.1) h1 h2
    constructor
    · rintro ⟨-, p1, p2, hp, hA, hB⟩
      exact ⟨p1, p2, hp, by simpa using (hr p1 1 999 (by decide) (by decide)).1 hA,
        by simpa using (hr p2 100 10000 (by decide) (by decide)).1 hB⟩
    · rintro ⟨p1, p2, hp, hA, hB⟩
      exact ⟨by simp, p1, p2, hp,
        (hr p1 1 999 (by decide) (by decide)).2 (by simpa using hA),
        (hr p2 100 10000 (by decide) (by decide)).2 (by simpa using hB)⟩
  refine ⟨hmain, fun p hp => atoi_of_fits intBits ov p hp, ?_, ?_⟩
  · intro p1 p2 hp h1 h2
    rw [hmain]
    constructor
    · rintro ⟨q1, q2, hq, hs, hd⟩
      rw [hp] at hq
      simp only [List.cons.injEq, Option.some.injEq, and_true] at hq
      obtain ⟨e1, e2⟩ := hq
      subst e1 e2
      rw [atoi_of_fits intBits ov p1 h1] at hs
      rw [atoi_of_fits intBits ov p2 (h2 hs)] at hd
      exact ⟨hs, hd⟩
    · rintro ⟨hs, hd⟩
      refine ⟨p1, p2, hp, ?_, ?_⟩
      · rw [atoi_of_fits intBits ov p1 h1]
        exact hs
      · rw [atoi_of_fits intBits ov p2 (h2 hs)]
        exact hd
  · intro hno
    by_contra hne
    obtain ⟨p1, p2, hp, -, -⟩ := hmain.1 hne
    exact hno p1 p2 hp

/-- Witness of C25 (amended), with a 16-bit `int`, an `atoi` that wraps on
overflow and separator " ".  "5 500" runs the countdown from 5 (six numbers,
then the closing message); "999 10000" is accepted; a missing token, "0",
"abc", "-5", "1000" for the seconds and "99", "10001", "-100" for the delay
give no display action, and so does a null command.  The line
"run_countdown_test 5 500" typed into the object of `setup()` reaches the
handler with "5 500" left to parse. -/
theorem C25_countdown_validation_witness :
    ((run_countdown_tests 16 atoiValue setupCmd (some countdownName) false [53, 32, 53, 48, 48] ≠ [] ↔
        ∃ p1 p2, Cmd.pulls setupCmd 2 [53, 32, 53, 48, 48] = [some p1, some p2] ∧
          (1 ≤ atoi 16 atoiValue p1 ∧ atoi 16 atoiValue p1 ≤ 999) ∧
          (100 ≤ atoi 16 atoiValue p2 ∧ atoi 16 atoiValue p2 ≤ 10000)) ∧
      (∀ p, fitsInt 16 (atoiValue p) → atoi 16 atoiValue p = atoiValue p) ∧
      (∀ p1 p2, Cmd.pulls setupCmd 2 [53, 32, 53, 48, 48] = [some p1, some p2] →
        fitsInt 16 (atoiValue p1) →
        (1 ≤ atoiValue p1 ∧ atoiValue p1 ≤ 999 → fitsInt 16 (atoiValue p2)) →
        (run_countdown_tests 16 atoiValue setupCmd (some countdownName) false [53, 32, 53, 48, 48] ≠ [] ↔
          (1 ≤ atoiValue p1 ∧ atoiValue p1 ≤ 999) ∧
          (100 ≤ atoiValue p2 ∧ atoiValue p2 ≤ 10000))) ∧
      ((∀ p1 p2, Cmd.pulls setupCmd 2 [53, 32, 53, 48, 48] ≠ [some p1, some p2]) →
        run_countdown_tests 16 atoiValue setupCmd (some countdownName) false [53, 32, 53, 48, 48] = [])) ∧
    (run_countdown_tests 16 atoiValue setupCmd (some countdownName) false [53, 32, 53, 48, 48] =
        countdownFrom 5 ++ print_test_completed ++ [Display.fillScreen COLOR_BLACK] ∧
      (countdownFrom 5).length = 12 ∧
      run_countdown_tests 16 atoiValue setupCmd (some countdownName) false
        [57, 57, 57, 32, 49, 48, 48, 48, 48] ≠ []) ∧
    (run_countdown_tests 16 atoiValue setupCmd (some countdownName) false [] = [] ∧
      run_countdown_tests 16 atoiValue setupCmd (some countdownName) false [53] = [] ∧
      run_countdown_tests 16 atoiValue setupCmd (some countdownName) false
        [48, 32, 53, 48, 48] = [] ∧
      run_countdown_tests 16 atoiValue setupCmd (some countdownName) false
        [97, 98, 99, 32, 53, 48, 48] = [] ∧
      run_countdown_tests 16 atoiValue setupCmd (some countdownName) false
        [45, 53, 32, 53, 48, 48] = [] ∧
      run_countdown_tests 16 atoiValue setupCmd (some countdownName) false
        [49, 48, 48, 48, 32, 53, 48, 48] = [] ∧
      run_countdown_tests 16 atoiValue setupCmd (some countdownName) false
        [53, 32, 57, 57] = [] ∧
      run_countdown_tests 16 atoiValue setupCmd (some countdownName) false
        [53, 32, 49, 48, 48, 48, 49] = [] ∧
      run_countdown_tests 16 atoiValue setupCmd (some countdownName) false
        [53, 32, 45, 49, 48, 48] = [] ∧
      run_countdown_tests 16 atoiValue setupCmd none false [53, 32, 53, 48, 48] = []) ∧
    (Cmd.Loop (fun _ => 7) setupCmd
        [114, 117, 110, 95, 99, 111, 117, 110, 116, 100, 111, 119, 110, 95, 116, 101, 115, 116,
          32, 53, 32, 53, 48, 48, 13]).map
        (fun r => r.calls) =
      some [⟨some 2, 3, some countdownName, false, [53, 32, 53, 48, 48]⟩] :=
  ⟨C25_countdown_validation 16 atoiValue setupCmd countdownName false [53, 32, 53, 48, 48]
      (by decide),
    by decide, by decide, by decide⟩

end LedCmd
